import Mathlib

/-!
# One-time ECDSA signatures over secp256k1 (`ots.go`)

A shallow embedding of `GenerateOTS` and `OTS.Verify`, together with executable
models of the collaborators they call (SHA-256, the secp256k1 arithmetic
provider, the recovery / verification primitives and the address derivation),
followed by the theorems that settle the properties of the specification.
-/

set_option linter.unusedVariables false

namespace ots

/-! ## Byte strings -/

/-- Big-endian value of a byte string. -/
def beToNat (bs : List UInt8) : Nat :=
  bs.foldl (fun acc b => acc * 256 + b.toNat) 0

/-- Fixed-width big-endian encoding: the low `len` bytes of `x`. -/
def natToBE : Nat → Nat → List UInt8
  | 0, _ => []
  | len + 1, x => natToBE len (x / 256) ++ [UInt8.ofNat (x % 256)]

/-- Little-endian value of a byte string. -/
def leToNat : List UInt8 → Nat
  | [] => 0
  | b :: bs => b.toNat + 256 * leToNat bs

/-- Fixed-width little-endian encoding: the low `len` bytes of `x`. -/
def natToLE : Nat → Nat → List UInt8
  | 0, _ => []
  | len + 1, x => UInt8.ofNat (x % 256) :: natToLE len (x / 256)

/-- Cut a list into `n` consecutive chunks of `size` elements. -/
def chunks {α : Type} (size : Nat) : Nat → List α → List (List α)
  | 0, _ => []
  | n + 1, l => l.take size :: chunks size n (l.drop size)

/-! ## SHA-256 (FIPS 180-4), the model of `crypto/sha256` -/

namespace sha256

def K : List Nat := [
  0x428a2f98, 0x71374491, 0xb5c0fbcf, 0xe9b5dba5, 0x3956c25b, 0x59f111f1, 0x923f82a4, 0xab1c5ed5,
  0xd807aa98, 0x12835b01, 0x243185be, 0x550c7dc3, 0x72be5d74, 0x80deb1fe, 0x9bdc06a7, 0xc19bf174,
  0xe49b69c1, 0xefbe4786, 0x0fc19dc6, 0x240ca1cc, 0x2de92c6f, 0x4a7484aa, 0x5cb0a9dc, 0x76f988da,
  0x983e5152, 0xa831c66d, 0xb00327c8, 0xbf597fc7, 0xc6e00bf3, 0xd5a79147, 0x06ca6351, 0x14292967,
  0x27b70a85, 0x2e1b2138, 0x4d2c6dfc, 0x53380d13, 0x650a7354, 0x766a0abb, 0x81c2c92e, 0x92722c85,
  0xa2bfe8a1, 0xa81a664b, 0xc24b8b70, 0xc76c51a3, 0xd192e819, 0xd6990624, 0xf40e3585, 0x106aa070,
  0x19a4c116, 0x1e376c08, 0x2748774c, 0x34b0bcb5, 0x391c0cb3, 0x4ed8aa4a, 0x5b9cca4f, 0x682e6ff3,
  0x748f82ee, 0x78a5636f, 0x84c87814, 0x8cc70208, 0x90befffa, 0xa4506ceb, 0xbef9a3f7, 0xc67178f2]

def H0 : List Nat := [
  0x6a09e667, 0xbb67ae85, 0x3c6ef372, 0xa54ff53a, 0x510e527f, 0x9b05688c, 0x1f83d9ab, 0x5be0cd19]

def rotr (n x : Nat) : Nat := ((x >>> n) ||| (x <<< (32 - n))) % 2 ^ 32

def ch (e f g : Nat) : Nat := (e &&& f) ^^^ ((e ^^^ 0xffffffff) &&& g)

def maj (a b c : Nat) : Nat := (a &&& b) ^^^ (a &&& c) ^^^ (b &&& c)

def bigSigma0 (x : Nat) : Nat := rotr 2 x ^^^ rotr 13 x ^^^ rotr 22 x

def bigSigma1 (x : Nat) : Nat := rotr 6 x ^^^ rotr 11 x ^^^ rotr 25 x

def smallSigma0 (x : Nat) : Nat := rotr 7 x ^^^ rotr 18 x ^^^ (x >>> 3)

def smallSigma1 (x : Nat) : Nat := rotr 17 x ^^^ rotr 19 x ^^^ (x >>> 10)

/-- Padding: a `0x80` byte, zeros up to 56 mod 64, then the bit length on 8 bytes. -/
def pad (msg : List UInt8) : List UInt8 :=
  msg ++ [0x80] ++ List.replicate ((119 - msg.length % 64) % 64) 0 ++ natToBE 8 (8 * msg.length)

/-- Message schedule, most recent word first: extends the list by `n` words. -/
def extend : Nat → List Nat → List Nat
  | 0, w => w
  | n + 1, w =>
    extend n (((smallSigma1 (w.getD 1 0) + w.getD 6 0 + smallSigma0 (w.getD 14 0)
      + w.getD 15 0) % 2 ^ 32) :: w)

/-- The 64 schedule words of a 64-byte block. -/
def schedule (block : List UInt8) : List Nat :=
  (extend 48 ((chunks 4 16 block).map beToNat).reverse).reverse

/-- One round on the working variables `[a, b, c, d, e, f, g, h]`. -/
def round (st : List Nat) (kw : Nat × Nat) : List Nat :=
  match st with
  | [a, b, c, d, e, f, g, h] =>
    let t1 := h + bigSigma1 e + ch e f g + kw.1 + kw.2
    let t2 := bigSigma0 a + maj a b c
    [(t1 + t2) % 2 ^ 32, a, b, c, (d + t1) % 2 ^ 32, e, f, g]
  | _ => st

/-- Compression of one block into the chaining value. -/
def compress (h : List Nat) (block : List UInt8) : List Nat :=
  List.zipWith (fun x y => (x + y) % 2 ^ 32) h ((K.zip (schedule block)).foldl round h)

/-- The digest, 32 bytes: `sha256.Sum256`. -/
def Sum256 (msg : List UInt8) : List UInt8 :=
  let padded := pad msg
  (((chunks 64 (padded.length / 64) padded).foldl compress H0).map (natToBE 4)).flatten

end sha256

/-! ## Keccak-256, the model of `crypto.Keccak256` -/

namespace keccak

def RC : List Nat := [
  0x0000000000000001, 0x0000000000008082, 0x800000000000808A, 0x8000000080008000,
  0x000000000000808B, 0x0000000080000001, 0x8000000080008081, 0x8000000000008009,
  0x000000000000008A, 0x0000000000000088, 0x0000000080008009, 0x000000008000000A,
  0x000000008000808B, 0x800000000000008B, 0x8000000000008089, 0x8000000000008003,
  0x8000000000008002, 0x8000000000000080, 0x000000000000800A, 0x800000008000000A,
  0x8000000080008081, 0x8000000000008080, 0x0000000080000001, 0x8000000080008008]

/-- Rotation offsets, lane `(x, y)` at index `x + 5 * y`. -/
def rotc : List Nat := [
  0, 1, 62, 28, 27, 36, 44, 6, 55, 20, 3, 10, 43, 25, 39, 41, 45, 15, 21, 8, 18, 2, 61, 56, 14]

def rotl (n x : Nat) : Nat := ((x <<< n) ||| (x >>> (64 - n))) % 2 ^ 64

def lane (a : List Nat) (x y : Nat) : Nat := a.getD (x % 5 + 5 * (y % 5)) 0

def theta (a : List Nat) : List Nat :=
  let c := (List.range 5).map fun x =>
    lane a x 0 ^^^ lane a x 1 ^^^ lane a x 2 ^^^ lane a x 3 ^^^ lane a x 4
  let d := (List.range 5).map fun x => c.getD ((x + 4) % 5) 0 ^^^ rotl 1 (c.getD ((x + 1) % 5) 0)
  (List.range 25).map fun i => a.getD i 0 ^^^ d.getD (i % 5) 0

/-- Steps rho and pi: lane `(x, y)` of the result is the rotated lane `(x + 3 * y, x)`. -/
def rhoPi (a : List Nat) : List Nat :=
  (List.range 25).map fun i =>
    let x := i % 5
    let y := i / 5
    let src := (x + 3 * y) % 5 + 5 * x
    rotl (rotc.getD src 0) (a.getD src 0)

def chi (b : List Nat) : List Nat :=
  (List.range 25).map fun i =>
    let x := i % 5
    let y := i / 5
    lane b x y ^^^ ((lane b (x + 1) y ^^^ 0xFFFFFFFFFFFFFFFF) &&& lane b (x + 2) y)

def iota (rc : Nat) (a : List Nat) : List Nat :=
  match a with
  | [] => []
  | a0 :: rest => (a0 ^^^ rc) :: rest

/-- The permutation Keccak-f[1600]: 24 rounds. -/
def permute (a : List Nat) : List Nat :=
  RC.foldl (fun st rc => iota rc (chi (rhoPi (theta st)))) a

/-- Padding to a multiple of the rate (136 bytes) with the Keccak domain byte `0x01`. -/
def pad (msg : List UInt8) : List UInt8 :=
  let fill := 135 - msg.length % 136
  if fill = 0 then msg ++ [0x81]
  else msg ++ [0x01] ++ List.replicate (fill - 1) 0 ++ [0x80]

/-- Absorb one 136-byte block. -/
def absorb (st : List Nat) (block : List UInt8) : List Nat :=
  let lanes := (chunks 8 17 block).map leToNat
  permute ((List.range 25).map fun i => st.getD i 0 ^^^ lanes.getD i 0)

/-- The 32-byte Keccak-256 digest. -/
def Keccak256 (msg : List UInt8) : List UInt8 :=
  let padded := pad msg
  let st := (chunks 136 (padded.length / 136) padded).foldl absorb (List.replicate 25 0)
  ((st.take 4).map (natToLE 8)).flatten

end keccak

/-! ## The secp256k1 arithmetic provider (`dcrec/secp256k1`) -/

namespace secp256k1

/-- The field prime `p = 2^256 - 2^32 - 977`. -/
def P : Nat := 0xFFFFFFFFFFFFFFFFFFFFFFFFFFFFFFFFFFFFFFFFFFFFFFFFFFFFFFFEFFFFFC2F

/-- The group order `n`. -/
def N : Nat := 0xFFFFFFFFFFFFFFFFFFFFFFFFFFFFFFFEBAAEDCE6AF48A03BBFD25E8CD0364141

def Gx : Nat := 0x79BE667EF9DCBBAC55A06295CE870B07029BFCDB2DCE28D959F2815B16F81798

def Gy : Nat := 0x483ADA7726A3C4655DA4FBFC0E1108A8FD17B448A68554199C47D08FFB10D4B8

/-- Square-and-multiply, `fuel` bounding the number of exponent bits. -/
def powModAux (m : Nat) : Nat → Nat → Nat → Nat → Nat
  | 0, _, _, acc => acc
  | fuel + 1, b, e, acc =>
    if e = 0 then acc
    else powModAux m fuel (b * b % m) (e / 2) (if e % 2 = 1 then acc * b % m else acc)

/-- Modular exponentiation `b ^ e mod m`. -/
def powMod (b e m : Nat) : Nat := powModAux m e (b % m) e (1 % m)

/-- `FieldVal` subtraction on residues modulo `P`. -/
def fSub (a b : Nat) : Nat := (a + (P - b % P)) % P

/-- `FieldVal.Inverse`: Fermat inversion, `0` for `0`. -/
def fInv (a : Nat) : Nat := powMod a (P - 2) P

/-- A point in Jacobian projective coordinates; `Z = 0` is the point at infinity. -/
structure JacobianPoint where
  X : Nat
  Y : Nat
  Z : Nat
deriving DecidableEq, Repr

def infinity : JacobianPoint := ⟨0, 0, 0⟩

/-- The base point `G`. -/
def G : JacobianPoint := ⟨Gx, Gy, 1⟩

/-- `DoubleNonConst`: point doubling (curve coefficient `a = 0`). -/
def DoubleNonConst (p : JacobianPoint) : JacobianPoint :=
  let yy := p.Y * p.Y % P
  let s := 4 * p.X % P * yy % P
  let m := 3 * (p.X * p.X % P) % P
  let x3 := fSub (m * m % P) (2 * s % P)
  let y3 := fSub (m * fSub s x3 % P) (8 * (yy * yy % P) % P)
  ⟨x3, y3, 2 * p.Y % P * p.Z % P⟩

/-- `AddNonConst`: point addition, covering infinity, doubling and opposite points. -/
def AddNonConst (p q : JacobianPoint) : JacobianPoint :=
  if p.Z % P = 0 then q
  else if q.Z % P = 0 then p
  else
    let z1z1 := p.Z * p.Z % P
    let z2z2 := q.Z * q.Z % P
    let u1 := p.X * z2z2 % P
    let u2 := q.X * z1z1 % P
    let s1 := p.Y * q.Z % P * z2z2 % P
    let s2 := q.Y * p.Z % P * z1z1 % P
    if u1 = u2 then
      if s1 = s2 then DoubleNonConst p else infinity
    else
      let h := fSub u2 u1
      let r := fSub s2 s1
      let hh := h * h % P
      let hhh := h * hh % P
      let v := u1 * hh % P
      let x3 := fSub (fSub (r * r % P) hhh) (2 * v % P)
      let y3 := fSub (r * fSub v x3 % P) (s1 * hhh % P)
      ⟨x3, y3, h * p.Z % P * q.Z % P⟩

/-- Double-and-add from the most significant bit. -/
def scalarMultAux : Nat → Nat → JacobianPoint → JacobianPoint
  | 0, _, _ => infinity
  | fuel + 1, k, p =>
    if k = 0 then infinity
    else
      let h := DoubleNonConst (scalarMultAux fuel (k / 2) p)
      if k % 2 = 1 then AddNonConst h p else h

/-- `ScalarMultNonConst`: `k * p`. -/
def ScalarMultNonConst (k : Nat) (p : JacobianPoint) : JacobianPoint := scalarMultAux k k p

/-- `ScalarBaseMultNonConst`: `k * G`. -/
def ScalarBaseMultNonConst (k : Nat) : JacobianPoint := ScalarMultNonConst k G

/-- `JacobianPoint.ToAffine`: normalise to `Z = 1`; infinity becomes `(0, 0)`. -/
def JacobianPoint.ToAffine (p : JacobianPoint) : JacobianPoint :=
  let zInv := fInv p.Z
  let zInv2 := zInv * zInv % P
  ⟨p.X * zInv2 % P, p.Y * (zInv2 * zInv % P) % P, 1⟩

/-- The curve equation `y^2 = x^3 + 7` on residues. -/
def isOnCurve (x y : Nat) : Bool := y * y % P == (x * x % P * x + 7) % P

/-- `ModNScalar.SetByteSlice`: the first 32 bytes, big-endian, reduced modulo `N`. -/
def ModNScalar.SetByteSlice (b : List UInt8) : Nat := beToNat (b.take 32) % N

/-- `ModNScalar.IsOverHalfOrder`. -/
def ModNScalar.IsOverHalfOrder (s : Nat) : Bool := decide (N / 2 < s)

/-- `ModNScalar.Negate`. -/
def ModNScalar.Negate (s : Nat) : Nat := (N - s % N) % N

/-- `ModNScalar.Bytes` and `FieldVal.Bytes`: 32 bytes, big-endian. -/
def Bytes (x : Nat) : List UInt8 := natToBE 32 x

end secp256k1

/-! ## Errors and the signature bundle -/

/-- The error values `GenerateOTS` can return. -/
inductive Error where
  /-- An error reported by `rand.Read`. -/
  | randRead (code : Nat)
  /-- The error "seed results in zero k value". -/
  | zeroK
  /-- The error "seed results in zero R_x value". -/
  | zeroRx
  /-- The error "seed results in zero s value". -/
  | zeroS
  /-- From `Ecrecover`: the message is not 32 bytes long. -/
  | invalidMsgLen
  /-- From `Ecrecover`: the signature is not 65 bytes long. -/
  | invalidSignatureLen
  /-- From `Ecrecover`: the recovery byte is not below 4. -/
  | invalidRecoveryID
  /-- From `Ecrecover`: "recovery failed". -/
  | recoverFailed
  /-- From `UnmarshalPubkey`: "invalid secp256k1 public key". -/
  | invalidPubkey
deriving DecidableEq, Repr

deriving instance DecidableEq for Except

/-- The three errors the specification groups as `DegenerateSeed`. -/
def Error.isDegenerateSeed : Error → Bool
  | .zeroK => true
  | .zeroRx => true
  | .zeroS => true
  | _ => false

/-- An `ecdsa.PublicKey` on the curve `S256()`: the two coordinates. -/
structure PublicKey where
  X : Nat
  Y : Nat
deriving DecidableEq, Repr

/-- The struct `OTS`; a nil `PublicKey` pointer is `none`. -/
structure OTS where
  Signature : List UInt8
  Message : List UInt8
  PublicKey : Option PublicKey
  Address : List UInt8
deriving DecidableEq, Repr

/-! ## The signature primitives (`go-ethereum/crypto` over libsecp256k1) -/

namespace crypto

open secp256k1

/-- The curve point with abscissa `x` whose ordinate has the requested parity, if any
(`secp256k1_ge_set_xo_var`). -/
def liftX (x : Nat) (odd : Bool) : Option (Nat × Nat) :=
  let c := (x * x % P * x + 7) % P
  let y := powMod c ((P + 1) / 4) P
  if y * y % P = c then
    some (x, if decide (y % 2 = 1) = odd then y else (P - y) % P)
  else none

/-- The linear combination `u1 * G + u2 * Q` in affine form, `none` at infinity
(`secp256k1_ecmult`). -/
def ecmult (u1 u2 : Nat) (q : Nat × Nat) : Option (Nat × Nat) :=
  let r := AddNonConst (ScalarBaseMultNonConst u1) (ScalarMultNonConst u2 ⟨q.1, q.2, 1⟩)
  if r.Z % P = 0 then none else some (r.ToAffine.X, r.ToAffine.Y)

/-- Public-key recovery on scalars (`secp256k1_ecdsa_sig_recover`): the point
`r⁻¹ * (s * R - z * G)` where `R` is the point selected by `r` and `recid`. -/
def sigRecover (r s z recid : Nat) : Option (Nat × Nat) :=
  if r = 0 ∨ s = 0 then none
  else if recid / 2 % 2 = 1 ∧ P - N ≤ r then none
  else
    match liftX (if recid / 2 % 2 = 1 then r + N else r) (decide (recid % 2 = 1)) with
    | none => none
    | some pt =>
      let rn := powMod r (N - 2) N
      ecmult ((N - rn * z % N) % N) (rn * s % N) pt

/-- Signature check on scalars (`secp256k1_ecdsa_sig_verify`). -/
def sigVerify (r s z : Nat) (q : Nat × Nat) : Bool :=
  if r = 0 ∨ s = 0 then false
  else
    let sn := powMod s (N - 2) N
    match ecmult (sn * z % N) (sn * r % N) q with
    | none => false
    | some pr => decide (pr.1 = r) || (decide (r < P - N) && decide (pr.1 = r + N))

/-- Parsing of a serialized public key (`secp256k1_ec_pubkey_parse`). -/
def parsePubkey (pub : List UInt8) : Option (Nat × Nat) :=
  match pub with
  | [] => none
  | tag :: rest =>
    if pub.length = 33 ∧ (tag = 2 ∨ tag = 3) then
      if beToNat rest < P then liftX (beToNat rest) (decide (tag = 3)) else none
    else if pub.length = 65 ∧ (tag = 4 ∨ tag = 6 ∨ tag = 7) then
      let x := beToNat (rest.take 32)
      let y := beToNat (rest.drop 32)
      if x < P ∧ y < P ∧ ((tag = 6 ∨ tag = 7) → (decide (y % 2 = 1) = decide (tag = 7)))
          ∧ isOnCurve x y = true then
        some (x, y)
      else none
    else none

/-- `crypto.Ecrecover`: the uncompressed 65-byte public key recovered from a 32-byte
hash and a 65-byte `[R || S || V]` signature. -/
def Ecrecover (hash sig : List UInt8) : Except Error (List UInt8) :=
  if hash.length ≠ 32 then .error .invalidMsgLen
  else if sig.length ≠ 65 then .error .invalidSignatureLen
  else if 4 ≤ (sig.getD 64 0).toNat then .error .invalidRecoveryID
  else
    let r := beToNat (sig.take 32)
    let s := beToNat ((sig.drop 32).take 32)
    if N ≤ r ∨ N ≤ s then .error .recoverFailed
    else
      match sigRecover r s (beToNat hash % N) (sig.getD 64 0).toNat with
      | none => .error .recoverFailed
      | some q => .ok (4 :: (Bytes q.1 ++ Bytes q.2))

/-- `crypto.UnmarshalPubkey`: decoding of an uncompressed public key. -/
def UnmarshalPubkey (pub : List UInt8) : Except Error PublicKey :=
  if pub.length ≠ 65 ∨ pub.head? ≠ some 4 then .error .invalidPubkey
  else
    let x := beToNat ((pub.drop 1).take 32)
    let y := beToNat (pub.drop 33)
    if x < P ∧ y < P ∧ isOnCurve x y = true then .ok ⟨x, y⟩ else .error .invalidPubkey

/-- `crypto.FromECDSAPub`: the uncompressed serialization `04 || X || Y`. -/
def FromECDSAPub (pk : PublicKey) : List UInt8 := 4 :: (Bytes pk.X ++ Bytes pk.Y)

/-- `crypto.PubkeyToAddress`: the last 20 bytes of the Keccak-256 digest of `X || Y`. -/
def PubkeyToAddress (pk : PublicKey) : List UInt8 :=
  (keccak.Keccak256 ((FromECDSAPub pk).drop 1)).drop 12

/-- `crypto.CompressPubkey`: the 33-byte serialization. The key is re-encoded through the
library's parser, and the call does not return (`none`) when the pointer is nil or the
serialized key does not parse. -/
def CompressPubkey (pk : Option PublicKey) : Option (List UInt8) :=
  match pk with
  | none => none
  | some k =>
    match parsePubkey (FromECDSAPub k) with
    | none => none
    | some q => some ((if q.2 % 2 = 1 then 3 else 2) :: Bytes q.1)

/-- `crypto.VerifySignature`: verification of a 64-byte `[R || S]` signature under a
serialized public key; signatures with `s` above half the order are rejected. -/
def VerifySignature (pubkey hash sig : List UInt8) : Bool :=
  if hash.length ≠ 32 ∨ sig.length ≠ 64 ∨ pubkey.length = 0 then false
  else
    let r := beToNat (sig.take 32)
    let s := beToNat (sig.drop 32)
    if N ≤ r ∨ N ≤ s then false
    else
      match parsePubkey pubkey with
      | none => false
      | some q =>
        if ModNScalar.IsOverHalfOrder s then false
        else sigVerify r s (beToNat hash % N) q

end crypto

/-! ## `ots.go` -/

open secp256k1 in
/-- Lines 41-105 of `GenerateOTS`: the bundle derived from a seed, with the hash
function as an explicit collaborator. -/
def deriveOTS (Sum256 : List UInt8 → List UInt8) (sigSeed msg : List UInt8) :
    Except Error OTS :=
  -- calculate R = k*G
  let k := Sum256 (0x6b :: sigSeed)
  let ks := ModNScalar.SetByteSlice k
  if ks = 0 then .error .zeroK
  else
    let R := (ScalarBaseMultNonConst ks).ToAffine
    if R.X = 0 then .error .zeroRx
    else
      let rx := Bytes R.X
      let s := Sum256 (0x73 :: sigSeed)
      let ss := ModNScalar.SetByteSlice s
      if ss = 0 then .error .zeroS
      else
        let v : UInt8 := if R.Y % 2 = 1 then 1 else 0
        let over := ModNScalar.IsOverHalfOrder ss
        let s := if over then Bytes (ModNScalar.Negate ss) else Bytes ss
        let v := if over then v ^^^ 1 else v
        let sig := rx ++ s ++ [v]
        -- get corresponding public key
        match crypto.Ecrecover msg sig with
        | .error e => .error e
        | .ok pkb =>
          match crypto.UnmarshalPubkey pkb with
          | .error e => .error e
          | .ok pk =>
            .ok { Signature := sig, Message := msg, PublicKey := some pk,
                  Address := crypto.PubkeyToAddress pk }

/-- The collaborators injected into `GenerateOTS`: the hash `sha256.Sum256` and the
random source `rand.Read` filling a 32-byte buffer, over a state `σ`. -/
structure Platform (σ : Type) where
  Sum256 : List UInt8 → List UInt8
  randRead : σ → Except Error (List UInt8) × σ

/-- `GenerateOTS`: draws a seed when none is supplied, then derives the bundle. -/
def GenerateOTS {σ : Type} (env : Platform σ) (st : σ) (sigSeed : Option (List UInt8))
    (msg : List UInt8) : Except Error OTS × σ :=
  match sigSeed with
  | some seed => (deriveOTS env.Sum256 seed msg, st)
  | none =>
    match env.randRead st with
    | (.error e, st1) => (.error e, st1)
    | (.ok seed, st1) => (deriveOTS env.Sum256 seed msg, st1)

/-- `OTS.Verify`; `none` when the call does not return (`CompressPubkey` on a nil or
invalid key). -/
def OTS.Verify (s : OTS) : Option Bool :=
  match crypto.CompressPubkey s.PublicKey with
  | none => none
  | some pub => some (crypto.VerifySignature pub s.Message (s.Signature.take 64))

/-- The platform with the real SHA-256 and a random source that replays a given seed. -/
def stdPlatform : Platform (List (List UInt8)) where
  Sum256 := sha256.Sum256
  randRead := fun st =>
    match st with
    | [] => (.error (.randRead 0), [])
    | seed :: rest => (.ok seed, rest)

/-! ### The intermediate values of `GenerateOTS` -/

open secp256k1 in
/-- The nonce scalar `k` (lines 44-46): the digest of `"k" || seed` reduced modulo `N`. -/
def nonceK (Sum256 : List UInt8 → List UInt8) (sigSeed : List UInt8) : Nat :=
  ModNScalar.SetByteSlice (Sum256 (0x6b :: sigSeed))

open secp256k1 in
/-- The point `R = k * G` in affine form (lines 51-52). -/
def pointR (Sum256 : List UInt8 → List UInt8) (sigSeed : List UInt8) : JacobianPoint :=
  (ScalarBaseMultNonConst (nonceK Sum256 sigSeed)).ToAffine

open secp256k1 in
/-- The second scalar before canonicalisation (lines 60-62). -/
def scalarS (Sum256 : List UInt8 → List UInt8) (sigSeed : List UInt8) : Nat :=
  ModNScalar.SetByteSlice (Sum256 (0x73 :: sigSeed))

open secp256k1 in
/-- The second scalar after canonicalisation (lines 67 and 76-78). -/
def canonS (Sum256 : List UInt8 → List UInt8) (sigSeed : List UInt8) : Nat :=
  if ModNScalar.IsOverHalfOrder (scalarS Sum256 sigSeed) then
    ModNScalar.Negate (scalarS Sum256 sigSeed)
  else scalarS Sum256 sigSeed

open secp256k1 in
/-- The recovery byte (lines 71-80). -/
def recoveryV (Sum256 : List UInt8 → List UInt8) (sigSeed : List UInt8) : UInt8 :=
  if ModNScalar.IsOverHalfOrder (scalarS Sum256 sigSeed) then
    (if (pointR Sum256 sigSeed).Y % 2 = 1 then (1 : UInt8) else 0) ^^^ 1
  else (if (pointR Sum256 sigSeed).Y % 2 = 1 then (1 : UInt8) else 0)

open secp256k1 in
/-- The 65 signature bytes `r || s || v` (lines 82-85). -/
def signatureOf (Sum256 : List UInt8 → List UInt8) (sigSeed : List UInt8) : List UInt8 :=
  Bytes (pointR Sum256 sigSeed).X ++ Bytes (canonS Sum256 sigSeed) ++ [recoveryV Sum256 sigSeed]

open secp256k1 in
/-- The signature bytes without the canonicalisation of lines 76-80: `r || s0 || v0` with
`s0` the second scalar as derived and `v0` the parity of `R.y` (lines 57-74 and 82-85). -/
def rawSignatureOf (Sum256 : List UInt8 → List UInt8) (sigSeed : List UInt8) : List UInt8 :=
  Bytes (pointR Sum256 sigSeed).X ++ Bytes (scalarS Sum256 sigSeed)
    ++ [if (pointR Sum256 sigSeed).Y % 2 = 1 then 1 else 0]

/-- The seed `GenerateOTS` works with (lines 30-39): the supplied one, or the bytes drawn
from the random source. -/
def seedUsed {σ : Type} (env : Platform σ) (st : σ) (sigSeed : Option (List UInt8)) :
    Option (List UInt8) :=
  match sigSeed with
  | some seed => some seed
  | none =>
    match env.randRead st with
    | (.ok seed, _) => some seed
    | (.error _, _) => none

/-- The scalar `r` encoded in `Signature[0:32]`. -/
def OTS.r (b : OTS) : Nat := beToNat (b.Signature.take 32)

/-- The scalar `s` encoded in `Signature[32:64]`. -/
def OTS.s (b : OTS) : Nat := beToNat ((b.Signature.drop 32).take 32)

/-- The recovery byte `Signature[64]`. -/
def OTS.v (b : OTS) : UInt8 := b.Signature.getD 64 0

open secp256k1 WeierstrassCurve WeierstrassCurve.Jacobian

/-! ## Definitions used in the statements -/

/-- The Weierstrass curve `y² = x³ + 7` over the field with `P` elements. -/
def curve : WeierstrassCurve (ZMod P) := ⟨0, 0, 0, 0, 7⟩

/-- The coordinates of a Jacobian point as field elements. -/
def castJ (p : JacobianPoint) : Fin 3 → ZMod P := ![(p.X : ZMod P), (p.Y : ZMod P), (p.Z : ZMod P)]

/-- Validity: the point at infinity, or a solution of the curve equation. -/
def JValid (p : JacobianPoint) : Prop :=
  (p.Z : ZMod P) = 0 ∨ curve.toJacobian.Nonsingular (castJ p)

/-- The bundle assembled from a recovered point. -/
def bundleOf (H : List UInt8 → List UInt8) (seed msg : List UInt8) (q : Nat × Nat) : OTS :=
  { Signature := signatureOf H seed, Message := msg, PublicKey := some ⟨q.1, q.2⟩,
    Address := crypto.PubkeyToAddress ⟨q.1, q.2⟩ }

/-- Lines 93-105: decoding of the recovered key and assembly of the bundle. -/
def assembleKey (sig msg : List UInt8) : Except Error PublicKey → Except Error OTS
  | .error e => .error e
  | .ok pk =>
    .ok { Signature := sig, Message := msg, PublicKey := some pk,
          Address := crypto.PubkeyToAddress pk }

/-- Lines 88-105: the outcome of the recovery step, decoded and assembled. -/
def assemble (sig msg : List UInt8) : Except Error (List UInt8) → Except Error OTS
  | .error e => .error e
  | .ok pkb => assembleKey sig msg (crypto.UnmarshalPubkey pkb)

/-- The seed of 32 zero bytes. -/
def zeroSeed : List UInt8 := List.replicate 32 0

/-- The message of 32 zero bytes. -/
def zeroMsg : List UInt8 := List.replicate 32 0

/-- The bundle `GenerateOTS` returns for the zero seed and the zero message. -/
def zeroBundle : OTS :=
  { Signature :=
      natToBE 32 0x1217c122b5ad48170b20f34c012c4e0ba85b6085db7e22a529849954d8866ebd
        ++ natToBE 32 0x6a82abb01aaf20a2bbd869d7e36cd3b69d0f41cf7cb06a0b11169a18bd4e53f5 ++ [0],
    Message := zeroMsg,
    PublicKey := some
      ⟨79465199479269126992406758887066776451898299138778613069349923191989570644213,
        56072521107801573054288371464345303882463732114811324121176227397717193779400⟩,
    Address := natToBE 20 0x2bafe1c5d8e09886f670e9b2836eea86f66b3200 }

/-- The message whose integer is `s0 * k mod N` for the zero seed. -/
def collidingMsg : List UInt8 :=
  natToBE 32 0x7397de551be7860108bc62ccf2d1efd9b7dff1655a5fafc70f90329e96c7f752

/-- The zero bundle with `s` replaced by `N - s`. -/
def highSBundle : OTS :=
  { zeroBundle with
    Signature :=
      natToBE 32 0x1217c122b5ad48170b20f34c012c4e0ba85b6085db7e22a529849954d8866ebd
        ++ natToBE 32 0x957d544fe550df5d442796281c932c481d9f9b1732983630aebbc47412e7ed4c ++ [0] }

/-- The zero bundle with the recovery byte replaced by `1`. -/
def flippedVBundle : OTS :=
  { zeroBundle with
    Signature :=
      natToBE 32 0x1217c122b5ad48170b20f34c012c4e0ba85b6085db7e22a529849954d8866ebd
        ++ natToBE 32 0x6a82abb01aaf20a2bbd869d7e36cd3b69d0f41cf7cb06a0b11169a18bd4e53f5 ++ [1] }

/-- The message of 32 bytes `0x01`. -/
def onesMsg : List UInt8 := List.replicate 32 1

/-- The bundle `GenerateOTS` returns for the zero seed and `onesMsg`. -/
def onesBundle : OTS :=
  { Signature := zeroBundle.Signature,
    Message := onesMsg,
    PublicKey := some
      ⟨92152611643220457433162300792952659787245267088383795699141971248607237233630,
        45129395308178994486106965766561160878876296681258491180908129644557297202218⟩,
    Address := natToBE 20 0x28b68bf3f4737521d0fd6fa81008c3a148b34b44 }

/-- The zero bundle with a nil `PublicKey`. -/
def nilKeyBundle : OTS := { zeroBundle with PublicKey := none }

/-- An instrumented platform: the hash returns 32 zero bytes, the random source fails. -/
def zeroHashPlatform : Platform Unit where
  Sum256 := fun _ => List.replicate 32 0
  randRead := fun _ => (.error (.randRead 0), ())

/-- An instrumented platform: the hash returns the 32-byte encoding of `k`, the random
source fails. -/
def fixedHashPlatform (k : Nat) : Platform Unit where
  Sum256 := fun _ => natToBE 32 k
  randRead := fun _ => (.error (.randRead 0), ())

/-- A code for the rational points: the abscissa and the half in which the ordinate lies. -/
def pointCode : curve.toAffine.Point → Option (ZMod P × Bool)
  | .zero => none
  | @Affine.Point.some _ _ _ x y _ => some (x, decide (y.val ≤ P / 2))

/-- The ordinate of a curve point with abscissa `N`. -/
def yOfN : Nat := 0x98f66641cb0ae1776b463ebdee3d77fe2658f021db48e2c8ac7ab4c92f83621e

/-! ## Modular exponentiation -/

theorem powModAux_eq (m : Nat) (hm : 0 < m) :
    ∀ (fuel b e acc : Nat), e ≤ fuel → acc < m →
      powModAux m fuel b e acc = acc * b ^ e % m := by
  intro fuel
  induction fuel with
  | zero =>
    intro b e acc he hacc
    have h0 : e = 0 := Nat.le_zero.mp he
    subst h0
    simp [powModAux, Nat.mod_eq_of_lt hacc]
  | succ f ih =>
    intro b e acc he hacc
    unfold powModAux
    by_cases h0 : e = 0
    · subst h0
      simp [Nat.mod_eq_of_lt hacc]
    · rw [if_neg h0]
      have hlt : e / 2 ≤ f := by omega
      have hacc' : (if e % 2 = 1 then acc * b % m else acc) < m := by
        split
        · exact Nat.mod_lt _ hm
        · exact hacc
      rw [ih _ _ _ hlt hacc']
      have hsq : (b * b % m) ^ (e / 2) % m = (b * b) ^ (e / 2) % m :=
        (Nat.pow_mod (b * b) (e / 2) m).symm
      have hbb : (b * b) ^ (e / 2) = b ^ (2 * (e / 2)) := by
        rw [pow_mul, pow_two]
      by_cases hodd : e % 2 = 1
      · rw [if_pos hodd]
        have he2 : e = 2 * (e / 2) + 1 := by omega
        conv_rhs => rw [he2, pow_succ]
        rw [Nat.mul_mod, hsq, hbb, Nat.mod_mod, ← Nat.mul_mod]
        congr 1
        ring
      · rw [if_neg hodd]
        have he2 : e = 2 * (e / 2) := by omega
        conv_rhs => rw [he2]
        rw [Nat.mul_mod, hsq, hbb, ← Nat.mul_mod]

theorem powMod_eq (b e m : Nat) (hm : 1 < m) : powMod b e m = b ^ e % m := by
  unfold powMod
  rw [powModAux_eq m (by omega) e _ e _ le_rfl (Nat.mod_lt _ (by omega)), Nat.mod_eq_of_lt hm,
    one_mul, ← Nat.pow_mod]

theorem powMod_cast (b e m : Nat) (hm : 1 < m) : ((powMod b e m : Nat) : ZMod m) = (b : ZMod m) ^ e := by
  rw [powMod_eq b e m hm, ZMod.natCast_mod, Nat.cast_pow]

/-- Pratt certificate: a witness `a` of order `p - 1` modulo `p`. -/
theorem prime_of_pratt (p a : Nat) (fs : List Nat) (hp : 1 < p)
    (hfs : ∀ q ∈ fs, Nat.Prime q) (hprod : fs.prod = p - 1)
    (ha : powMod a (p - 1) p = 1)
    (hq : ∀ q ∈ fs, powMod a ((p - 1) / q) p ≠ 1) : Nat.Prime p := by
  have h1 : ((1 : Nat) : ZMod p) = 1 := Nat.cast_one
  refine lucas_primality p (a : ZMod p) ?_ ?_
  · rw [← powMod_cast a (p - 1) p hp, ha, h1]
  · intro q hqp hqd
    rw [← hprod] at hqd
    obtain ⟨r, hr, hqr⟩ := (Prime.dvd_prod_iff (Nat.prime_iff.mp hqp)).mp hqd
    have hrq : q = r := (Nat.prime_dvd_prime_iff_eq hqp (hfs r hr)).mp hqr
    subst hrq
    intro hcon
    apply hq q hr
    rw [← powMod_cast a ((p - 1) / q) p hp, ← h1] at hcon
    have hmod := (ZMod.natCast_eq_natCast_iff' _ _ _).mp hcon
    rw [Nat.mod_eq_of_lt hp, powMod_eq _ _ _ hp, Nat.mod_mod] at hmod
    rw [powMod_eq _ _ _ hp]
    exact hmod

/-! ## Primality of the field prime and of the group order (Pratt certificates) -/

theorem prime_13441 : Nat.Prime 13441 := by
  refine prime_of_pratt _ 11 [2, 2, 2, 2, 2, 2, 2, 3, 5, 7] (by decide) ?_ (by decide) (by decide!) (by decide!)
  intro r hr
  simp only [List.mem_cons, List.mem_singleton, List.not_mem_nil, or_false] at hr
  rcases hr with rfl | rfl | rfl | rfl | rfl | rfl | rfl | rfl | rfl | rfl
  all_goals first | norm_num

theorem prime_7723 : Nat.Prime 7723 := by
  refine prime_of_pratt _ 3 [2, 3, 3, 3, 11, 13] (by decide) ?_ (by decide) (by decide!) (by decide!)
  intro r hr
  simp only [List.mem_cons, List.mem_singleton, List.not_mem_nil, or_false] at hr
  rcases hr with rfl | rfl | rfl | rfl | rfl | rfl
  all_goals first | norm_num

theorem prime_5323 : Nat.Prime 5323 := by
  refine prime_of_pratt _ 5 [2, 3, 887] (by decide) ?_ (by decide) (by decide!) (by decide!)
  intro r hr
  simp only [List.mem_cons, List.mem_singleton, List.not_mem_nil, or_false] at hr
  rcases hr with rfl | rfl | rfl
  all_goals first | norm_num

theorem prime_2621 : Nat.Prime 2621 := by
  refine prime_of_pratt _ 2 [2, 2, 5, 131] (by decide) ?_ (by decide) (by decide!) (by decide!)
  intro r hr
  simp only [List.mem_cons, List.mem_singleton, List.not_mem_nil, or_false] at hr
  rcases hr with rfl | rfl | rfl | rfl
  all_goals first | norm_num

theorem prime_24809 : Nat.Prime 24809 := by
  refine prime_of_pratt _ 6 [2, 2, 2, 7, 443] (by decide) ?_ (by decide) (by decide!) (by decide!)
  intro r hr
  simp only [List.mem_cons, List.mem_singleton, List.not_mem_nil, or_false] at hr
  rcases hr with rfl | rfl | rfl | rfl | rfl
  all_goals first | norm_num

theorem prime_13331831 : Nat.Prime 13331831 := by
  refine prime_of_pratt _ 13 [2, 5, 971, 1373] (by decide) ?_ (by decide) (by decide!) (by decide!)
  intro r hr
  simp only [List.mem_cons, List.mem_singleton, List.not_mem_nil, or_false] at hr
  rcases hr with rfl | rfl | rfl | rfl
  all_goals first | norm_num

theorem prime_173378833005251801 : Nat.Prime 173378833005251801 := by
  refine prime_of_pratt _ 6 [2, 2, 2, 5, 5, 2621, 24809, 13331831] (by decide) ?_ (by decide) (by decide!) (by decide!)
  intro r hr
  simp only [List.mem_cons, List.mem_singleton, List.not_mem_nil, or_false] at hr
  rcases hr with rfl | rfl | rfl | rfl | rfl | rfl | rfl | rfl
  all_goals first | exact prime_2621 | exact prime_24809 | exact prime_13331831 | norm_num

theorem prime_22149492674086928081353 : Nat.Prime 22149492674086928081353 := by
  refine prime_of_pratt _ 5 [2, 2, 2, 3, 5323, 173378833005251801] (by decide) ?_ (by decide) (by decide!) (by decide!)
  intro r hr
  simp only [List.mem_cons, List.mem_singleton, List.not_mem_nil, or_false] at hr
  rcases hr with rfl | rfl | rfl | rfl | rfl | rfl
  all_goals first | exact prime_5323 | exact prime_173378833005251801 | norm_num

theorem prime_132896956044521568488119 : Nat.Prime 132896956044521568488119 := by
  refine prime_of_pratt _ 6 [2, 3, 22149492674086928081353] (by decide) ?_ (by decide) (by decide!) (by decide!)
  intro r hr
  simp only [List.mem_cons, List.mem_singleton, List.not_mem_nil, or_false] at hr
  rcases hr with rfl | rfl | rfl
  all_goals first | exact prime_22149492674086928081353 | norm_num

theorem prime_2657 : Nat.Prime 2657 := by
  refine prime_of_pratt _ 3 [2, 2, 2, 2, 2, 83] (by decide) ?_ (by decide) (by decide!) (by decide!)
  intro r hr
  simp only [List.mem_cons, List.mem_singleton, List.not_mem_nil, or_false] at hr
  rcases hr with rfl | rfl | rfl | rfl | rfl | rfl
  all_goals first | norm_num

theorem prime_4423 : Nat.Prime 4423 := by
  refine prime_of_pratt _ 3 [2, 3, 11, 67] (by decide) ?_ (by decide) (by decide!) (by decide!)
  intro r hr
  simp only [List.mem_cons, List.mem_singleton, List.not_mem_nil, or_false] at hr
  rcases hr with rfl | rfl | rfl | rfl
  all_goals first | norm_num

theorem prime_41201 : Nat.Prime 41201 := by
  refine prime_of_pratt _ 3 [2, 2, 2, 2, 5, 5, 103] (by decide) ?_ (by decide) (by decide!) (by decide!)
  intro r hr
  simp only [List.mem_cons, List.mem_singleton, List.not_mem_nil, or_false] at hr
  rcases hr with rfl | rfl | rfl | rfl | rfl | rfl | rfl
  all_goals first | norm_num

theorem prime_96557 : Nat.Prime 96557 := by
  refine prime_of_pratt _ 2 [2, 2, 101, 239] (by decide) ?_ (by decide) (by decide!) (by decide!)
  intro r hr
  simp only [List.mem_cons, List.mem_singleton, List.not_mem_nil, or_false] at hr
  rcases hr with rfl | rfl | rfl | rfl
  all_goals first | norm_num

theorem prime_20113 : Nat.Prime 20113 := by
  refine prime_of_pratt _ 10 [2, 2, 2, 2, 3, 419] (by decide) ?_ (by decide) (by decide!) (by decide!)
  intro r hr
  simp only [List.mem_cons, List.mem_singleton, List.not_mem_nil, or_false] at hr
  rcases hr with rfl | rfl | rfl | rfl | rfl | rfl
  all_goals first | norm_num

theorem prime_1206781 : Nat.Prime 1206781 := by
  refine prime_of_pratt _ 10 [2, 2, 3, 5, 20113] (by decide) ?_ (by decide) (by decide!) (by decide!)
  intro r hr
  simp only [List.mem_cons, List.mem_singleton, List.not_mem_nil, or_false] at hr
  rcases hr with rfl | rfl | rfl | rfl | rfl
  all_goals first | exact prime_20113 | norm_num

theorem prime_7240687 : Nat.Prime 7240687 := by
  refine prime_of_pratt _ 3 [2, 3, 1206781] (by decide) ?_ (by decide) (by decide!) (by decide!)
  intro r hr
  simp only [List.mem_cons, List.mem_singleton, List.not_mem_nil, or_false] at hr
  rcases hr with rfl | rfl | rfl
  all_goals first | exact prime_1206781 | norm_num

theorem prime_107590001 : Nat.Prime 107590001 := by
  refine prime_of_pratt _ 3 [2, 2, 2, 2, 5, 5, 5, 5, 7, 29, 53] (by decide) ?_ (by decide) (by decide!) (by decide!)
  intro r hr
  simp only [List.mem_cons, List.mem_singleton, List.not_mem_nil, or_false] at hr
  rcases hr with rfl | rfl | rfl | rfl | rfl | rfl | rfl | rfl | rfl | rfl | rfl
  all_goals first | norm_num

theorem prime_255515944373312847190720520512484175977 : Nat.Prime 255515944373312847190720520512484175977 := by
  refine prime_of_pratt _ 3 [2, 2, 2, 7, 7, 11, 1627, 2657, 4423, 41201, 96557, 7240687, 107590001] (by decide) ?_ (by decide) (by decide!) (by decide!)
  intro r hr
  simp only [List.mem_cons, List.mem_singleton, List.not_mem_nil, or_false] at hr
  rcases hr with rfl | rfl | rfl | rfl | rfl | rfl | rfl | rfl | rfl | rfl | rfl | rfl | rfl
  all_goals first | exact prime_2657 | exact prime_4423 | exact prime_41201 | exact prime_96557 | exact prime_7240687 | exact prime_107590001 | norm_num

theorem prime_205115282021455665897114700593932402728804164701536103180137503955397371 : Nat.Prime 205115282021455665897114700593932402728804164701536103180137503955397371 := by
  refine prime_of_pratt _ 10 [2, 3, 5, 29, 29, 31, 7723, 132896956044521568488119, 255515944373312847190720520512484175977] (by decide) ?_ (by decide) (by decide!) (by decide!)
  intro r hr
  simp only [List.mem_cons, List.mem_singleton, List.not_mem_nil, or_false] at hr
  rcases hr with rfl | rfl | rfl | rfl | rfl | rfl | rfl | rfl | rfl
  all_goals first | exact prime_7723 | exact prime_132896956044521568488119 | exact prime_255515944373312847190720520512484175977 | norm_num

theorem prime_P : Nat.Prime P := by
  refine prime_of_pratt _ 3 [2, 3, 7, 13441, 205115282021455665897114700593932402728804164701536103180137503955397371] (by decide) ?_ (by decide) (by decide!) (by decide!)
  intro r hr
  simp only [List.mem_cons, List.mem_singleton, List.not_mem_nil, or_false] at hr
  rcases hr with rfl | rfl | rfl | rfl | rfl
  all_goals first | exact prime_13441 | exact prime_205115282021455665897114700593932402728804164701536103180137503955397371 | norm_num

theorem prime_16699 : Nat.Prime 16699 := by
  refine prime_of_pratt _ 3 [2, 3, 11, 11, 23] (by decide) ?_ (by decide) (by decide!) (by decide!)
  intro r hr
  simp only [List.mem_cons, List.mem_singleton, List.not_mem_nil, or_false] at hr
  rcases hr with rfl | rfl | rfl | rfl | rfl
  all_goals first | norm_num

theorem prime_2861 : Nat.Prime 2861 := by
  refine prime_of_pratt _ 2 [2, 2, 5, 11, 13] (by decide) ?_ (by decide) (by decide!) (by decide!)
  intro r hr
  simp only [List.mem_cons, List.mem_singleton, List.not_mem_nil, or_false] at hr
  rcases hr with rfl | rfl | rfl | rfl | rfl
  all_goals first | norm_num

theorem prime_85831 : Nat.Prime 85831 := by
  refine prime_of_pratt _ 3 [2, 3, 5, 2861] (by decide) ?_ (by decide) (by decide!) (by decide!)
  intro r hr
  simp only [List.mem_cons, List.mem_singleton, List.not_mem_nil, or_false] at hr
  rcases hr with rfl | rfl | rfl | rfl
  all_goals first | exact prime_2861 | norm_num

theorem prime_2011 : Nat.Prime 2011 := by
  refine prime_of_pratt _ 3 [2, 3, 5, 67] (by decide) ?_ (by decide) (by decide!) (by decide!)
  intro r hr
  simp only [List.mem_cons, List.mem_singleton, List.not_mem_nil, or_false] at hr
  rcases hr with rfl | rfl | rfl | rfl
  all_goals first | norm_num

theorem prime_4681609 : Nat.Prime 4681609 := by
  refine prime_of_pratt _ 23 [2, 2, 2, 3, 97, 2011] (by decide) ?_ (by decide) (by decide!) (by decide!)
  intro r hr
  simp only [List.mem_cons, List.mem_singleton, List.not_mem_nil, or_false] at hr
  rcases hr with rfl | rfl | rfl | rfl | rfl | rfl
  all_goals first | exact prime_2011 | norm_num

theorem prime_107361793816595537 : Nat.Prime 107361793816595537 := by
  refine prime_of_pratt _ 3 [2, 2, 2, 2, 16699, 85831, 4681609] (by decide) ?_ (by decide) (by decide!) (by decide!)
  intro r hr
  simp only [List.mem_cons, List.mem_singleton, List.not_mem_nil, or_false] at hr
  rcases hr with rfl | rfl | rfl | rfl | rfl | rfl | rfl
  all_goals first | exact prime_16699 | exact prime_85831 | exact prime_4681609 | norm_num

theorem prime_4051 : Nat.Prime 4051 := by
  refine prime_of_pratt _ 10 [2, 3, 3, 3, 3, 5, 5] (by decide) ?_ (by decide) (by decide!) (by decide!)
  intro r hr
  simp only [List.mem_cons, List.mem_singleton, List.not_mem_nil, or_false] at hr
  rcases hr with rfl | rfl | rfl | rfl | rfl | rfl | rfl
  all_goals first | norm_num

theorem prime_120233 : Nat.Prime 120233 := by
  refine prime_of_pratt _ 3 [2, 2, 2, 7, 19, 113] (by decide) ?_ (by decide) (by decide!) (by decide!)
  intro r hr
  simp only [List.mem_cons, List.mem_singleton, List.not_mem_nil, or_false] at hr
  rcases hr with rfl | rfl | rfl | rfl | rfl | rfl
  all_goals first | norm_num

theorem prime_9349 : Nat.Prime 9349 := by
  refine prime_of_pratt _ 2 [2, 2, 3, 19, 41] (by decide) ?_ (by decide) (by decide!) (by decide!)
  intro r hr
  simp only [List.mem_cons, List.mem_singleton, List.not_mem_nil, or_false] at hr
  rcases hr with rfl | rfl | rfl | rfl | rfl
  all_goals first | norm_num

theorem prime_44706919 : Nat.Prime 44706919 := by
  refine prime_of_pratt _ 6 [2, 3, 797, 9349] (by decide) ?_ (by decide) (by decide!) (by decide!)
  intro r hr
  simp only [List.mem_cons, List.mem_singleton, List.not_mem_nil, or_false] at hr
  rcases hr with rfl | rfl | rfl | rfl
  all_goals first | exact prime_9349 | norm_num

theorem prime_174723607534414371449 : Nat.Prime 174723607534414371449 := by
  refine prime_of_pratt _ 3 [2, 2, 2, 17, 59, 4051, 120233, 44706919] (by decide) ?_ (by decide) (by decide!) (by decide!)
  intro r hr
  simp only [List.mem_cons, List.mem_singleton, List.not_mem_nil, or_false] at hr
  rcases hr with rfl | rfl | rfl | rfl | rfl | rfl | rfl | rfl
  all_goals first | exact prime_4051 | exact prime_120233 | exact prime_44706919 | norm_num

theorem prime_2731 : Nat.Prime 2731 := by
  refine prime_of_pratt _ 3 [2, 3, 5, 7, 13] (by decide) ?_ (by decide) (by decide!) (by decide!)
  intro r hr
  simp only [List.mem_cons, List.mem_singleton, List.not_mem_nil, or_false] at hr
  rcases hr with rfl | rfl | rfl | rfl | rfl
  all_goals first | norm_num

theorem prime_305873 : Nat.Prime 305873 := by
  refine prime_of_pratt _ 3 [2, 2, 2, 2, 7, 2731] (by decide) ?_ (by decide) (by decide!) (by decide!)
  intro r hr
  simp only [List.mem_cons, List.mem_singleton, List.not_mem_nil, or_false] at hr
  rcases hr with rfl | rfl | rfl | rfl | rfl | rfl
  all_goals first | exact prime_2731 | norm_num

theorem prime_28181 : Nat.Prime 28181 := by
  refine prime_of_pratt _ 2 [2, 2, 5, 1409] (by decide) ?_ (by decide) (by decide!) (by decide!)
  intro r hr
  simp only [List.mem_cons, List.mem_singleton, List.not_mem_nil, or_false] at hr
  rcases hr with rfl | rfl | rfl | rfl
  all_goals first | norm_num

theorem prime_545358713 : Nat.Prime 545358713 := by
  refine prime_of_pratt _ 5 [2, 2, 2, 41, 59, 28181] (by decide) ?_ (by decide) (by decide!) (by decide!)
  intro r hr
  simp only [List.mem_cons, List.mem_singleton, List.not_mem_nil, or_false] at hr
  rcases hr with rfl | rfl | rfl | rfl | rfl | rfl
  all_goals first | exact prime_28181 | norm_num

theorem prime_1627771 : Nat.Prime 1627771 := by
  refine prime_of_pratt _ 3 [2, 3, 5, 29, 1871] (by decide) ?_ (by decide) (by decide!) (by decide!)
  intro r hr
  simp only [List.mem_cons, List.mem_singleton, List.not_mem_nil, or_false] at hr
  rcases hr with rfl | rfl | rfl | rfl | rfl
  all_goals first | norm_num

theorem prime_297159362677 : Nat.Prime 297159362677 := by
  refine prime_of_pratt _ 2 [2, 2, 3, 3, 11, 461, 1627771] (by decide) ?_ (by decide) (by decide!) (by decide!)
  intro r hr
  simp only [List.mem_cons, List.mem_singleton, List.not_mem_nil, or_false] at hr
  rcases hr with rfl | rfl | rfl | rfl | rfl | rfl | rfl
  all_goals first | exact prime_1627771 | norm_num

theorem prime_29047611873442575647497758179 : Nat.Prime 29047611873442575647497758179 := by
  refine prime_of_pratt _ 2 [2, 293, 305873, 545358713, 297159362677] (by decide) ?_ (by decide) (by decide!) (by decide!)
  intro r hr
  simp only [List.mem_cons, List.mem_singleton, List.not_mem_nil, or_false] at hr
  rcases hr with rfl | rfl | rfl | rfl | rfl
  all_goals first | exact prime_305873 | exact prime_545358713 | exact prime_297159362677 | norm_num

theorem prime_341948486974166000522343609283189 : Nat.Prime 341948486974166000522343609283189 := by
  refine prime_of_pratt _ 2 [2, 2, 3, 3, 3, 109, 29047611873442575647497758179] (by decide) ?_ (by decide) (by decide!) (by decide!)
  intro r hr
  simp only [List.mem_cons, List.mem_singleton, List.not_mem_nil, or_false] at hr
  rcases hr with rfl | rfl | rfl | rfl | rfl | rfl | rfl
  all_goals first | exact prime_29047611873442575647497758179 | norm_num

theorem prime_N : Nat.Prime N := by
  refine prime_of_pratt _ 7 [2, 2, 2, 2, 2, 2, 3, 149, 631, 107361793816595537, 174723607534414371449, 341948486974166000522343609283189] (by decide) ?_ (by decide) (by decide!) (by decide!)
  intro r hr
  simp only [List.mem_cons, List.mem_singleton, List.not_mem_nil, or_false] at hr
  rcases hr with rfl | rfl | rfl | rfl | rfl | rfl | rfl | rfl | rfl | rfl | rfl | rfl
  all_goals first | exact prime_107361793816595537 | exact prime_174723607534414371449 | exact prime_341948486974166000522343609283189 | norm_num

/-! ## The field `ZMod P` and the curve `y² = x³ + 7` -/

instance factPrimeP : Fact (Nat.Prime P) := ⟨prime_P⟩

instance factPrimeN : Fact (Nat.Prime N) := ⟨prime_N⟩

theorem one_lt_P : 1 < P := by decide

theorem one_lt_N : 1 < N := by decide

@[simp]
theorem cast_fSub (a b : Nat) : ((fSub a b : Nat) : ZMod P) = (a : ZMod P) - (b : ZMod P) := by
  unfold fSub
  have hle : b % P ≤ P := (Nat.mod_lt b (by decide)).le
  rw [ZMod.natCast_mod, Nat.cast_add, Nat.cast_sub hle, ZMod.natCast_mod, ZMod.natCast_self]
  ring

@[simp]
theorem cast_fInv (a : Nat) : ((fInv a : Nat) : ZMod P) = ((a : ZMod P))⁻¹ := by
  unfold fInv
  rw [powMod_cast _ _ _ one_lt_P]
  by_cases h : (a : ZMod P) = 0
  · rw [h, inv_zero, zero_pow (by decide)]
  · have h1 : (a : ZMod P) ^ (P - 1) = 1 := ZMod.pow_card_sub_one_eq_one h
    have h2 : (a : ZMod P) ^ (P - 2) * (a : ZMod P) = 1 := by
      rw [← pow_succ]
      exact h1
    exact eq_inv_of_mul_eq_one_left h2

theorem castJ_double (p : JacobianPoint) :
    castJ (DoubleNonConst p) = curve.toJacobian.dblXYZ (castJ p) := by
  ext i
  fin_cases i <;>
    simp [castJ, DoubleNonConst, Jacobian.dblXYZ, Jacobian.dblX, Jacobian.dblY, Jacobian.negDblY,
      Jacobian.dblZ, Jacobian.dblU_eq, Jacobian.negY, curve] <;> ring

/-- Residues are equal exactly when the field elements are. -/
theorem mod_eq_iff_cast (a b : Nat) : a % P = b % P ↔ (a : ZMod P) = (b : ZMod P) :=
  (ZMod.natCast_eq_natCast_iff' a b P).symm

theorem mod_eq_zero_iff_cast (a : Nat) : a % P = 0 ↔ (a : ZMod P) = 0 := by
  rw [ZMod.natCast_zmod_eq_zero_iff_dvd, Nat.dvd_iff_mod_eq_zero]

theorem two_ne_zero_P : (2 : ZMod P) ≠ 0 := by
  have h : ((2 : Nat) : ZMod P) ≠ 0 := by
    rw [Ne, ← mod_eq_zero_iff_cast]
    decide
  simpa using h

theorem three_ne_zero_P : (3 : ZMod P) ≠ 0 := by
  have h : ((3 : Nat) : ZMod P) ≠ 0 := by
    rw [Ne, ← mod_eq_zero_iff_cast]
    decide
  simpa using h

theorem seven_ne_zero_P : (7 : ZMod P) ≠ 0 := by
  have h : ((7 : Nat) : ZMod P) ≠ 0 := by
    rw [Ne, ← mod_eq_zero_iff_cast]
    decide
  simpa using h

/-- The curve equation in affine coordinates. -/
theorem affine_equation_iff (x y : ZMod P) : curve.toAffine.Equation x y ↔ y ^ 2 = x ^ 3 + 7 := by
  rw [Affine.equation_iff]
  simp [curve]

/-- Every affine point of the curve is nonsingular. -/
theorem affine_nonsingular_iff (x y : ZMod P) :
    curve.toAffine.Nonsingular x y ↔ y ^ 2 = x ^ 3 + 7 := by
  rw [Affine.nonsingular_iff', affine_equation_iff]
  simp only [curve, zero_mul, mul_zero, add_zero, zero_sub, neg_ne_zero, ne_eq]
  constructor
  · exact fun h => h.1
  · intro h
    refine ⟨h, ?_⟩
    by_contra hcon
    push_neg at hcon
    obtain ⟨hx, hy⟩ := hcon
    have hy0 : y = 0 := by
      rcases mul_eq_zero.mp hy with h2 | h2
      · exact absurd h2 two_ne_zero_P
      · exact h2
    have hx0 : x = 0 := by
      rcases mul_eq_zero.mp hx with h3 | h3
      · exact absurd h3 three_ne_zero_P
      · exact pow_eq_zero_iff (by decide) |>.mp h3
    rw [hx0, hy0] at h
    apply seven_ne_zero_P
    simpa using h.symm

/-- The curve equation in Jacobian coordinates. -/
theorem jacobian_equation_iff (Q : Fin 3 → ZMod P) :
    curve.toJacobian.Equation Q ↔ Q 1 ^ 2 - (Q 0 ^ 3 + 7 * Q 2 ^ 6) = 0 := by
  rw [Jacobian.equation_iff]
  simp [curve]

theorem jacobian_nonsingular_iff (Q : Fin 3 → ZMod P) (hz : Q 2 ≠ 0) :
    curve.toJacobian.Nonsingular Q ↔ Q 1 ^ 2 - (Q 0 ^ 3 + 7 * Q 2 ^ 6) = 0 := by
  rw [Jacobian.nonsingular_of_Z_ne_zero hz, ← jacobian_equation_iff,
    Jacobian.equation_of_Z_ne_zero hz, affine_nonsingular_iff, affine_equation_iff]

/-! ## Jacobian arithmetic computes the group law -/

/-- The rational point represented by a Jacobian point (`0` at infinity). -/
noncomputable def toPoint (p : JacobianPoint) : curve.toAffine.Point :=
  Jacobian.Point.toAffine curve (castJ p)

theorem castJ_z (p : JacobianPoint) : castJ p 2 = (p.Z : ZMod P) := rfl

theorem castJ_x (p : JacobianPoint) : castJ p 0 = (p.X : ZMod P) := rfl

theorem castJ_y (p : JacobianPoint) : castJ p 1 = (p.Y : ZMod P) := rfl

theorem toPoint_of_z_eq_zero {p : JacobianPoint} (h : (p.Z : ZMod P) = 0) : toPoint p = 0 :=
  Jacobian.Point.toAffine_of_Z_eq_zero h

theorem JValid.nonsingular {p : JacobianPoint} (hv : JValid p) (hz : (p.Z : ZMod P) ≠ 0) :
    curve.toJacobian.Nonsingular (castJ p) :=
  hv.resolve_left hz

theorem jvalid_of_nonsingular {p : JacobianPoint}
    (h : curve.toJacobian.Nonsingular (castJ p)) : JValid p := Or.inr h

theorem double_z (p : JacobianPoint) :
    ((DoubleNonConst p).Z : ZMod P) = 2 * (p.Y : ZMod P) * (p.Z : ZMod P) := by
  simp [DoubleNonConst]

theorem jvalid_double {p : JacobianPoint} (hv : JValid p) : JValid (DoubleNonConst p) := by
  by_cases hz : (p.Z : ZMod P) = 0
  · left
    rw [double_z, hz, mul_zero]
  · right
    have hn := hv.nonsingular hz
    rw [castJ_double, ← Jacobian.add_self]
    exact Jacobian.nonsingular_add hn hn

theorem toPoint_double {p : JacobianPoint} (hv : JValid p) :
    toPoint (DoubleNonConst p) = toPoint p + toPoint p := by
  by_cases hz : (p.Z : ZMod P) = 0
  · rw [toPoint_of_z_eq_zero hz, toPoint_of_z_eq_zero (by rw [double_z, hz, mul_zero]), add_zero]
  · have hn := hv.nonsingular hz
    unfold toPoint
    rw [castJ_double, ← Jacobian.add_self, Jacobian.Point.toAffine_add hn hn]

/-- The generic branch of `AddNonConst` is a rescaling of the addition formulae. -/
theorem castJ_add_generic (p q : JacobianPoint)
    (hp : curve.toJacobian.Equation (castJ p)) (hq : curve.toJacobian.Equation (castJ q)) :
    let z1z1 := p.Z * p.Z % P
    let z2z2 := q.Z * q.Z % P
    let u1 := p.X * z2z2 % P
    let u2 := q.X * z1z1 % P
    let s1 := p.Y * q.Z % P * z2z2 % P
    let s2 := q.Y * p.Z % P * z1z1 % P
    let h := fSub u2 u1
    let r := fSub s2 s1
    let hh := h * h % P
    let hhh := h * hh % P
    let v := u1 * hh % P
    let x3 := fSub (fSub (r * r % P) hhh) (2 * v % P)
    let y3 := fSub (r * fSub v x3 % P) (s1 * hhh % P)
    castJ ⟨x3, y3, h * p.Z % P * q.Z % P⟩ =
      (-((p.Z : ZMod P) * (q.Z : ZMod P))) • curve.toJacobian.addXYZ (castJ p) (castJ q) := by
  intro z1z1 z2z2 u1 u2 s1 s2 h r hh hhh v x3 y3
  rw [jacobian_equation_iff] at hp hq
  simp only [castJ_x, castJ_y, castJ_z] at hp hq
  rw [Jacobian.smul_fin3]
  ext i
  fin_cases i
  · simp [castJ, x3, r, hhh, hh, h, v, u1, u2, s1, s2, z1z1, z2z2, Jacobian.addXYZ, Jacobian.addX,
      curve]
    linear_combination (↑p.Z) ^ 6 * hq + (↑q.Z) ^ 6 * hp
  · simp [castJ, y3, x3, r, hhh, hh, h, v, u1, u2, s1, s2, z1z1, z2z2, Jacobian.addXYZ,
      Jacobian.addX, Jacobian.addY, Jacobian.negAddY, Jacobian.negY, Jacobian.addZ, curve]
    linear_combination
      (-(((q.Y : ZMod P) * p.Z ^ 3 - p.Y * q.Z ^ 3) * (↑p.Z) ^ 6)) * hq
        + (-(((q.Y : ZMod P) * p.Z ^ 3 - p.Y * q.Z ^ 3) * (↑q.Z) ^ 6)) * hp
  · simp [castJ, h, u1, u2, z1z1, z2z2, Jacobian.addXYZ, Jacobian.addZ]
    ring

theorem add_spec {p q : JacobianPoint} (hvp : JValid p) (hvq : JValid q) :
    JValid (AddNonConst p q) ∧ toPoint (AddNonConst p q) = toPoint p + toPoint q := by
  unfold AddNonConst
  by_cases hpz : p.Z % P = 0
  · rw [if_pos hpz]
    rw [mod_eq_zero_iff_cast] at hpz
    exact ⟨hvq, by rw [toPoint_of_z_eq_zero hpz, zero_add]⟩
  rw [if_neg hpz]
  by_cases hqz : q.Z % P = 0
  · rw [if_pos hqz]
    rw [mod_eq_zero_iff_cast] at hqz
    exact ⟨hvp, by rw [toPoint_of_z_eq_zero hqz, add_zero]⟩
  rw [if_neg hqz]
  rw [mod_eq_zero_iff_cast] at hpz hqz
  have hnp := hvp.nonsingular hpz
  have hnq := hvq.nonsingular hqz
  have hpz' : castJ p 2 ≠ 0 := hpz
  have hqz' : castJ q 2 ≠ 0 := hqz
  by_cases hu : p.X * (q.Z * q.Z % P) % P = q.X * (p.Z * p.Z % P) % P
  · have hx : castJ p 0 * castJ q 2 ^ 2 = castJ q 0 * castJ p 2 ^ 2 := by
      have := (mod_eq_iff_cast _ _).mp hu
      simp only [castJ_x, castJ_z]
      simp only [Nat.cast_mul, ZMod.natCast_mod] at this
      linear_combination this
    by_cases hs : p.Y * q.Z % P * (q.Z * q.Z % P) % P = q.Y * p.Z % P * (p.Z * p.Z % P) % P
    · have hy : castJ p 1 * castJ q 2 ^ 3 = castJ q 1 * castJ p 2 ^ 3 := by
        have := (mod_eq_iff_cast _ _).mp hs
        simp only [castJ_y, castJ_z]
        simp only [Nat.cast_mul, ZMod.natCast_mod] at this
        linear_combination this
      have heq : toPoint q = toPoint p :=
        (Jacobian.Point.toAffine_of_equiv
          (Jacobian.equiv_of_X_eq_of_Y_eq hpz' hqz' hx hy)).symm
      simp only [if_pos hu, if_pos hs]
      exact ⟨jvalid_double hvp, by rw [toPoint_double hvp, heq]⟩
    · have hy : castJ p 1 * castJ q 2 ^ 3 ≠ castJ q 1 * castJ p 2 ^ 3 := by
        intro hcon
        apply hs
        apply (mod_eq_iff_cast _ _).mpr
        simp only [castJ_y, castJ_z] at hcon
        simp only [Nat.cast_mul, ZMod.natCast_mod]
        linear_combination hcon
      simp only [if_pos hu, if_neg hs]
      refine ⟨Or.inl (by simp [infinity]), ?_⟩
      rw [toPoint_of_z_eq_zero (by simp [infinity])]
      unfold toPoint
      rw [← Jacobian.Point.toAffine_add hnp hnq,
        Jacobian.add_of_Y_ne hnp.left hnq.left hpz' hqz' hx hy,
        Jacobian.Point.toAffine_smul _ (Jacobian.isUnit_addU_of_Y_ne hpz' hqz' hy),
        Jacobian.Point.toAffine_zero]
  · have hx : castJ p 0 * castJ q 2 ^ 2 ≠ castJ q 0 * castJ p 2 ^ 2 := by
      intro hcon
      apply hu
      apply (mod_eq_iff_cast _ _).mpr
      simp only [castJ_x, castJ_z] at hcon
      simp only [Nat.cast_mul, ZMod.natCast_mod]
      linear_combination hcon
    simp only [if_neg hu]
    have key := castJ_add_generic p q hnp.left hnq.left
    simp only [] at key
    have hunit : IsUnit (-((p.Z : ZMod P) * (q.Z : ZMod P))) :=
      (neg_ne_zero.mpr (mul_ne_zero hpz hqz)).isUnit
    have hadd : curve.toJacobian.add (castJ p) (castJ q)
        = curve.toJacobian.addXYZ (castJ p) (castJ q) :=
      Jacobian.add_of_not_equiv (Jacobian.not_equiv_of_X_ne hx)
    have hns : curve.toJacobian.Nonsingular (curve.toJacobian.addXYZ (castJ p) (castJ q)) := by
      rw [← hadd]
      exact Jacobian.nonsingular_add hnp hnq
    constructor
    · right
      rw [key]
      exact (Jacobian.nonsingular_smul _ hunit).mpr hns
    · unfold toPoint
      rw [key, Jacobian.Point.toAffine_smul _ hunit, ← hadd,
        Jacobian.Point.toAffine_add hnp hnq]

theorem jvalid_add {p q : JacobianPoint} (hvp : JValid p) (hvq : JValid q) :
    JValid (AddNonConst p q) := (add_spec hvp hvq).1

theorem toPoint_add {p q : JacobianPoint} (hvp : JValid p) (hvq : JValid q) :
    toPoint (AddNonConst p q) = toPoint p + toPoint q := (add_spec hvp hvq).2

theorem jvalid_infinity : JValid infinity := Or.inl (by simp [infinity])

theorem toPoint_infinity : toPoint infinity = 0 := toPoint_of_z_eq_zero (by simp [infinity])

theorem scalarMultAux_spec {p : JacobianPoint} (hv : JValid p) :
    ∀ (fuel k : Nat), k ≤ fuel →
      JValid (scalarMultAux fuel k p) ∧ toPoint (scalarMultAux fuel k p) = k • toPoint p := by
  intro fuel
  induction fuel with
  | zero =>
    intro k hk
    have h0 : k = 0 := Nat.le_zero.mp hk
    subst h0
    exact ⟨jvalid_infinity, by rw [scalarMultAux, toPoint_infinity, zero_nsmul]⟩
  | succ f ih =>
    intro k hk
    unfold scalarMultAux
    by_cases h0 : k = 0
    · subst h0
      exact ⟨jvalid_infinity, by rw [if_pos rfl, toPoint_infinity, zero_nsmul]⟩
    · rw [if_neg h0]
      obtain ⟨hv1, ht1⟩ := ih (k / 2) (by omega)
      have hvd := jvalid_double hv1
      have htd : toPoint (DoubleNonConst (scalarMultAux f (k / 2) p))
          = (2 * (k / 2)) • toPoint p := by
        rw [toPoint_double hv1, ht1, mul_smul, two_smul]
      by_cases hodd : k % 2 = 1
      · simp only [if_pos hodd]
        refine ⟨jvalid_add hvd hv, ?_⟩
        rw [toPoint_add hvd hv, htd]
        have he : k = 2 * (k / 2) + 1 := by omega
        conv_rhs => rw [he, add_smul, one_smul]
      · simp only [if_neg hodd]
        refine ⟨hvd, ?_⟩
        rw [htd]
        have he : k = 2 * (k / 2) := by omega
        conv_rhs => rw [he]

theorem jvalid_scalarMult {p : JacobianPoint} (hv : JValid p) (k : Nat) :
    JValid (ScalarMultNonConst k p) := (scalarMultAux_spec hv k k le_rfl).1

theorem toPoint_scalarMult {p : JacobianPoint} (hv : JValid p) (k : Nat) :
    toPoint (ScalarMultNonConst k p) = k • toPoint p := (scalarMultAux_spec hv k k le_rfl).2

/-! ## Affine points given by residues -/

theorem isOnCurve_iff (x y : Nat) :
    isOnCurve x y = true ↔ (y : ZMod P) ^ 2 = (x : ZMod P) ^ 3 + 7 := by
  unfold isOnCurve
  rw [beq_iff_eq, mod_eq_iff_cast]
  simp only [Nat.cast_mul, Nat.cast_add, ZMod.natCast_mod, Nat.cast_ofNat]
  constructor <;> intro h <;> linear_combination h

theorem nonsingular_of_isOnCurve {x y : Nat} (h : isOnCurve x y = true) :
    curve.toAffine.Nonsingular (x : ZMod P) (y : ZMod P) :=
  (affine_nonsingular_iff _ _).mpr ((isOnCurve_iff x y).mp h)

/-- The rational point with residues `(x, y)`. -/
noncomputable def affPoint (x y : Nat) : curve.toAffine.Point :=
  toPoint ⟨x, y, 1⟩

theorem castJ_one_ne_zero (x y : Nat) : castJ ⟨x, y, 1⟩ 2 ≠ 0 := by
  simp [castJ]

theorem jvalid_affine {x y : Nat} (h : isOnCurve x y = true) : JValid ⟨x, y, 1⟩ := by
  right
  rw [jacobian_nonsingular_iff _ (castJ_one_ne_zero x y)]
  have := (isOnCurve_iff x y).mp h
  simp only [castJ_x, castJ_y, castJ_z, Nat.cast_one, one_pow, mul_one]
  linear_combination this

theorem affPoint_eq {x y : Nat} (h : isOnCurve x y = true) :
    affPoint x y = Affine.Point.some (nonsingular_of_isOnCurve h) := by
  unfold affPoint toPoint
  have hns := (jvalid_affine h).nonsingular (by simp)
  rw [Jacobian.Point.toAffine_of_Z_ne_zero hns (castJ_one_ne_zero x y)]
  simp [castJ]

theorem affPoint_ne_zero {x y : Nat} (h : isOnCurve x y = true) : affPoint x y ≠ 0 := by
  rw [affPoint_eq h]
  exact Affine.Point.some_ne_zero _

theorem cast_inj_of_lt {a b : Nat} (ha : a < P) (hb : b < P)
    (h : (a : ZMod P) = (b : ZMod P)) : a = b := by
  have := (mod_eq_iff_cast a b).mpr h
  rwa [Nat.mod_eq_of_lt ha, Nat.mod_eq_of_lt hb] at this

/-- Residues below `P` are determined by the rational point. -/
theorem affPoint_inj {x y x' y' : Nat} (h : isOnCurve x y = true) (h' : isOnCurve x' y' = true)
    (hx : x < P) (hy : y < P) (hx' : x' < P) (hy' : y' < P)
    (heq : affPoint x y = affPoint x' y') : x = x' ∧ y = y' := by
  rw [affPoint_eq h, affPoint_eq h', Affine.Point.some.injEq] at heq
  exact ⟨cast_inj_of_lt hx hx' heq.1, cast_inj_of_lt hy hy' heq.2⟩

/-- Negation flips the ordinate. -/
theorem affPoint_neg {x y : Nat} (h : isOnCurve x y = true) :
    isOnCurve x ((P - y % P) % P) = true ∧ affPoint x ((P - y % P) % P) = -affPoint x y := by
  have hc : (((P - y % P) % P : Nat) : ZMod P) = -(y : ZMod P) := by
    have hle : y % P ≤ P := (Nat.mod_lt y (by decide)).le
    rw [ZMod.natCast_mod, Nat.cast_sub hle, ZMod.natCast_mod, ZMod.natCast_self, zero_sub]
  have h' : isOnCurve x ((P - y % P) % P) = true := by
    rw [isOnCurve_iff, hc]
    have := (isOnCurve_iff x y).mp h
    linear_combination this
  refine ⟨h', ?_⟩
  rw [affPoint_eq h, affPoint_eq h', Affine.Point.neg_some, Affine.Point.some.injEq]
  refine ⟨rfl, ?_⟩
  rw [hc]
  simp [Affine.negY, curve]

/-! ## `ToAffine` -/

theorem toPoint_ne_zero_iff {p : JacobianPoint} (hv : JValid p) :
    toPoint p ≠ 0 ↔ p.Z % P ≠ 0 := by
  rw [Ne, Ne, mod_eq_zero_iff_cast]
  constructor
  · exact fun h hz => h (toPoint_of_z_eq_zero hz)
  · intro hz
    unfold toPoint
    rw [Jacobian.Point.toAffine_of_Z_ne_zero (hv.nonsingular hz) hz]
    exact Affine.Point.some_ne_zero _

theorem castJ_toAffine (p : JacobianPoint) (hz : (p.Z : ZMod P) ≠ 0) :
    castJ p.ToAffine = ((p.Z : ZMod P))⁻¹ • castJ p := by
  rw [Jacobian.smul_fin3]
  ext i
  fin_cases i
  · simp [castJ, JacobianPoint.ToAffine]
    ring
  · simp [castJ, JacobianPoint.ToAffine]
    ring
  · simp [castJ, JacobianPoint.ToAffine, hz]

theorem toAffine_z (p : JacobianPoint) : p.ToAffine.Z = 1 := rfl

theorem toAffine_x_lt (p : JacobianPoint) : p.ToAffine.X < P := Nat.mod_lt _ (by decide)

theorem toAffine_y_lt (p : JacobianPoint) : p.ToAffine.Y < P := Nat.mod_lt _ (by decide)

/-- `ToAffine` of a finite valid point: residues on the curve, same rational point. -/
theorem toAffine_spec {p : JacobianPoint} (hv : JValid p) (hz : p.Z % P ≠ 0) :
    isOnCurve p.ToAffine.X p.ToAffine.Y = true ∧
      affPoint p.ToAffine.X p.ToAffine.Y = toPoint p := by
  rw [Ne, mod_eq_zero_iff_cast] at hz
  have hu : IsUnit ((p.Z : ZMod P))⁻¹ := (inv_ne_zero hz).isUnit
  have hns : curve.toJacobian.Nonsingular (castJ p.ToAffine) := by
    rw [castJ_toAffine p hz]
    exact (Jacobian.nonsingular_smul _ hu).mpr (hv.nonsingular hz)
  have hshape : p.ToAffine = ⟨p.ToAffine.X, p.ToAffine.Y, 1⟩ := rfl
  constructor
  · rw [isOnCurve_iff]
    have h1 : castJ p.ToAffine 2 ≠ 0 := by
      rw [hshape]
      exact castJ_one_ne_zero _ _
    have := (jacobian_nonsingular_iff _ h1).mp hns
    rw [hshape] at this
    simp only [castJ_x, castJ_y, castJ_z, Nat.cast_one, one_pow, mul_one] at this
    linear_combination this
  · unfold affPoint
    rw [← hshape]
    unfold toPoint
    rw [castJ_toAffine p hz, Jacobian.Point.toAffine_smul _ hu]

/-- `ToAffine` of the point at infinity is `(0, 0)`. -/
theorem toAffine_of_z_eq_zero {p : JacobianPoint} (hz : p.Z % P = 0) : p.ToAffine.X = 0 := by
  have h0 : fInv p.Z = 0 := by
    have hc : ((fInv p.Z : Nat) : ZMod P) = 0 := by
      rw [cast_fInv, (mod_eq_zero_iff_cast _).mp hz, inv_zero]
    have hlt : fInv p.Z < P := by
      unfold fInv
      rw [powMod_eq _ _ _ one_lt_P]
      exact Nat.mod_lt _ (by decide)
    have := (mod_eq_zero_iff_cast _).mpr hc
    rwa [Nat.mod_eq_of_lt hlt] at this
  simp [JacobianPoint.ToAffine, h0]

/-! ## The base point and its order -/

theorem isOnCurve_G : isOnCurve Gx Gy = true := by decide

theorem jvalid_G : JValid G := jvalid_affine isOnCurve_G

/-- The base point as a rational point. -/
noncomputable def G₀ : curve.toAffine.Point := affPoint Gx Gy

theorem toPoint_G : toPoint G = G₀ := rfl

set_option maxRecDepth 100000 in
theorem scalarMult_N_G : (ScalarMultNonConst N G).Z % P = 0 := by decide!

/-- The base point is annihilated by the group order. -/
theorem N_smul_G₀ : N • G₀ = 0 := by
  rw [← toPoint_G, ← toPoint_scalarMult jvalid_G]
  exact toPoint_of_z_eq_zero ((mod_eq_zero_iff_cast _).mp scalarMult_N_G)

theorem G₀_ne_zero : G₀ ≠ 0 := affPoint_ne_zero isOnCurve_G

/-- Scalars congruent modulo `N` give the same multiple of the base point. -/
theorem smul_G₀_congr {a b : Nat} (h : (a : ZMod N) = (b : ZMod N)) : a • G₀ = b • G₀ := by
  have key : ∀ c : Nat, c • G₀ = (c % N) • G₀ := by
    intro c
    conv_lhs => rw [← Nat.mod_add_div c N, add_nsmul, mul_nsmul, N_smul_G₀, nsmul_zero, add_zero]
  rw [key a, key b, (ZMod.natCast_eq_natCast_iff' a b N).mp h]

/-- A multiple of the base point vanishes only for scalars divisible by `N`. -/
theorem smul_G₀_eq_zero_iff (k : Nat) : k • G₀ = 0 ↔ (k : ZMod N) = 0 := by
  constructor
  · intro h
    by_contra hk
    apply G₀_ne_zero
    have hinv : (k : ZMod N)⁻¹ * (k : ZMod N) = 1 := inv_mul_cancel₀ hk
    have h1 : ((((k : ZMod N)⁻¹).val * k : Nat) : ZMod N) = ((1 : Nat) : ZMod N) := by
      rw [Nat.cast_mul, ZMod.natCast_zmod_val, hinv, Nat.cast_one]
    have := smul_G₀_congr h1
    rw [mul_nsmul', h, nsmul_zero, one_nsmul] at this
    exact this.symm
  · intro h
    have h0 : (k : ZMod N) = ((0 : Nat) : ZMod N) := by rw [h, Nat.cast_zero]
    rw [smul_G₀_congr h0, zero_nsmul]

/-! ## Encoding lemmas -/

theorem length_natToBE (n x : Nat) : (natToBE n x).length = n := by
  induction n generalizing x with
  | zero => rfl
  | succ n ih => simp [natToBE, ih]

theorem beToNat_snoc (l : List UInt8) (b : UInt8) :
    beToNat (l ++ [b]) = beToNat l * 256 + b.toNat := by
  simp [beToNat, List.foldl_append]

theorem toNat_ofNat_mod (n : Nat) : (UInt8.ofNat (n % 256)).toNat = n % 256 := by
  show n % 256 % 256 = n % 256
  exact Nat.mod_mod _ _

theorem beToNat_natToBE (n x : Nat) : beToNat (natToBE n x) = x % 256 ^ n := by
  induction n generalizing x with
  | zero => simp [natToBE, beToNat, Nat.mod_one]
  | succ n ih =>
    rw [natToBE, beToNat_snoc, ih, toNat_ofNat_mod, pow_succ, mul_comm (256 ^ n) 256,
      Nat.mod_mul]
    ring

theorem beToNat_natToBE_of_lt {n x : Nat} (h : x < 256 ^ n) : beToNat (natToBE n x) = x := by
  rw [beToNat_natToBE, Nat.mod_eq_of_lt h]

theorem P_lt : P < 256 ^ 32 := by decide

theorem N_lt_P : N < P := by decide

theorem beToNat_Bytes {x : Nat} (h : x < P) : beToNat (Bytes x) = x :=
  beToNat_natToBE_of_lt (lt_trans h P_lt)

theorem length_Bytes (x : Nat) : (Bytes x).length = 32 := length_natToBE 32 x

/-! ## Square roots and `liftX` -/

theorem P_odd : P % 2 = 1 := by decide

theorem powMod_lt (b e : Nat) : powMod b e P < P := by
  rw [powMod_eq _ _ _ one_lt_P]
  exact Nat.mod_lt _ (by decide)

/-- The candidate root `c ^ ((P + 1) / 4)` squares to `c` when `c` is a square. -/
theorem sqrt_candidate_sq (y : ZMod P) : ((y ^ 2) ^ ((P + 1) / 4)) ^ 2 = y ^ 2 := by
  by_cases hy : y = 0
  · subst hy
    have h4 : (P + 1) / 4 ≠ 0 := by decide
    simp [h4]
  · have h1 : y ^ (P - 1) = 1 := ZMod.pow_card_sub_one_eq_one hy
    have hexp : 2 * ((P + 1) / 4 * 2) = (P - 1) + 2 := by decide
    rw [← pow_mul, ← pow_mul, hexp, pow_add, h1, one_mul]

theorem liftX_spec {x y : Nat} (h : isOnCurve x y = true) (hy : y < P) (b : Bool) :
    crypto.liftX x b = some (x, if decide (y % 2 = 1) = b then y else (P - y) % P) := by
  have hcurve := (isOnCurve_iff x y).mp h
  have hc : (((x * x % P * x + 7) % P : Nat) : ZMod P) = (y : ZMod P) ^ 2 := by
    simp only [ZMod.natCast_mod, Nat.cast_add, Nat.cast_mul, Nat.cast_ofNat]
    linear_combination -hcurve
  have hcand : ((powMod ((x * x % P * x + 7) % P) ((P + 1) / 4) P : Nat) : ZMod P)
      = ((y : ZMod P) ^ 2) ^ ((P + 1) / 4) := by
    rw [powMod_cast _ _ _ one_lt_P, hc]
  have hsq : powMod ((x * x % P * x + 7) % P) ((P + 1) / 4) P
      * powMod ((x * x % P * x + 7) % P) ((P + 1) / 4) P % P = (x * x % P * x + 7) % P := by
    have hlt : (x * x % P * x + 7) % P < P := Nat.mod_lt _ (by decide)
    apply cast_inj_of_lt (Nat.mod_lt _ (by decide)) hlt
    rw [ZMod.natCast_mod, Nat.cast_mul, hcand, ← pow_two, sqrt_candidate_sq, hc]
  have hroots : powMod ((x * x % P * x + 7) % P) ((P + 1) / 4) P = y
      ∨ powMod ((x * x % P * x + 7) % P) ((P + 1) / 4) P = (P - y) % P := by
    have hlt := powMod_lt ((x * x % P * x + 7) % P) ((P + 1) / 4)
    have hz : ((y : ZMod P) ^ 2) ^ ((P + 1) / 4) = y ∨ ((y : ZMod P) ^ 2) ^ ((P + 1) / 4) = -y := by
      have := sqrt_candidate_sq (y : ZMod P)
      exact sq_eq_sq_iff_eq_or_eq_neg.mp this
    rcases hz with hz | hz
    · left
      exact cast_inj_of_lt hlt hy (hcand.trans hz)
    · right
      apply cast_inj_of_lt hlt (Nat.mod_lt _ (by decide))
      rw [hcand, hz, ZMod.natCast_mod, Nat.cast_sub hy.le, ZMod.natCast_self, zero_sub]
  have hdef : crypto.liftX x b =
      if powMod ((x * x % P * x + 7) % P) ((P + 1) / 4) P
          * powMod ((x * x % P * x + 7) % P) ((P + 1) / 4) P % P = (x * x % P * x + 7) % P then
        some (x, if decide (powMod ((x * x % P * x + 7) % P) ((P + 1) / 4) P % 2 = 1) = b
          then powMod ((x * x % P * x + 7) % P) ((P + 1) / 4) P
          else (P - powMod ((x * x % P * x + 7) % P) ((P + 1) / 4) P) % P)
      else none := rfl
  refine hdef.trans ?_
  refine (if_pos hsq).trans ?_
  refine congrArg (fun t => some (x, t)) ?_
  rcases hroots with hr | hr
  · rw [hr]
  · rw [hr]
    by_cases hy0 : y = 0
    · subst hy0
      simp
    · have hPy : (P - y) % P = P - y := Nat.mod_eq_of_lt (by omega)
      have hPP : (P - (P - y)) % P = y := by
        rw [Nat.sub_sub_self hy.le, Nat.mod_eq_of_lt hy]
      rw [hPy, hPP]
      have hpar : (P - y) % 2 = 1 ↔ ¬ (y % 2 = 1) := by
        have := P_odd
        omega
      by_cases hodd : y % 2 = 1 <;> cases b <;> simp [hpar, hodd]

/-! ## The linear combination `u1 * G + u2 * Q` -/

theorem ecmult_spec {qx qy : Nat} (hq : isOnCurve qx qy = true) (u1 u2 : Nat) :
    (crypto.ecmult u1 u2 (qx, qy) = none ∧ u1 • G₀ + u2 • affPoint qx qy = 0) ∨
    (∃ x y, crypto.ecmult u1 u2 (qx, qy) = some (x, y) ∧ isOnCurve x y = true ∧ x < P ∧ y < P ∧
      affPoint x y = u1 • G₀ + u2 • affPoint qx qy) := by
  have hvq : JValid ⟨qx, qy, 1⟩ := jvalid_affine hq
  have hv1 := jvalid_scalarMult jvalid_G u1
  have hv2 := jvalid_scalarMult hvq u2
  have hv := jvalid_add hv1 hv2
  have ht : toPoint (AddNonConst (ScalarBaseMultNonConst u1) (ScalarMultNonConst u2 ⟨qx, qy, 1⟩))
      = u1 • G₀ + u2 • affPoint qx qy := by
    unfold ScalarBaseMultNonConst
    rw [toPoint_add hv1 hv2, toPoint_scalarMult jvalid_G, toPoint_scalarMult hvq, toPoint_G]
    rfl
  have hdef : crypto.ecmult u1 u2 (qx, qy) =
      if (AddNonConst (ScalarBaseMultNonConst u1) (ScalarMultNonConst u2 ⟨qx, qy, 1⟩)).Z % P = 0
      then none
      else some ((AddNonConst (ScalarBaseMultNonConst u1)
          (ScalarMultNonConst u2 ⟨qx, qy, 1⟩)).ToAffine.X,
        (AddNonConst (ScalarBaseMultNonConst u1)
          (ScalarMultNonConst u2 ⟨qx, qy, 1⟩)).ToAffine.Y) := rfl
  rw [hdef]
  by_cases hz : (AddNonConst (ScalarBaseMultNonConst u1)
      (ScalarMultNonConst u2 ⟨qx, qy, 1⟩)).Z % P = 0
  · left
    rw [if_pos hz, ← ht]
    exact ⟨rfl, toPoint_of_z_eq_zero ((mod_eq_zero_iff_cast _).mp hz)⟩
  · right
    rw [if_neg hz]
    obtain ⟨hon, hpt⟩ := toAffine_spec hv hz
    exact ⟨_, _, rfl, hon, toAffine_x_lt _, toAffine_y_lt _, hpt.trans ht⟩

/-! ## Scalars modulo the group order -/

theorem cast_scalarInv (a : Nat) : ((powMod a (N - 2) N : Nat) : ZMod N) = ((a : ZMod N))⁻¹ := by
  rw [powMod_cast _ _ _ one_lt_N]
  by_cases h : (a : ZMod N) = 0
  · rw [h, inv_zero, zero_pow (by decide)]
  · have h1 : (a : ZMod N) ^ (N - 1) = 1 := ZMod.pow_card_sub_one_eq_one h
    have h2 : (a : ZMod N) ^ (N - 2) * (a : ZMod N) = 1 := by
      rw [← pow_succ]
      exact h1
    exact eq_inv_of_mul_eq_one_left h2

theorem cast_scalarNeg (a : Nat) : ((N - a % N : Nat) : ZMod N) = -(a : ZMod N) := by
  have hle : a % N ≤ N := (Nat.mod_lt a (by decide)).le
  rw [Nat.cast_sub hle, ZMod.natCast_mod, ZMod.natCast_self, zero_sub]

theorem cast_ne_zero_of_lt {a : Nat} (h0 : a ≠ 0) (hlt : a < N) : (a : ZMod N) ≠ 0 := by
  intro h
  rw [ZMod.natCast_zmod_eq_zero_iff_dvd] at h
  exact h0 (Nat.eq_zero_of_dvd_of_lt h hlt)

/-- The multiples of the base point, indexed by scalars modulo `N`. -/
noncomputable def baseMul : ZMod N →+ curve.toAffine.Point :=
  ZMod.lift N ⟨zmultiplesHom _ G₀, by
    show ((N : ℤ)) • G₀ = 0
    rw [natCast_zsmul]
    exact N_smul_G₀⟩

theorem baseMul_natCast (k : Nat) : baseMul (k : ZMod N) = k • G₀ := by
  have h := ZMod.lift_coe N (A := curve.toAffine.Point) ⟨zmultiplesHom _ G₀, by
    show ((N : ℤ)) • G₀ = 0
    rw [natCast_zsmul]
    exact N_smul_G₀⟩ (k : ℤ)
  rw [Int.cast_natCast] at h
  show ZMod.lift N _ (k : ZMod N) = _
  rw [h]
  show ((k : ℤ)) • G₀ = k • G₀
  exact natCast_zsmul _ _

theorem nsmul_baseMul (n : Nat) (a : ZMod N) : n • baseMul a = baseMul ((n : ZMod N) * a) := by
  rw [← map_nsmul, nsmul_eq_mul]

/-- The algebra of recovery followed by verification: with `Q = r⁻¹ (s T - z G)`, the
combination `s⁻¹ z G + s⁻¹ r Q` is the point `T` again. -/
theorem verify_of_recover (t : ZMod N) (r s z : Nat) (hr : (r : ZMod N) ≠ 0)
    (hs : (s : ZMod N) ≠ 0) (T Q : curve.toAffine.Point) (hT : T = baseMul t)
    (hQ : Q = ((N - powMod r (N - 2) N * z % N) % N) • G₀ + (powMod r (N - 2) N * s % N) • T) :
    (powMod s (N - 2) N * z % N) • G₀ + (powMod s (N - 2) N * r % N) • Q = T := by
  rw [hQ, hT]
  simp only [← baseMul_natCast, nsmul_baseMul, ← map_add]
  congr 1
  simp only [ZMod.natCast_mod, cast_scalarNeg, Nat.cast_mul, cast_scalarInv]
  field_simp
  ring

/-! ## Recovery and verification on scalars -/

theorem sigRecover_eq {rx ry s : Nat} (hR : isOnCurve rx ry = true) (hry : ry < P)
    (hr0 : rx ≠ 0) (hs0 : s ≠ 0) (z recid : Nat) (hrec : recid < 2) :
    crypto.sigRecover rx s z recid =
      crypto.ecmult ((N - powMod rx (N - 2) N * z % N) % N) (powMod rx (N - 2) N * s % N)
        (rx, if decide (ry % 2 = 1) = decide (recid % 2 = 1) then ry else (P - ry) % P) := by
  have h2 : ¬ (recid / 2 % 2 = 1) := by omega
  have h1 : ¬ (rx = 0 ∨ s = 0) := by
    rintro (h | h)
    · exact hr0 h
    · exact hs0 h
  have h3 : ¬ (recid / 2 % 2 = 1 ∧ P - N ≤ rx) := fun h => h2 h.1
  unfold crypto.sigRecover
  rw [if_neg h1, if_neg h3, if_neg h2, liftX_spec hR hry]

theorem jvalid_scalarBaseMult (k : Nat) : JValid (ScalarBaseMultNonConst k) :=
  jvalid_scalarMult jvalid_G k

theorem toPoint_scalarBaseMult (k : Nat) : toPoint (ScalarBaseMultNonConst k) = k • G₀ :=
  toPoint_scalarMult jvalid_G k

/-- The point selected by `r` and the recovery bit is a multiple of the base point. -/
theorem lifted_point {k : Nat} (hz : (ScalarBaseMultNonConst k).Z % P ≠ 0) (b : Bool) :
    isOnCurve (ScalarBaseMultNonConst k).ToAffine.X
        (if decide ((ScalarBaseMultNonConst k).ToAffine.Y % 2 = 1) = b
          then (ScalarBaseMultNonConst k).ToAffine.Y
          else (P - (ScalarBaseMultNonConst k).ToAffine.Y) % P) = true ∧
      (if decide ((ScalarBaseMultNonConst k).ToAffine.Y % 2 = 1) = b
          then (ScalarBaseMultNonConst k).ToAffine.Y
          else (P - (ScalarBaseMultNonConst k).ToAffine.Y) % P) < P ∧
      affPoint (ScalarBaseMultNonConst k).ToAffine.X
        (if decide ((ScalarBaseMultNonConst k).ToAffine.Y % 2 = 1) = b
          then (ScalarBaseMultNonConst k).ToAffine.Y
          else (P - (ScalarBaseMultNonConst k).ToAffine.Y) % P) =
        baseMul (if decide ((ScalarBaseMultNonConst k).ToAffine.Y % 2 = 1) = b
          then (k : ZMod N) else -(k : ZMod N)) := by
  obtain ⟨hon, hpt⟩ := toAffine_spec (jvalid_scalarBaseMult k) hz
  have hRpt : affPoint (ScalarBaseMultNonConst k).ToAffine.X (ScalarBaseMultNonConst k).ToAffine.Y
      = baseMul (k : ZMod N) := by
    rw [baseMul_natCast, ← toPoint_scalarBaseMult]
    exact hpt
  by_cases hb : decide ((ScalarBaseMultNonConst k).ToAffine.Y % 2 = 1) = b
  · simp only [if_pos hb]
    exact ⟨hon, toAffine_y_lt _, hRpt⟩
  · simp only [if_neg hb]
    have hlt : (ScalarBaseMultNonConst k).ToAffine.Y < P := toAffine_y_lt _
    obtain ⟨hon', hneg⟩ := affPoint_neg hon
    rw [Nat.mod_eq_of_lt hlt] at hon' hneg
    exact ⟨hon', Nat.mod_lt _ (by decide), by rw [hneg, hRpt, map_neg]⟩

/-- A key recovered from `(r, s)` with `r` the abscissa of `k * G` verifies `(r, s)`. -/
theorem verify_of_sigRecover {k s : Nat} (hz : (ScalarBaseMultNonConst k).Z % P ≠ 0)
    (hr0 : (ScalarBaseMultNonConst k).ToAffine.X ≠ 0)
    (hrN : (ScalarBaseMultNonConst k).ToAffine.X < N) (hs0 : s ≠ 0) (hsN : s < N)
    (z recid : Nat) (hrec : recid < 2) (q : Nat × Nat)
    (hq : crypto.sigRecover (ScalarBaseMultNonConst k).ToAffine.X s z recid = some q) :
    isOnCurve q.1 q.2 = true ∧ q.1 < P ∧ q.2 < P ∧
      crypto.sigVerify (ScalarBaseMultNonConst k).ToAffine.X s z q = true := by
  obtain ⟨hon, -⟩ := toAffine_spec (jvalid_scalarBaseMult k) hz
  obtain ⟨hTon, hTlt, hTpt⟩ := lifted_point hz (decide (recid % 2 = 1))
  rw [sigRecover_eq hon (toAffine_y_lt _) hr0 hs0 z recid hrec] at hq
  rcases ecmult_spec hTon ((N - powMod (ScalarBaseMultNonConst k).ToAffine.X (N - 2) N * z % N) % N)
      (powMod (ScalarBaseMultNonConst k).ToAffine.X (N - 2) N * s % N) with ⟨hnone, -⟩ | hsome
  · rw [hnone] at hq
    exact absurd hq (by simp)
  · obtain ⟨x, y, hxy, hQon, hx, hy, hQpt⟩ := hsome
    rw [hxy] at hq
    have hqeq : q = (x, y) := (Option.some.inj hq).symm
    subst hqeq
    refine ⟨hQon, hx, hy, ?_⟩
    have hcomb := verify_of_recover _ _ s z (cast_ne_zero_of_lt hr0 hrN)
      (cast_ne_zero_of_lt hs0 hsN) _ _ hTpt hQpt
    have h1 : ¬ ((ScalarBaseMultNonConst k).ToAffine.X = 0 ∨ s = 0) := by
      rintro (h | h)
      · exact hr0 h
      · exact hs0 h
    unfold crypto.sigVerify
    rw [if_neg h1]
    rcases ecmult_spec hQon (powMod s (N - 2) N * z % N)
        (powMod s (N - 2) N * (ScalarBaseMultNonConst k).ToAffine.X % N) with ⟨-, hzero⟩ | hsome'
    · rw [hcomb] at hzero
      exact absurd hzero (affPoint_ne_zero hTon)
    · obtain ⟨x', y', hxy', hon', hx', hy', hpt'⟩ := hsome'
      simp only [hxy']
      rw [hcomb] at hpt'
      have := affPoint_inj hon' hTon hx' hy' (toAffine_x_lt _) hTlt hpt'
      simp [this.1]

/-! ## `GenerateOTS` unfolded -/

/-- The control flow of lines 41-105 in terms of the intermediate values. -/
theorem deriveOTS_eq (H : List UInt8 → List UInt8) (seed msg : List UInt8) :
    deriveOTS H seed msg =
      if nonceK H seed = 0 then .error .zeroK
      else if (pointR H seed).X = 0 then .error .zeroRx
      else if scalarS H seed = 0 then .error .zeroS
      else
        match crypto.Ecrecover msg (signatureOf H seed) with
        | .error e => .error e
        | .ok pkb =>
          match crypto.UnmarshalPubkey pkb with
          | .error e => .error e
          | .ok pk =>
            .ok { Signature := signatureOf H seed, Message := msg, PublicKey := some pk,
                  Address := crypto.PubkeyToAddress pk } := by
  unfold deriveOTS signatureOf canonS recoveryV pointR nonceK scalarS
  simp only []
  split_ifs <;> rfl

theorem length_signatureOf (H : List UInt8 → List UInt8) (seed : List UInt8) :
    (signatureOf H seed).length = 65 := by
  simp [signatureOf, length_Bytes]

theorem take32_signatureOf (H : List UInt8 → List UInt8) (seed : List UInt8) :
    (signatureOf H seed).take 32 = Bytes (pointR H seed).X := by
  unfold signatureOf
  rw [List.append_assoc, List.take_left' (length_Bytes _)]

theorem mid32_signatureOf (H : List UInt8 → List UInt8) (seed : List UInt8) :
    ((signatureOf H seed).drop 32).take 32 = Bytes (canonS H seed) := by
  unfold signatureOf
  rw [List.append_assoc, List.drop_left' (length_Bytes _), List.take_left' (length_Bytes _)]

theorem take64_signatureOf (H : List UInt8 → List UInt8) (seed : List UInt8) :
    (signatureOf H seed).take 64 = Bytes (pointR H seed).X ++ Bytes (canonS H seed) := by
  unfold signatureOf
  rw [List.take_left' (by simp [length_Bytes])]

theorem getD64_signatureOf (H : List UInt8 → List UInt8) (seed : List UInt8) :
    (signatureOf H seed).getD 64 0 = recoveryV H seed := by
  unfold signatureOf
  rw [List.getD_eq_getElem?_getD, List.getElem?_append_right (by simp [length_Bytes])]
  simp [length_Bytes]

/-! ## Scalars of the signature -/

theorem N_odd : N = 2 * (N / 2) + 1 := by decide

theorem N_lt : N < 256 ^ 32 := by decide

theorem scalarS_lt (H : List UInt8 → List UInt8) (seed : List UInt8) : scalarS H seed < N :=
  Nat.mod_lt _ (by decide)

theorem nonceK_lt (H : List UInt8 → List UInt8) (seed : List UInt8) : nonceK H seed < N :=
  Nat.mod_lt _ (by decide)

theorem pointR_x_lt (H : List UInt8 → List UInt8) (seed : List UInt8) : (pointR H seed).X < P :=
  toAffine_x_lt _

/-- Canonical form: the canonical scalar is at most half the order. -/
theorem canonS_le_half (H : List UInt8 → List UInt8) (seed : List UInt8) :
    canonS H seed ≤ N / 2 := by
  have hlt := scalarS_lt H seed
  have hodd := N_odd
  unfold canonS ModNScalar.IsOverHalfOrder ModNScalar.Negate
  by_cases hover : N / 2 < scalarS H seed
  · simp only [hover, decide_True, if_true]
    rw [Nat.mod_eq_of_lt hlt, Nat.mod_eq_of_lt (by omega)]
    omega
  · simp only [hover, decide_False]
    simp only [Bool.false_eq_true, if_false]
    omega

theorem canonS_lt (H : List UInt8 → List UInt8) (seed : List UInt8) : canonS H seed < N := by
  have := canonS_le_half H seed
  have hodd := N_odd
  omega

theorem canonS_ne_zero {H : List UInt8 → List UInt8} {seed : List UInt8}
    (h0 : scalarS H seed ≠ 0) : canonS H seed ≠ 0 := by
  have hlt := scalarS_lt H seed
  unfold canonS ModNScalar.IsOverHalfOrder ModNScalar.Negate
  by_cases hover : N / 2 < scalarS H seed
  · simp only [hover, decide_True, if_true]
    rw [Nat.mod_eq_of_lt hlt, Nat.mod_eq_of_lt (by omega)]
    omega
  · simp only [hover, decide_False]
    simp only [Bool.false_eq_true, if_false]
    exact h0

theorem recoveryV_cases (H : List UInt8 → List UInt8) (seed : List UInt8) :
    recoveryV H seed = 0 ∨ recoveryV H seed = 1 := by
  unfold recoveryV
  split_ifs
  · left; decide
  · right; decide
  · right; rfl
  · left; rfl

theorem recoveryV_lt (H : List UInt8 → List UInt8) (seed : List UInt8) :
    (recoveryV H seed).toNat < 2 := by
  rcases recoveryV_cases H seed with h | h <;> rw [h] <;> decide

/-! ## `Ecrecover` and `UnmarshalPubkey` on the generated signature -/

/-- `Ecrecover` on the generated signature: the outcome in each case. -/
theorem Ecrecover_signatureOf (H : List UInt8 → List UInt8) (seed msg : List UInt8) :
    (msg.length ≠ 32 ∧ crypto.Ecrecover msg (signatureOf H seed) = .error .invalidMsgLen) ∨
    (msg.length = 32 ∧ N ≤ (pointR H seed).X ∧
      crypto.Ecrecover msg (signatureOf H seed) = .error .recoverFailed) ∨
    (msg.length = 32 ∧ (pointR H seed).X < N ∧
      crypto.sigRecover (pointR H seed).X (canonS H seed) (beToNat msg % N)
        (recoveryV H seed).toNat = none ∧
      crypto.Ecrecover msg (signatureOf H seed) = .error .recoverFailed) ∨
    (msg.length = 32 ∧ (pointR H seed).X < N ∧ ∃ q,
      crypto.sigRecover (pointR H seed).X (canonS H seed) (beToNat msg % N)
        (recoveryV H seed).toNat = some q ∧
      crypto.Ecrecover msg (signatureOf H seed) = .ok (4 :: (Bytes q.1 ++ Bytes q.2))) := by
  have hv : ¬ 4 ≤ (recoveryV H seed).toNat := by
    have := recoveryV_lt H seed
    omega
  have hs : ¬ N ≤ canonS H seed := not_le.mpr (canonS_lt H seed)
  have hlen : ¬ (signatureOf H seed).length ≠ 65 := not_not.mpr (length_signatureOf H seed)
  unfold crypto.Ecrecover
  simp only [take32_signatureOf, mid32_signatureOf, getD64_signatureOf, if_neg hlen, if_neg hv,
    beToNat_Bytes (pointR_x_lt H seed), beToNat_Bytes (lt_trans (canonS_lt H seed) N_lt_P),
    hs, or_false]
  by_cases h32 : msg.length = 32
  · right
    rw [if_neg (not_not.mpr h32)]
    by_cases hrN : N ≤ (pointR H seed).X
    · left
      rw [if_pos hrN]
      exact ⟨h32, hrN, rfl⟩
    · right
      rw [if_neg hrN]
      cases hq : crypto.sigRecover (pointR H seed).X (canonS H seed) (beToNat msg % N)
          (recoveryV H seed).toNat with
      | none => exact Or.inl ⟨h32, not_le.mp hrN, rfl, rfl⟩
      | some q => exact Or.inr ⟨h32, not_le.mp hrN, q, rfl, rfl⟩
  · left
    rw [if_pos h32]
    exact ⟨h32, rfl⟩

theorem UnmarshalPubkey_bytes {x y : Nat} (hx : x < P) (hy : y < P)
    (hon : isOnCurve x y = true) :
    crypto.UnmarshalPubkey (4 :: (Bytes x ++ Bytes y)) = .ok ⟨x, y⟩ := by
  have hlen : (4 :: (Bytes x ++ Bytes y)).length = 65 := by simp [length_Bytes]
  have h1 : ¬ ((4 :: (Bytes x ++ Bytes y)).length ≠ 65
      ∨ (4 :: (Bytes x ++ Bytes y)).head? ≠ some 4) := by
    rw [hlen]
    simp
  have hxb : beToNat (((4 :: (Bytes x ++ Bytes y)).drop 1).take 32) = x := by
    rw [List.drop_one, List.tail_cons, List.take_left' (length_Bytes _), beToNat_Bytes hx]
  have hyb : beToNat ((4 :: (Bytes x ++ Bytes y)).drop 33) = y := by
    have : (4 :: (Bytes x ++ Bytes y)).drop 33 = Bytes y := by
      rw [show (33 : Nat) = 32 + 1 from rfl, List.drop_succ_cons,
        List.drop_left' (length_Bytes _)]
    rw [this, beToNat_Bytes hy]
  unfold crypto.UnmarshalPubkey
  rw [if_neg h1]
  simp only [hxb, hyb]
  rw [if_pos ⟨hx, hy, hon⟩]

/-! ## `CompressPubkey` and `VerifySignature` on a valid key -/

theorem parsePubkey_cons (tag : UInt8) (rest : List UInt8) :
    crypto.parsePubkey (tag :: rest) =
      if (tag :: rest).length = 33 ∧ (tag = 2 ∨ tag = 3) then
        if beToNat rest < P then crypto.liftX (beToNat rest) (decide (tag = 3)) else none
      else if (tag :: rest).length = 65 ∧ (tag = 4 ∨ tag = 6 ∨ tag = 7) then
        if beToNat (rest.take 32) < P ∧ beToNat (rest.drop 32) < P
            ∧ ((tag = 6 ∨ tag = 7) →
              (decide (beToNat (rest.drop 32) % 2 = 1) = decide (tag = 7)))
            ∧ isOnCurve (beToNat (rest.take 32)) (beToNat (rest.drop 32)) = true then
          some (beToNat (rest.take 32), beToNat (rest.drop 32))
        else none
      else none := rfl

theorem parsePubkey_uncompressed {x y : Nat} (hx : x < P) (hy : y < P)
    (hon : isOnCurve x y = true) :
    crypto.parsePubkey (4 :: (Bytes x ++ Bytes y)) = some (x, y) := by
  have hlen : (4 :: (Bytes x ++ Bytes y)).length = 65 := by simp [length_Bytes]
  have hxb : beToNat ((Bytes x ++ Bytes y).take 32) = x := by
    rw [List.take_left' (length_Bytes _), beToNat_Bytes hx]
  have hyb : beToNat ((Bytes x ++ Bytes y).drop 32) = y := by
    rw [List.drop_left' (length_Bytes _), beToNat_Bytes hy]
  have h33 : ¬ ((4 :: (Bytes x ++ Bytes y)).length = 33 ∧ ((4 : UInt8) = 2 ∨ (4 : UInt8) = 3)) := by
    rw [hlen]
    exact fun h => absurd h.1 (by decide)
  have h65 : (4 :: (Bytes x ++ Bytes y)).length = 65
      ∧ ((4 : UInt8) = 4 ∨ (4 : UInt8) = 6 ∨ (4 : UInt8) = 7) := ⟨hlen, Or.inl rfl⟩
  have htag : ((4 : UInt8) = 6 ∨ (4 : UInt8) = 7) →
      (decide (y % 2 = 1) = decide ((4 : UInt8) = 7)) := by
    intro h
    exact absurd h (by decide)
  rw [parsePubkey_cons, if_neg h33, if_pos h65, hxb, hyb, if_pos ⟨hx, hy, htag, hon⟩]

theorem parsePubkey_compressed {x y : Nat} (hx : x < P) (hy : y < P)
    (hon : isOnCurve x y = true) :
    crypto.parsePubkey ((if y % 2 = 1 then (3 : UInt8) else 2) :: Bytes x) = some (x, y) := by
  have hlen : ((if y % 2 = 1 then (3 : UInt8) else 2) :: Bytes x).length = 33 := by
    simp [length_Bytes]
  have htag : (if y % 2 = 1 then (3 : UInt8) else 2) = 2 ∨ (if y % 2 = 1 then (3 : UInt8) else 2) = 3 := by
    split_ifs
    · right; rfl
    · left; rfl
  have hdec : decide ((if y % 2 = 1 then (3 : UInt8) else 2) = 3) = decide (y % 2 = 1) := by
    by_cases hodd : y % 2 = 1
    · simp [hodd]
    · simp [hodd]
  rw [parsePubkey_cons, if_pos ⟨hlen, htag⟩, beToNat_Bytes hx, if_pos hx, hdec,
    liftX_spec hon hy, if_pos rfl]

theorem CompressPubkey_valid {pk : PublicKey} (hx : pk.X < P) (hy : pk.Y < P)
    (hon : isOnCurve pk.X pk.Y = true) :
    crypto.CompressPubkey (some pk) = some ((if pk.Y % 2 = 1 then (3 : UInt8) else 2) :: Bytes pk.X) := by
  unfold crypto.CompressPubkey crypto.FromECDSAPub
  simp only [parsePubkey_uncompressed hx hy hon]

/-- `VerifySignature` under the compressed form of a valid key. -/
theorem VerifySignature_valid {x y : Nat} (hx : x < P) (hy : y < P)
    (hon : isOnCurve x y = true) (hash sig : List UInt8) (h32 : hash.length = 32)
    (h64 : sig.length = 64) :
    crypto.VerifySignature ((if y % 2 = 1 then (3 : UInt8) else 2) :: Bytes x) hash sig =
      (decide (beToNat (sig.take 32) < N ∧ beToNat (sig.drop 32) < N
          ∧ beToNat (sig.drop 32) ≤ N / 2)
        && crypto.sigVerify (beToNat (sig.take 32)) (beToNat (sig.drop 32))
            (beToNat hash % N) (x, y)) := by
  have h1 : ¬ (hash.length ≠ 32 ∨ sig.length ≠ 64
      ∨ ((if y % 2 = 1 then (3 : UInt8) else 2) :: Bytes x).length = 0) := by
    simp [h32, h64]
  unfold crypto.VerifySignature
  rw [if_neg h1]
  simp only [parsePubkey_compressed hx hy hon, ModNScalar.IsOverHalfOrder]
  by_cases hr : beToNat (sig.take 32) < N
  · by_cases hs : beToNat (sig.drop 32) < N
    · by_cases hh : beToNat (sig.drop 32) ≤ N / 2
      · have hc : ¬ (N ≤ beToNat (sig.take 32) ∨ N ≤ beToNat (sig.drop 32)) := by omega
        have hh' : ¬ (N / 2 < beToNat (sig.drop 32)) := by omega
        simp [hr, hs, hh, hc, hh']
      · have hc : ¬ (N ≤ beToNat (sig.take 32) ∨ N ≤ beToNat (sig.drop 32)) := by omega
        have hh' : N / 2 < beToNat (sig.drop 32) := by omega
        simp [hr, hs, hh, hc, hh']
    · have hc : N ≤ beToNat (sig.take 32) ∨ N ≤ beToNat (sig.drop 32) := by omega
      simp [hr, hs, hc]
  · have hc : N ≤ beToNat (sig.take 32) ∨ N ≤ beToNat (sig.drop 32) := by omega
    simp [hr, hc]

/-- `Verify` on a bundle whose key is a valid point: the low-`s` rule and the check on
scalars. -/
theorem Verify_valid (b : OTS) (pk : PublicKey) (hpk : b.PublicKey = some pk) (hx : pk.X < P)
    (hy : pk.Y < P) (hon : isOnCurve pk.X pk.Y = true) (h32 : b.Message.length = 32)
    (h65 : b.Signature.length = 65) :
    b.Verify = some (decide (b.r < N ∧ b.s < N ∧ b.s ≤ N / 2)
      && crypto.sigVerify b.r b.s (beToNat b.Message % N) (pk.X, pk.Y)) := by
  have h64 : (b.Signature.take 64).length = 64 := by
    rw [List.length_take, h65]
    rfl
  have hr : (b.Signature.take 64).take 32 = b.Signature.take 32 := by
    rw [List.take_take]
    rfl
  have hs : (b.Signature.take 64).drop 32 = (b.Signature.drop 32).take 32 := by
    rw [List.drop_take]
  unfold OTS.Verify
  rw [hpk, CompressPubkey_valid hx hy hon]
  simp only []
  rw [VerifySignature_valid hx hy hon _ _ h32 h64, hr, hs]
  rfl

/-! ## The ECDSA verification equation -/

/-- The standard ECDSA verification equation for the scalars `(r, s)`, the message integer
`z` and the public key `Q`: both scalars lie in `[1, N - 1]`, the point
`(z s⁻¹) G + (r s⁻¹) Q` is finite, and its abscissa reduced modulo `N` is `r`. -/
def ECDSAEquation (Q : curve.toAffine.Point) (z r s : Nat) : Prop :=
  0 < r ∧ r < N ∧ 0 < s ∧ s < N ∧
    ∃ (x y : ZMod P) (h : curve.toAffine.Nonsingular x y),
      ((z : ZMod N) * ((s : ZMod N))⁻¹).val • G₀ + ((r : ZMod N) * ((s : ZMod N))⁻¹).val • Q
        = Affine.Point.some h ∧ x.val % N = r

theorem P_lt_two_N : P < 2 * N := by decide

theorem scalar_u_eq (s a : Nat) :
    powMod s (N - 2) N * a % N = ((a : ZMod N) * ((s : ZMod N))⁻¹).val := by
  rw [← ZMod.val_natCast, Nat.cast_mul, cast_scalarInv, mul_comm]

theorem x_check_iff {x r : Nat} (hx : x < P) (hr : r < N) :
    (x = r ∨ (r < P - N ∧ x = r + N)) ↔ x % N = r := by
  have h1 := N_lt_P
  have h2 := P_lt_two_N
  by_cases hxN : x < N
  · rw [Nat.mod_eq_of_lt hxN]
    constructor
    · rintro (h | ⟨-, h⟩)
      · exact h
      · omega
    · exact fun h => Or.inl h
  · have hsub : x % N = x - N := by
      rw [Nat.mod_eq_sub_mod (not_lt.mp hxN), Nat.mod_eq_of_lt (by omega)]
    rw [hsub]
    constructor
    · rintro (h | ⟨-, h⟩) <;> omega
    · intro h
      right
      omega

/-- The check on scalars is the ECDSA verification equation. -/
theorem sigVerify_iff {qx qy : Nat} (hq : isOnCurve qx qy = true) (r s z : Nat) (hr : r < N)
    (hs : s < N) :
    crypto.sigVerify r s z (qx, qy) = true ↔ ECDSAEquation (affPoint qx qy) z r s := by
  unfold crypto.sigVerify ECDSAEquation
  by_cases h0 : r = 0 ∨ s = 0
  · rw [if_pos h0]
    constructor
    · intro h
      exact absurd h (by simp)
    · rintro ⟨h1, -, h2, -⟩
      rcases h0 with h0 | h0 <;> omega
  · rw [if_neg h0]
    push_neg at h0
    simp only [← scalar_u_eq]
    rcases ecmult_spec hq (powMod s (N - 2) N * z % N) (powMod s (N - 2) N * r % N) with
      ⟨hnone, hzero⟩ | ⟨x, y, hsome, hon, hx, hy, hpt⟩
    · simp only [hnone]
      constructor
      · intro h
        exact absurd h (by simp)
      · rintro ⟨-, -, -, -, x, y, h, heq, -⟩
        rw [hzero] at heq
        exact absurd heq.symm (Affine.Point.some_ne_zero h)
    · simp only [hsome]
      rw [Bool.or_eq_true, Bool.and_eq_true, decide_eq_true_eq, decide_eq_true_eq,
        decide_eq_true_eq, x_check_iff hx hr]
      constructor
      · intro h
        refine ⟨Nat.pos_of_ne_zero h0.1, hr, Nat.pos_of_ne_zero h0.2, hs, (x : ZMod P),
          (y : ZMod P), nonsingular_of_isOnCurve hon, ?_, ?_⟩
        · rw [← hpt, affPoint_eq hon]
        · rw [ZMod.val_natCast, Nat.mod_eq_of_lt hx]
          exact h
      · rintro ⟨-, -, -, -, x', y', h', heq, hxr⟩
        rw [← hpt, affPoint_eq hon, Affine.Point.some.injEq] at heq
        rw [← heq.1, ZMod.val_natCast, Nat.mod_eq_of_lt hx] at hxr
        exact hxr

/-! ## Successful runs of `GenerateOTS` -/

theorem z_ne_zero_of_x_ne_zero {k : Nat} (h : (ScalarBaseMultNonConst k).ToAffine.X ≠ 0) :
    (ScalarBaseMultNonConst k).Z % P ≠ 0 :=
  fun hz => h (toAffine_of_z_eq_zero hz)

/-- Recovery on the generated scalars returns a point of the curve that verifies them. -/
theorem recovered_point {H : List UInt8 → List UInt8} {seed : List UInt8}
    (hx0 : (pointR H seed).X ≠ 0) (hxN : (pointR H seed).X < N) (hs0 : scalarS H seed ≠ 0)
    (z : Nat) (q : Nat × Nat)
    (hq : crypto.sigRecover (pointR H seed).X (canonS H seed) z (recoveryV H seed).toNat
      = some q) :
    isOnCurve q.1 q.2 = true ∧ q.1 < P ∧ q.2 < P ∧
      crypto.sigVerify (pointR H seed).X (canonS H seed) z q = true :=
  verify_of_sigRecover (z_ne_zero_of_x_ne_zero hx0) hx0 hxN (canonS_ne_zero hs0)
    (canonS_lt H seed) z _ (recoveryV_lt H seed) q hq

theorem deriveOTS_eq_assemble (H : List UInt8 → List UInt8) (seed msg : List UInt8) :
    deriveOTS H seed msg =
      if nonceK H seed = 0 then .error .zeroK
      else if (pointR H seed).X = 0 then .error .zeroRx
      else if scalarS H seed = 0 then .error .zeroS
      else assemble (signatureOf H seed) msg (crypto.Ecrecover msg (signatureOf H seed)) := by
  rw [deriveOTS_eq]
  split_ifs
  · rfl
  · rfl
  · rfl
  · cases crypto.Ecrecover msg (signatureOf H seed) with
    | error e => rfl
    | ok pkb =>
      unfold assemble
      dsimp only
      cases crypto.UnmarshalPubkey pkb with
      | error e => rfl
      | ok pk => rfl

/-- Every successful run: the three scalars are non-zero, `r` is below the order, the
recovery step returned a point `q`, and the bundle is assembled from it. -/
theorem deriveOTS_ok {H : List UInt8 → List UInt8} {seed msg : List UInt8} {b : OTS}
    (h : deriveOTS H seed msg = .ok b) :
    nonceK H seed ≠ 0 ∧ (pointR H seed).X ≠ 0 ∧ scalarS H seed ≠ 0 ∧ msg.length = 32 ∧
      (pointR H seed).X < N ∧
      ∃ q, crypto.sigRecover (pointR H seed).X (canonS H seed) (beToNat msg % N)
          (recoveryV H seed).toNat = some q ∧
        crypto.Ecrecover msg (signatureOf H seed) = .ok (4 :: (Bytes q.1 ++ Bytes q.2)) ∧
        crypto.UnmarshalPubkey (4 :: (Bytes q.1 ++ Bytes q.2)) = .ok ⟨q.1, q.2⟩ ∧
        b = bundleOf H seed msg q := by
  rw [deriveOTS_eq_assemble] at h
  by_cases hk : nonceK H seed = 0
  · rw [if_pos hk] at h
    exact absurd h (by simp)
  rw [if_neg hk] at h
  by_cases hx : (pointR H seed).X = 0
  · rw [if_pos hx] at h
    exact absurd h (by simp)
  rw [if_neg hx] at h
  by_cases hs : scalarS H seed = 0
  · rw [if_pos hs] at h
    exact absurd h (by simp)
  rw [if_neg hs] at h
  rcases Ecrecover_signatureOf H seed msg with ⟨-, he⟩ | ⟨-, -, he⟩ | ⟨-, -, -, he⟩
    | ⟨h32, hxN, q, hq, he⟩
  · rw [he] at h
    exact absurd h (by simp [assemble])
  · rw [he] at h
    exact absurd h (by simp [assemble])
  · rw [he] at h
    exact absurd h (by simp [assemble])
  · obtain ⟨hon, hqx, hqy, -⟩ := recovered_point hx hxN hs _ q hq
    have hu := UnmarshalPubkey_bytes hqx hqy hon
    rw [he, assemble, hu, assembleKey] at h
    refine ⟨hk, hx, hs, h32, hxN, q, hq, he, hu, ?_⟩
    exact (Except.ok.inj h).symm

/-- Conversely, the run succeeds as soon as the recovery step returns a point. -/
theorem deriveOTS_of_recover {H : List UInt8 → List UInt8} {seed msg : List UInt8}
    (hk : nonceK H seed ≠ 0) (hx : (pointR H seed).X ≠ 0) (hs : scalarS H seed ≠ 0)
    (h32 : msg.length = 32) (hxN : (pointR H seed).X < N) (q : Nat × Nat)
    (hq : crypto.sigRecover (pointR H seed).X (canonS H seed) (beToNat msg % N)
      (recoveryV H seed).toNat = some q) :
    deriveOTS H seed msg = .ok (bundleOf H seed msg q) := by
  rw [deriveOTS_eq_assemble, if_neg hk, if_neg hx, if_neg hs]
  rcases Ecrecover_signatureOf H seed msg with ⟨hne, -⟩ | ⟨-, hge, -⟩ | ⟨-, -, hnone, -⟩
    | ⟨-, -, q', hq', he⟩
  · exact absurd h32 hne
  · exact absurd hxN (not_lt.mpr hge)
  · rw [hnone] at hq
    exact absurd hq (by simp)
  · rw [hq] at hq'
    have hqq : q = q' := Option.some.inj hq'
    subst hqq
    obtain ⟨hon, hqx, hqy, -⟩ := recovered_point hx hxN hs _ q hq
    rw [he, assemble, UnmarshalPubkey_bytes hqx hqy hon, assembleKey, bundleOf]

theorem GenerateOTS_some {σ : Type} (env : Platform σ) (st : σ) (seed msg : List UInt8) :
    GenerateOTS env st (some seed) msg = (deriveOTS env.Sum256 seed msg, st) := rfl

/-- A run of `GenerateOTS` is a run of lines 41-105 on the seed in use. -/
theorem GenerateOTS_ok {σ : Type} {env : Platform σ} {st st' : σ}
    {sigSeed : Option (List UInt8)} {msg : List UInt8} {b : OTS}
    (h : GenerateOTS env st sigSeed msg = (.ok b, st')) :
    ∃ seed, seedUsed env st sigSeed = some seed ∧ deriveOTS env.Sum256 seed msg = .ok b := by
  cases sigSeed with
  | some seed => exact ⟨seed, rfl, (Prod.mk.inj h).1⟩
  | none =>
    unfold GenerateOTS at h
    unfold seedUsed
    rcases hr : env.randRead st with ⟨res, st1⟩
    rw [hr] at h
    cases res with
    | error e => exact absurd (Prod.mk.inj h).1 (by simp)
    | ok seed => exact ⟨seed, rfl, (Prod.mk.inj h).1⟩

/-- The bundle of a successful run verifies. -/
theorem bundleOf_verify {H : List UInt8 → List UInt8} {seed msg : List UInt8}
    (hx : (pointR H seed).X ≠ 0) (hs : scalarS H seed ≠ 0) (h32 : msg.length = 32)
    (hxN : (pointR H seed).X < N) (q : Nat × Nat)
    (hq : crypto.sigRecover (pointR H seed).X (canonS H seed) (beToNat msg % N)
      (recoveryV H seed).toNat = some q) :
    (bundleOf H seed msg q).Verify = some true ∧
      ECDSAEquation (affPoint q.1 q.2) (beToNat msg % N) (bundleOf H seed msg q).r
        (bundleOf H seed msg q).s := by
  obtain ⟨hon, hqx, hqy, hver⟩ := recovered_point hx hxN hs _ q hq
  have hr : (bundleOf H seed msg q).r = (pointR H seed).X := by
    show beToNat ((signatureOf H seed).take 32) = _
    rw [take32_signatureOf, beToNat_Bytes (pointR_x_lt H seed)]
  have hsv : (bundleOf H seed msg q).s = canonS H seed := by
    show beToNat (((signatureOf H seed).drop 32).take 32) = _
    rw [mid32_signatureOf, beToNat_Bytes (lt_trans (canonS_lt H seed) N_lt_P)]
  constructor
  · rw [Verify_valid (bundleOf H seed msg q) ⟨q.1, q.2⟩ rfl hqx hqy hon h32
      (length_signatureOf H seed), hr, hsv]
    have hc : (pointR H seed).X < N ∧ canonS H seed < N ∧ canonS H seed ≤ N / 2 :=
      ⟨hxN, canonS_lt H seed, canonS_le_half H seed⟩
    show some (decide _ && crypto.sigVerify _ _ (beToNat msg % N) (q.1, q.2)) = some true
    rw [decide_eq_true hc, hver]
    rfl
  · rw [hr, hsv]
    exact (sigVerify_iff hon _ _ _ hxN (canonS_lt H seed)).mp hver

/-! ## The recovered key in closed form -/

theorem baseMul_eq_zero_iff (a : ZMod N) : baseMul a = 0 ↔ a = 0 := by
  have h := smul_G₀_eq_zero_iff a.val
  rw [← baseMul_natCast, ZMod.natCast_zmod_val] at h
  exact h

theorem cast_canonS (H : List UInt8 → List UInt8) (seed : List UInt8) :
    (canonS H seed : ZMod N) =
      if ModNScalar.IsOverHalfOrder (scalarS H seed) = true then -(scalarS H seed : ZMod N)
      else (scalarS H seed : ZMod N) := by
  unfold canonS
  split_ifs
  · unfold ModNScalar.Negate
    rw [ZMod.natCast_mod, cast_scalarNeg]
  · rfl

theorem recoveryV_parity (H : List UInt8 → List UInt8) (seed : List UInt8) :
    decide ((recoveryV H seed).toNat % 2 = 1) =
      if ModNScalar.IsOverHalfOrder (scalarS H seed) = true then
        !decide ((pointR H seed).Y % 2 = 1)
      else decide ((pointR H seed).Y % 2 = 1) := by
  unfold recoveryV
  by_cases hover : ModNScalar.IsOverHalfOrder (scalarS H seed) = true
  · rw [if_pos hover, if_pos hover]
    by_cases hodd : (pointR H seed).Y % 2 = 1
    · rw [if_pos hodd, decide_eq_true hodd]
      decide
    · rw [if_neg hodd, decide_eq_false hodd]
      decide
  · rw [if_neg hover, if_neg hover]
    by_cases hodd : (pointR H seed).Y % 2 = 1
    · rw [if_pos hodd, decide_eq_true hodd]
      decide
    · rw [if_neg hodd, decide_eq_false hodd]
      decide

/-- Canonicalisation does not change the product: the canonical scalar times the scalar of
the point selected by the recovery byte is `s0 * k`. -/
theorem canon_product (H : List UInt8 → List UInt8) (seed : List UInt8) :
    (canonS H seed : ZMod N) *
      (if decide ((pointR H seed).Y % 2 = 1) = decide ((recoveryV H seed).toNat % 2 = 1)
        then (nonceK H seed : ZMod N) else -(nonceK H seed : ZMod N))
      = (scalarS H seed : ZMod N) * (nonceK H seed : ZMod N) := by
  rw [cast_canonS, recoveryV_parity]
  by_cases hover : ModNScalar.IsOverHalfOrder (scalarS H seed) = true
  · rw [if_pos hover, if_pos hover]
    have hne : ¬ (decide ((pointR H seed).Y % 2 = 1) = !decide ((pointR H seed).Y % 2 = 1)) := by
      cases decide ((pointR H seed).Y % 2 = 1) <;> simp
    rw [if_neg hne]
    ring
  · rw [if_neg hover, if_neg hover, if_pos rfl]

/-- The recovery step in closed form: it fails exactly when `z = s0 * k` modulo `N`, and
otherwise returns the point `r⁻¹ (s0 k - z) G`. -/
theorem recover_closed_form {H : List UInt8 → List UInt8} {seed : List UInt8}
    (hx0 : (pointR H seed).X ≠ 0) (hxN : (pointR H seed).X < N) (hs0 : scalarS H seed ≠ 0)
    (z : Nat) :
    (crypto.sigRecover (pointR H seed).X (canonS H seed) z (recoveryV H seed).toNat = none ∧
      (z : ZMod N) = (scalarS H seed : ZMod N) * (nonceK H seed : ZMod N)) ∨
    (∃ q, crypto.sigRecover (pointR H seed).X (canonS H seed) z (recoveryV H seed).toNat
        = some q ∧
      (z : ZMod N) ≠ (scalarS H seed : ZMod N) * (nonceK H seed : ZMod N) ∧
      affPoint q.1 q.2 = baseMul ((((pointR H seed).X : ZMod N))⁻¹ *
        ((scalarS H seed : ZMod N) * (nonceK H seed : ZMod N) - (z : ZMod N)))) := by
  have hz := z_ne_zero_of_x_ne_zero hx0
  obtain ⟨hon, -⟩ := toAffine_spec (jvalid_scalarBaseMult (nonceK H seed)) hz
  obtain ⟨hTon, hTlt, hTpt⟩ := lifted_point hz (decide ((recoveryV H seed).toNat % 2 = 1))
  have hrec := sigRecover_eq hon (toAffine_y_lt _) hx0 (canonS_ne_zero hs0) z
    (recoveryV H seed).toNat (recoveryV_lt H seed)
  have hr : ((pointR H seed).X : ZMod N) ≠ 0 := cast_ne_zero_of_lt hx0 hxN
  have hprod := canon_product H seed
  have hcomb : ((N - powMod (pointR H seed).X (N - 2) N * z % N) % N) • G₀
      + (powMod (pointR H seed).X (N - 2) N * canonS H seed % N)
        • baseMul (if decide ((pointR H seed).Y % 2 = 1)
            = decide ((recoveryV H seed).toNat % 2 = 1)
          then (nonceK H seed : ZMod N) else -(nonceK H seed : ZMod N))
      = baseMul ((((pointR H seed).X : ZMod N))⁻¹ *
        ((scalarS H seed : ZMod N) * (nonceK H seed : ZMod N) - (z : ZMod N))) := by
    simp only [← baseMul_natCast, nsmul_baseMul, ← map_add]
    refine congrArg baseMul ?_
    simp only [ZMod.natCast_mod, cast_scalarNeg, Nat.cast_mul, cast_scalarInv]
    rw [mul_assoc, hprod]
    ring
  have hzero : baseMul ((((pointR H seed).X : ZMod N))⁻¹ *
        ((scalarS H seed : ZMod N) * (nonceK H seed : ZMod N) - (z : ZMod N))) = 0
      ↔ (z : ZMod N) = (scalarS H seed : ZMod N) * (nonceK H seed : ZMod N) := by
    rw [baseMul_eq_zero_iff, mul_eq_zero, sub_eq_zero]
    constructor
    · rintro (h | h)
      · exact absurd (inv_eq_zero.mp h) hr
      · exact h.symm
    · exact fun h => Or.inr h.symm
  unfold pointR at hrec hcomb hzero ⊢
  rw [hrec]
  rcases ecmult_spec hTon
      ((N - powMod (ScalarBaseMultNonConst (nonceK H seed)).ToAffine.X (N - 2) N * z % N) % N)
      (powMod (ScalarBaseMultNonConst (nonceK H seed)).ToAffine.X (N - 2) N * canonS H seed % N)
    with ⟨hnone, hpt⟩ | ⟨x, y, hsome, hQon, hqx, hqy, hpt⟩
  · left
    rw [hTpt, hcomb] at hpt
    exact ⟨hnone, hzero.mp hpt⟩
  · right
    rw [hTpt, hcomb] at hpt
    refine ⟨(x, y), hsome, ?_, hpt⟩
    intro hcon
    have := hzero.mpr hcon
    rw [← hpt] at this
    exact affPoint_ne_zero hQon this

/-! ## Concrete runs -/

set_option maxRecDepth 100000 in
theorem run_zero : deriveOTS sha256.Sum256 zeroSeed zeroMsg = .ok zeroBundle := by decide!

theorem generate_zero :
    GenerateOTS stdPlatform [] (some zeroSeed) zeroMsg = (.ok zeroBundle, []) := by
  rw [GenerateOTS_some]
  exact congrArg (fun r => (r, ([] : List (List UInt8)))) run_zero

set_option maxRecDepth 100000 in
theorem zero_seed_facts :
    nonceK stdPlatform.Sum256 zeroSeed ≠ 0 ∧ (pointR stdPlatform.Sum256 zeroSeed).X ≠ 0 ∧
      scalarS stdPlatform.Sum256 zeroSeed ≠ 0 ∧ (pointR stdPlatform.Sum256 zeroSeed).X < N ∧
      zeroMsg.length = 32 ∧
      beToNat zeroMsg % N ≠ scalarS stdPlatform.Sum256 zeroSeed * nonceK stdPlatform.Sum256 zeroSeed % N :=
  by decide!

set_option maxRecDepth 100000 in
theorem zeroBundle_facts :
    zeroBundle.r = 0x1217c122b5ad48170b20f34c012c4e0ba85b6085db7e22a529849954d8866ebd ∧
      zeroBundle.s = 0x6a82abb01aaf20a2bbd869d7e36cd3b69d0f41cf7cb06a0b11169a18bd4e53f5 ∧
      highSBundle.r = 0x1217c122b5ad48170b20f34c012c4e0ba85b6085db7e22a529849954d8866ebd ∧
      highSBundle.s = 0x957d544fe550df5d442796281c932c481d9f9b1732983630aebbc47412e7ed4c ∧
      zeroBundle.Signature.length = 65 ∧ zeroBundle.Message.length = 32 := by decide!

/-! ## The properties of the specification -/

theorem ECDSAEquation_mod (Q : curve.toAffine.Point) (z r s : Nat) :
    ECDSAEquation Q (z % N) r s ↔ ECDSAEquation Q z r s := by
  unfold ECDSAEquation
  rw [ZMod.natCast_mod]

theorem bundleOf_r (H : List UInt8 → List UInt8) (seed msg : List UInt8) (q : Nat × Nat) :
    (bundleOf H seed msg q).r = (pointR H seed).X := by
  show beToNat ((signatureOf H seed).take 32) = _
  rw [take32_signatureOf, beToNat_Bytes (pointR_x_lt H seed)]

theorem bundleOf_s (H : List UInt8 → List UInt8) (seed msg : List UInt8) (q : Nat × Nat) :
    (bundleOf H seed msg q).s = canonS H seed := by
  show beToNat (((signatureOf H seed).drop 32).take 32) = _
  rw [mid32_signatureOf, beToNat_Bytes (lt_trans (canonS_lt H seed) N_lt_P)]

/-- C1: whenever `GenerateOTS` returns a bundle, for a supplied or a drawn seed, `Verify`
on that bundle returns true, and the scalars `(r, s)` of the bundle satisfy the ECDSA
verification equation for its `Message` under its `PublicKey`. -/
theorem generate_then_verify {σ : Type} (env : Platform σ) (st st' : σ)
    (sigSeed : Option (List UInt8)) (msg : List UInt8) (b : OTS)
    (h : GenerateOTS env st sigSeed msg = (.ok b, st')) :
    b.Verify = some true ∧
      ∃ pk, b.PublicKey = some pk ∧
        ECDSAEquation (affPoint pk.X pk.Y) (beToNat b.Message) b.r b.s := by
  obtain ⟨seed, -, hd⟩ := GenerateOTS_ok h
  obtain ⟨-, hx, hs, h32, hxN, q, hq, -, -, hb⟩ := deriveOTS_ok hd
  obtain ⟨hv, heq⟩ := bundleOf_verify hx hs h32 hxN q hq
  subst hb
  exact ⟨hv, ⟨q.1, q.2⟩, rfl, (ECDSAEquation_mod _ _ _ _).mp heq⟩

theorem generate_then_verify_witness :
    GenerateOTS stdPlatform [] (some zeroSeed) zeroMsg = (.ok zeroBundle, []) ∧
      (zeroBundle.Verify = some true ∧
        ∃ pk, zeroBundle.PublicKey = some pk ∧
          ECDSAEquation (affPoint pk.X pk.Y) (beToNat zeroBundle.Message) zeroBundle.r
            zeroBundle.s) :=
  ⟨generate_zero, generate_then_verify stdPlatform [] [] (some zeroSeed) zeroMsg zeroBundle
    generate_zero⟩

/-- C2: in every bundle returned by `GenerateOTS`, `Message` is the message given,
`PublicKey` is the key that `Ecrecover` returns for `(Message, Signature)`, decoded by
`UnmarshalPubkey`, and `Address` is the address derived from that key: the last 20 bytes
of the Keccak-256 digest of the 64 coordinate bytes `Ecrecover` returns. -/
theorem generate_recovers_key {σ : Type} (env : Platform σ) (st st' : σ)
    (sigSeed : Option (List UInt8)) (msg : List UInt8) (b : OTS)
    (h : GenerateOTS env st sigSeed msg = (.ok b, st')) :
    b.Message = msg ∧
      ∃ pkb pk, crypto.Ecrecover b.Message b.Signature = .ok pkb ∧
        crypto.UnmarshalPubkey pkb = .ok pk ∧ b.PublicKey = some pk ∧
        b.Address = crypto.PubkeyToAddress pk ∧
        b.Address = (keccak.Keccak256 (pkb.drop 1)).drop 12 := by
  obtain ⟨seed, -, hd⟩ := GenerateOTS_ok h
  obtain ⟨-, -, -, -, -, q, -, he, hu, hb⟩ := deriveOTS_ok hd
  subst hb
  exact ⟨rfl, _, _, he, hu, rfl, rfl, rfl⟩

theorem generate_recovers_key_witness :
    GenerateOTS stdPlatform [] (some zeroSeed) zeroMsg = (.ok zeroBundle, []) ∧
      (zeroBundle.Message = zeroMsg ∧
        ∃ pkb pk, crypto.Ecrecover zeroBundle.Message zeroBundle.Signature = .ok pkb ∧
          crypto.UnmarshalPubkey pkb = .ok pk ∧ zeroBundle.PublicKey = some pk ∧
          zeroBundle.Address = crypto.PubkeyToAddress pk ∧
          zeroBundle.Address = (keccak.Keccak256 (pkb.drop 1)).drop 12) :=
  ⟨generate_zero, generate_recovers_key stdPlatform [] [] (some zeroSeed) zeroMsg zeroBundle
    generate_zero⟩

set_option maxRecDepth 100000 in
/-- C3, as stated, fails: the zero seed is non-degenerate (`k`, `R.x` and `s` are all
non-zero), the message `collidingMsg` has 32 bytes, and `GenerateOTS` returns the error of
the recovery step. -/
theorem nondegenerate_seed_recovery_fails :
    nonceK sha256.Sum256 zeroSeed ≠ 0 ∧ (pointR sha256.Sum256 zeroSeed).X ≠ 0 ∧
      scalarS sha256.Sum256 zeroSeed ≠ 0 ∧ collidingMsg.length = 32 ∧
      GenerateOTS stdPlatform [] (some zeroSeed) collidingMsg = (.error .recoverFailed, []) := by
  decide!

/-- C3, amended: for a seed whose `k`, `R.x` and `s` are non-zero and whose `R.x` is below
the group order, and for a 32-byte message whose integer is not `s * k` modulo `N`,
`GenerateOTS` succeeds and `Verify` on the result returns true. -/
theorem generate_succeeds {σ : Type} (env : Platform σ) (st : σ) (seed msg : List UInt8)
    (hk : nonceK env.Sum256 seed ≠ 0) (hx : (pointR env.Sum256 seed).X ≠ 0)
    (hs : scalarS env.Sum256 seed ≠ 0) (hxN : (pointR env.Sum256 seed).X < N)
    (h32 : msg.length = 32)
    (hz : beToNat msg % N ≠ scalarS env.Sum256 seed * nonceK env.Sum256 seed % N) :
    ∃ b, GenerateOTS env st (some seed) msg = (.ok b, st) ∧ b.Verify = some true := by
  rcases recover_closed_form hx hxN hs (beToNat msg % N) with ⟨-, hcon⟩ | ⟨q, hq, -, -⟩
  · exfalso
    apply hz
    rw [ZMod.natCast_mod, ← Nat.cast_mul] at hcon
    have := (ZMod.natCast_eq_natCast_iff' _ _ _).mp hcon
    exact this
  · refine ⟨bundleOf env.Sum256 seed msg q, ?_, (bundleOf_verify hx hs h32 hxN q hq).1⟩
    rw [GenerateOTS_some, deriveOTS_of_recover hk hx hs h32 hxN q hq]

theorem generate_succeeds_witness :
    (nonceK stdPlatform.Sum256 zeroSeed ≠ 0 ∧ (pointR stdPlatform.Sum256 zeroSeed).X ≠ 0 ∧
      scalarS stdPlatform.Sum256 zeroSeed ≠ 0 ∧ (pointR stdPlatform.Sum256 zeroSeed).X < N ∧
      zeroMsg.length = 32 ∧
      beToNat zeroMsg % N
        ≠ scalarS stdPlatform.Sum256 zeroSeed * nonceK stdPlatform.Sum256 zeroSeed % N) ∧
    ∃ b, GenerateOTS stdPlatform [] (some zeroSeed) zeroMsg = (.ok b, []) ∧
      b.Verify = some true :=
  ⟨zero_seed_facts, generate_succeeds stdPlatform [] zeroSeed zeroMsg zero_seed_facts.1
    zero_seed_facts.2.1 zero_seed_facts.2.2.1 zero_seed_facts.2.2.2.1
    zero_seed_facts.2.2.2.2.1 zero_seed_facts.2.2.2.2.2⟩

/-- C4: with a supplied seed, `GenerateOTS` is a function of the seed and the message
alone: the result is the one of lines 41-105 whatever the random source and its state,
and the state of the random source is returned unchanged (the source is not read). -/
theorem generate_seeded_pure {σ τ : Type} (Sum256 : List UInt8 → List UInt8)
    (rd : σ → Except Error (List UInt8) × σ) (rd' : τ → Except Error (List UInt8) × τ)
    (st : σ) (st' : τ) (seed msg : List UInt8) :
    (GenerateOTS ⟨Sum256, rd⟩ st (some seed) msg).1
        = (GenerateOTS ⟨Sum256, rd'⟩ st' (some seed) msg).1 ∧
      (GenerateOTS ⟨Sum256, rd⟩ st (some seed) msg).1 = deriveOTS Sum256 seed msg ∧
      (GenerateOTS ⟨Sum256, rd⟩ st (some seed) msg).2 = st :=
  ⟨rfl, rfl, rfl⟩

/-- C5: in every bundle returned by `GenerateOTS`, the scalar `s` encoded big-endian in
`Signature[32:64]` is at most `N / 2`. -/
theorem generate_low_s {σ : Type} (env : Platform σ) (st st' : σ)
    (sigSeed : Option (List UInt8)) (msg : List UInt8) (b : OTS)
    (h : GenerateOTS env st sigSeed msg = (.ok b, st')) : b.s ≤ N / 2 := by
  obtain ⟨seed, -, hd⟩ := GenerateOTS_ok h
  obtain ⟨-, -, -, -, -, q, -, -, -, hb⟩ := deriveOTS_ok hd
  subst hb
  rw [bundleOf_s]
  exact canonS_le_half _ _

theorem generate_low_s_witness :
    GenerateOTS stdPlatform [] (some zeroSeed) zeroMsg = (.ok zeroBundle, []) ∧
      zeroBundle.s ≤ N / 2 :=
  ⟨generate_zero, generate_low_s stdPlatform [] [] (some zeroSeed) zeroMsg zeroBundle
    generate_zero⟩

theorem GenerateOTS_of_seedUsed {σ : Type} {env : Platform σ} {st : σ}
    {sigSeed : Option (List UInt8)} {seed : List UInt8} (msg : List UInt8)
    (hseed : seedUsed env st sigSeed = some seed) :
    ∃ st', GenerateOTS env st sigSeed msg = (deriveOTS env.Sum256 seed msg, st') := by
  cases sigSeed with
  | some seed' =>
    have : seed' = seed := Option.some.inj hseed
    subst this
    exact ⟨st, rfl⟩
  | none =>
    unfold seedUsed at hseed
    unfold GenerateOTS
    rcases hr : env.randRead st with ⟨res, st1⟩
    rw [hr] at hseed
    cases res with
    | error e => exact absurd hseed (by simp)
    | ok seed' =>
      have : seed' = seed := Option.some.inj hseed
      subst this
      exact ⟨st1, rfl⟩

/-- C6: in every bundle returned by `GenerateOTS` working with the seed `seed`,
`Signature[0:32]` is the 32-byte big-endian encoding of the abscissa computed for `k * G`,
where `k` is the digest of `"k" || seed` reduced modulo `N`; that abscissa is the
canonical representative of the `x`-coordinate of the group element `k * G`, a field
element, not reduced modulo `N`. -/
theorem generate_r_exact {σ : Type} (env : Platform σ) (st st' : σ)
    (sigSeed : Option (List UInt8)) (msg : List UInt8) (b : OTS) (seed : List UInt8)
    (hseed : seedUsed env st sigSeed = some seed)
    (h : GenerateOTS env st sigSeed msg = (.ok b, st')) :
    b.Signature.take 32 = natToBE 32
        (ScalarBaseMultNonConst (beToNat ((env.Sum256 (0x6b :: seed)).take 32) % N)).ToAffine.X ∧
      ∃ (x y : ZMod P) (hns : curve.toAffine.Nonsingular x y),
        (beToNat ((env.Sum256 (0x6b :: seed)).take 32) % N) • G₀ = Affine.Point.some hns ∧
          b.r = x.val := by
  obtain ⟨seed', hseed', hd⟩ := GenerateOTS_ok h
  rw [hseed] at hseed'
  have hss : seed = seed' := Option.some.inj hseed'
  subst hss
  obtain ⟨-, hx, -, -, -, q, -, -, -, hb⟩ := deriveOTS_ok hd
  subst hb
  obtain ⟨hon, hpt⟩ := toAffine_spec (jvalid_scalarBaseMult (nonceK env.Sum256 seed))
    (z_ne_zero_of_x_ne_zero hx)
  refine ⟨take32_signatureOf _ _, _, _, nonsingular_of_isOnCurve hon, ?_, ?_⟩
  · rw [← affPoint_eq hon, hpt, toPoint_scalarBaseMult]
    rfl
  · rw [bundleOf_r, ZMod.val_natCast, Nat.mod_eq_of_lt (toAffine_x_lt _)]
    rfl

theorem generate_r_exact_witness :
    (seedUsed stdPlatform [] (some zeroSeed) = some zeroSeed ∧
      GenerateOTS stdPlatform [] (some zeroSeed) zeroMsg = (.ok zeroBundle, [])) ∧
    (zeroBundle.Signature.take 32 = natToBE 32
        (ScalarBaseMultNonConst
          (beToNat ((stdPlatform.Sum256 (0x6b :: zeroSeed)).take 32) % N)).ToAffine.X ∧
      ∃ (x y : ZMod P) (hns : curve.toAffine.Nonsingular x y),
        (beToNat ((stdPlatform.Sum256 (0x6b :: zeroSeed)).take 32) % N) • G₀
            = Affine.Point.some hns ∧
          zeroBundle.r = x.val) :=
  ⟨⟨rfl, generate_zero⟩, generate_r_exact stdPlatform [] [] (some zeroSeed) zeroMsg zeroBundle
    zeroSeed rfl generate_zero⟩

/-- C7: when the digest of `"k" || seed` or the digest of `"s" || seed` is zero modulo
`N`, `GenerateOTS` returns a degenerate-seed error and no bundle; and no returned bundle
has `r = 0` or `s = 0` in its signature. -/
theorem degenerate_seed_rejected {σ : Type} (env : Platform σ) (st : σ)
    (sigSeed : Option (List UInt8)) (msg : List UInt8) (seed : List UInt8)
    (hseed : seedUsed env st sigSeed = some seed) :
    ((nonceK env.Sum256 seed = 0 ∨ scalarS env.Sum256 seed = 0) →
      ∃ e st', GenerateOTS env st sigSeed msg = (.error e, st') ∧ e.isDegenerateSeed = true) ∧
    (∀ b st', GenerateOTS env st sigSeed msg = (.ok b, st') → b.r ≠ 0 ∧ b.s ≠ 0) := by
  constructor
  · intro hdeg
    obtain ⟨st', hg⟩ := GenerateOTS_of_seedUsed msg hseed
    rw [hg, deriveOTS_eq_assemble]
    by_cases hk : nonceK env.Sum256 seed = 0
    · rw [if_pos hk]
      exact ⟨.zeroK, st', rfl, rfl⟩
    · rw [if_neg hk]
      by_cases hx : (pointR env.Sum256 seed).X = 0
      · rw [if_pos hx]
        exact ⟨.zeroRx, st', rfl, rfl⟩
      · rw [if_neg hx]
        have hs : scalarS env.Sum256 seed = 0 := hdeg.resolve_left hk
        rw [if_pos hs]
        exact ⟨.zeroS, st', rfl, rfl⟩
  · intro b st' h
    obtain ⟨seed', -, hd⟩ := GenerateOTS_ok h
    obtain ⟨-, hx, hs, -, -, q, -, -, -, hb⟩ := deriveOTS_ok hd
    subst hb
    rw [bundleOf_r, bundleOf_s]
    exact ⟨hx, canonS_ne_zero hs⟩

theorem degenerate_seed_rejected_witness :
    (seedUsed zeroHashPlatform () (some zeroSeed) = some zeroSeed ∧
      (nonceK zeroHashPlatform.Sum256 zeroSeed = 0 ∨ scalarS zeroHashPlatform.Sum256 zeroSeed = 0) ∧
      ∃ e st', GenerateOTS zeroHashPlatform () (some zeroSeed) zeroMsg = (.error e, st') ∧
        e.isDegenerateSeed = true) ∧
    (GenerateOTS stdPlatform [] (some zeroSeed) zeroMsg = (.ok zeroBundle, []) ∧
      zeroBundle.r ≠ 0 ∧ zeroBundle.s ≠ 0) :=
  ⟨⟨rfl, Or.inl (by decide),
      (degenerate_seed_rejected zeroHashPlatform () (some zeroSeed) zeroMsg zeroSeed rfl).1
        (Or.inl (by decide))⟩,
    generate_zero,
    (degenerate_seed_rejected stdPlatform [] (some zeroSeed) zeroMsg zeroSeed rfl).2
      zeroBundle [] generate_zero⟩

set_option maxRecDepth 100000 in
/-- C9, as stated, fails: the scalars of `highSBundle` satisfy the ECDSA verification
equation for its message under its public key, and `Verify` returns false, because `s`
is above half the order. -/
theorem verify_rejects_high_s :
    highSBundle.Verify = some false ∧
      ∃ pk, highSBundle.PublicKey = some pk ∧
        ECDSAEquation (affPoint pk.X pk.Y) (beToNat highSBundle.Message) highSBundle.r
          highSBundle.s :=
  ⟨by decide!,
    ⟨79465199479269126992406758887066776451898299138778613069349923191989570644213,
      56072521107801573054288371464345303882463732114811324121176227397717193779400⟩, rfl,
    (sigVerify_iff (by decide!) highSBundle.r highSBundle.s (beToNat highSBundle.Message)
      (by decide!) (by decide!)).mp (by decide!)⟩

/-- C9, amended: for a bundle whose `PublicKey` is a point of the curve with coordinates
below `P`, whose `Message` has 32 bytes and whose `Signature` has 65 bytes, `Verify`
returns true if and only if the scalars `(r, s)` of the first 64 signature bytes satisfy
the ECDSA verification equation for `Message` under `PublicKey` and `s` is at most
`N / 2`. -/
theorem verify_iff_equation_and_low_s (b : OTS) (pk : PublicKey) (hpk : b.PublicKey = some pk)
    (hx : pk.X < P) (hy : pk.Y < P) (hon : isOnCurve pk.X pk.Y = true)
    (h32 : b.Message.length = 32) (h65 : b.Signature.length = 65) :
    b.Verify = some true ↔
      (ECDSAEquation (affPoint pk.X pk.Y) (beToNat b.Message) b.r b.s ∧ b.s ≤ N / 2) := by
  rw [Verify_valid b pk hpk hx hy hon h32 h65, Option.some.injEq, Bool.and_eq_true,
    decide_eq_true_eq, ← ECDSAEquation_mod]
  constructor
  · rintro ⟨⟨hr, hs, hh⟩, hv⟩
    exact ⟨(sigVerify_iff hon _ _ _ hr hs).mp hv, hh⟩
  · rintro ⟨he, hh⟩
    have hr : b.r < N := he.2.1
    have hs : b.s < N := he.2.2.2.1
    exact ⟨⟨hr, hs, hh⟩, (sigVerify_iff hon _ _ _ hr hs).mpr he⟩

set_option maxRecDepth 100000 in
theorem verify_iff_equation_and_low_s_witness :
    (zeroBundle.PublicKey = some
        ⟨79465199479269126992406758887066776451898299138778613069349923191989570644213,
          56072521107801573054288371464345303882463732114811324121176227397717193779400⟩ ∧
      zeroBundle.Message.length = 32 ∧ zeroBundle.Signature.length = 65) ∧
    (zeroBundle.Verify = some true ↔
      (ECDSAEquation
          (affPoint 79465199479269126992406758887066776451898299138778613069349923191989570644213
            56072521107801573054288371464345303882463732114811324121176227397717193779400)
          (beToNat zeroBundle.Message) zeroBundle.r zeroBundle.s ∧ zeroBundle.s ≤ N / 2)) :=
  ⟨⟨rfl, by decide!, by decide!⟩,
    verify_iff_equation_and_low_s zeroBundle
      ⟨79465199479269126992406758887066776451898299138778613069349923191989570644213,
        56072521107801573054288371464345303882463732114811324121176227397717193779400⟩ rfl
      (by decide!) (by decide!) (by decide!) (by decide!) (by decide!)⟩

/-- C10: `Verify` does not consult the recovery byte: two bundles with the same message,
the same public key and the same first 64 signature bytes get the same result. -/
theorem verify_ignores_recovery_byte (b b' : OTS) (hm : b.Message = b'.Message)
    (hk : b.PublicKey = b'.PublicKey) (hs : b.Signature.take 64 = b'.Signature.take 64) :
    b.Verify = b'.Verify := by
  unfold OTS.Verify
  rw [hm, hk, hs]

set_option maxRecDepth 100000 in
theorem verify_ignores_recovery_byte_witness :
    (zeroBundle.Message = flippedVBundle.Message ∧
      zeroBundle.PublicKey = flippedVBundle.PublicKey ∧
      zeroBundle.Signature.take 64 = flippedVBundle.Signature.take 64 ∧
      zeroBundle.Signature ≠ flippedVBundle.Signature) ∧
    zeroBundle.Verify = flippedVBundle.Verify :=
  ⟨⟨rfl, rfl, by decide!, by decide!⟩,
    verify_ignores_recovery_byte zeroBundle flippedVBundle rfl rfl (by decide!)⟩

/-! ## `Verify` on arbitrary bundles -/

theorem Verify_of_compress {b : OTS} {pub : List UInt8}
    (h : crypto.CompressPubkey b.PublicKey = some pub) :
    b.Verify = some (crypto.VerifySignature pub b.Message (b.Signature.take 64)) := by
  unfold OTS.Verify
  rw [h]

theorem sigVerify_zero {r s : Nat} (h : r = 0 ∨ s = 0) (z : Nat) (q : Nat × Nat) :
    crypto.sigVerify r s z q = false := by
  unfold crypto.sigVerify
  rw [if_pos h]

/-- `VerifySignature` under a compressed valid key returns false on malformed input. -/
theorem VerifySignature_malformed {x y : Nat} (hx : x < P) (hy : y < P)
    (hon : isOnCurve x y = true) (hash sig : List UInt8)
    (hbad : hash.length ≠ 32 ∨ sig.length ≠ 64 ∨ beToNat (sig.take 32) = 0
      ∨ beToNat (sig.drop 32) = 0 ∨ N ≤ beToNat (sig.take 32) ∨ N ≤ beToNat (sig.drop 32)
      ∨ N / 2 < beToNat (sig.drop 32)) :
    crypto.VerifySignature ((if y % 2 = 1 then (3 : UInt8) else 2) :: Bytes x) hash sig
      = false := by
  by_cases hlen : hash.length = 32 ∧ sig.length = 64
  · rw [VerifySignature_valid hx hy hon hash sig hlen.1 hlen.2]
    rcases hbad with h | h | h | h | h | h | h
    · exact absurd hlen.1 h
    · exact absurd hlen.2 h
    · rw [sigVerify_zero (Or.inl h), Bool.and_false]
    · rw [sigVerify_zero (Or.inr h), Bool.and_false]
    · rw [decide_eq_false (fun hc => absurd hc.1 (not_lt.mpr h)), Bool.false_and]
    · rw [decide_eq_false (fun hc => absurd hc.2.1 (not_lt.mpr h)), Bool.false_and]
    · rw [decide_eq_false (fun hc => absurd hc.2.2 (not_le.mpr h)), Bool.false_and]
  · have h1 : hash.length ≠ 32 ∨ sig.length ≠ 64
        ∨ ((if y % 2 = 1 then (3 : UInt8) else 2) :: Bytes x).length = 0 := by
      by_cases h32 : hash.length = 32
      · exact Or.inr (Or.inl (fun h64 => hlen ⟨h32, h64⟩))
      · exact Or.inl h32
    unfold crypto.VerifySignature
    rw [if_pos h1]

/-- On a bundle whose key is a point of the curve, `Verify` returns a boolean, and the
boolean is false when the message has not 32 bytes, the signature has fewer than 64
bytes, `r` or `s` is zero or not below `N`, or `s` is above `N / 2`. -/
theorem Verify_valid_key (b : OTS) (pk : PublicKey) (hpk : b.PublicKey = some pk)
    (hx : pk.X < P) (hy : pk.Y < P) (hon : isOnCurve pk.X pk.Y = true) :
    ∃ r, b.Verify = some r ∧
      ((b.Message.length ≠ 32 ∨ b.Signature.length < 64 ∨ b.r = 0 ∨ b.s = 0 ∨ N ≤ b.r
        ∨ N ≤ b.s ∨ N / 2 < b.s) → r = false) := by
  have hc : crypto.CompressPubkey b.PublicKey
      = some ((if pk.Y % 2 = 1 then (3 : UInt8) else 2) :: Bytes pk.X) := by
    rw [hpk]
    exact CompressPubkey_valid hx hy hon
  refine ⟨_, Verify_of_compress hc, ?_⟩
  intro hbad
  have hr : (b.Signature.take 64).take 32 = b.Signature.take 32 := by
    rw [List.take_take]
    rfl
  have hs : (b.Signature.take 64).drop 32 = (b.Signature.drop 32).take 32 := by
    rw [List.drop_take]
  have hl : b.Signature.length < 64 → (b.Signature.take 64).length ≠ 64 := by
    intro hlt
    rw [List.length_take]
    omega
  apply VerifySignature_malformed hx hy hon
  rw [hr, hs]
  rcases hbad with h | h | h
  · exact Or.inl h
  · exact Or.inr (Or.inl (hl h))
  · exact Or.inr (Or.inr h)

/-- C11: the code breaks the claim on `nilKeyBundle`, the bundle of the zero seed and the
zero message (65 signature bytes, 32 message bytes) with the `PublicKey` pointer nil:
`Verify` hands the pointer to `CompressPubkey` without a check, the call dereferences it
and does not return, and `Verify` yields no boolean, where the comment of line 108 and the
claim say `false`. -/
theorem verify_nil_key_no_boolean :
    nilKeyBundle.PublicKey = none ∧ nilKeyBundle.Signature = zeroBundle.Signature ∧
      nilKeyBundle.Message = zeroMsg ∧ nilKeyBundle.Signature.length = 65 ∧
      nilKeyBundle.Message.length = 32 ∧
      crypto.CompressPubkey nilKeyBundle.PublicKey = none ∧
      nilKeyBundle.Verify = none ∧ nilKeyBundle.Verify ≠ some false := by decide

/-- C12: without a supplied seed, `GenerateOTS` reads the random source once; when the
source delivers the bytes `seed`, the result is the result of `GenerateOTS` on the supplied
seed `seed` and the same message, and `seed` is the seed in use; when the source fails with
`e`, `GenerateOTS` returns the error `e` and no bundle. -/
theorem generate_draws_seed {σ : Type} (env : Platform σ) (st : σ) (msg : List UInt8) :
    (∀ seed st1, env.randRead st = (.ok seed, st1) →
      GenerateOTS env st none msg = ((GenerateOTS env st1 (some seed) msg).1, st1) ∧
        seedUsed env st none = some seed) ∧
    (∀ e st1, env.randRead st = (.error e, st1) →
      GenerateOTS env st none msg = (.error e, st1) ∧ seedUsed env st none = none) := by
  constructor
  · intro seed st1 h
    unfold GenerateOTS seedUsed
    rw [h]
    exact ⟨rfl, rfl⟩
  · intro e st1 h
    unfold GenerateOTS seedUsed
    rw [h]
    exact ⟨rfl, rfl⟩

theorem generate_draws_seed_witness :
    (stdPlatform.randRead [zeroSeed] = (.ok zeroSeed, []) ∧
      GenerateOTS stdPlatform [zeroSeed] none zeroMsg
          = ((GenerateOTS stdPlatform [] (some zeroSeed) zeroMsg).1, []) ∧
        seedUsed stdPlatform [zeroSeed] none = some zeroSeed) ∧
    (stdPlatform.randRead [] = (.error (.randRead 0), []) ∧
      GenerateOTS stdPlatform [] none zeroMsg = (.error (.randRead 0), []) ∧
        seedUsed stdPlatform [] none = none) :=
  ⟨⟨rfl, (generate_draws_seed stdPlatform [zeroSeed] zeroMsg).1 zeroSeed [] rfl⟩,
    ⟨rfl, (generate_draws_seed stdPlatform [] zeroMsg).2 (.randRead 0) [] rfl⟩⟩

/-! ## The two branches of the canonicalisation -/

theorem canonS_of_le {H : List UInt8 → List UInt8} {seed : List UInt8}
    (h : scalarS H seed ≤ N / 2) :
    canonS H seed = scalarS H seed ∧
      recoveryV H seed = if (pointR H seed).Y % 2 = 1 then 1 else 0 := by
  have hover : ModNScalar.IsOverHalfOrder (scalarS H seed) = false :=
    decide_eq_false (not_lt.mpr h)
  unfold canonS recoveryV
  rw [hover]
  exact ⟨if_neg Bool.false_ne_true, if_neg Bool.false_ne_true⟩

theorem canonS_of_gt {H : List UInt8 → List UInt8} {seed : List UInt8}
    (h : N / 2 < scalarS H seed) :
    canonS H seed = N - scalarS H seed ∧
      recoveryV H seed = (if (pointR H seed).Y % 2 = 1 then (1 : UInt8) else 0) ^^^ 1 := by
  have hover : ModNScalar.IsOverHalfOrder (scalarS H seed) = true := decide_eq_true h
  have hlt := scalarS_lt H seed
  unfold canonS recoveryV
  rw [hover, if_pos rfl, if_pos rfl]
  refine ⟨?_, rfl⟩
  unfold ModNScalar.Negate
  rw [Nat.mod_eq_of_lt hlt, Nat.mod_eq_of_lt (by omega)]

/-- C13: in every bundle returned by `GenerateOTS` working with the seed `seed`, with `s0`
the digest of `"s" || seed` reduced modulo `N` and `R` the affine form of `k * G`:
when `s0 ≤ N / 2`, `Signature[32:64]` encodes `s0` and `Signature[64]` is the parity of
`R.y`; when `s0 > N / 2`, `Signature[32:64]` encodes `N - s0` and `Signature[64]` is the
parity of `R.y` XOR `1`; in both cases `Signature[64]` is `0` or `1` and the signature has
65 bytes. -/
theorem canonicalisation_step {σ : Type} (env : Platform σ) (st st' : σ)
    (sigSeed : Option (List UInt8)) (msg : List UInt8) (b : OTS) (seed : List UInt8)
    (hseed : seedUsed env st sigSeed = some seed)
    (h : GenerateOTS env st sigSeed msg = (.ok b, st')) :
    scalarS env.Sum256 seed = beToNat ((env.Sum256 (0x73 :: seed)).take 32) % N ∧
    (scalarS env.Sum256 seed ≤ N / 2 →
      (b.Signature.drop 32).take 32 = natToBE 32 (scalarS env.Sum256 seed) ∧
        b.Signature.getD 64 0 = if (pointR env.Sum256 seed).Y % 2 = 1 then 1 else 0) ∧
    (N / 2 < scalarS env.Sum256 seed →
      (b.Signature.drop 32).take 32 = natToBE 32 (N - scalarS env.Sum256 seed) ∧
        b.Signature.getD 64 0
          = (if (pointR env.Sum256 seed).Y % 2 = 1 then (1 : UInt8) else 0) ^^^ 1) ∧
    (b.Signature.getD 64 0 = 0 ∨ b.Signature.getD 64 0 = 1) ∧
    b.Signature.length = 65 ∧
    ∃ (x y : ZMod P) (hns : curve.toAffine.Nonsingular x y),
      nonceK env.Sum256 seed • G₀ = Affine.Point.some hns ∧
        (pointR env.Sum256 seed).Y = y.val := by
  obtain ⟨seed', hseed', hd⟩ := GenerateOTS_ok h
  rw [hseed] at hseed'
  have hss : seed = seed' := Option.some.inj hseed'
  subst hss
  obtain ⟨-, hx, -, -, -, q, -, -, -, hb⟩ := deriveOTS_ok hd
  subst hb
  obtain ⟨hon, hpt⟩ := toAffine_spec (jvalid_scalarBaseMult (nonceK env.Sum256 seed))
    (z_ne_zero_of_x_ne_zero hx)
  have hmid : ((bundleOf env.Sum256 seed msg q).Signature.drop 32).take 32
      = natToBE 32 (canonS env.Sum256 seed) := mid32_signatureOf _ _
  have hv : (bundleOf env.Sum256 seed msg q).Signature.getD 64 0 = recoveryV env.Sum256 seed :=
    getD64_signatureOf _ _
  refine ⟨rfl, ?_, ?_, ?_, length_signatureOf _ _, _, _, nonsingular_of_isOnCurve hon, ?_, ?_⟩
  · intro hle
    rw [hmid, hv, (canonS_of_le hle).1, (canonS_of_le hle).2]
    exact ⟨rfl, rfl⟩
  · intro hgt
    rw [hmid, hv, (canonS_of_gt hgt).1, (canonS_of_gt hgt).2]
    exact ⟨rfl, rfl⟩
  · rw [hv]
    exact recoveryV_cases _ _
  · rw [← affPoint_eq hon, hpt, toPoint_scalarBaseMult]
  · rw [ZMod.val_natCast, Nat.mod_eq_of_lt (toAffine_y_lt _)]
    rfl

set_option maxRecDepth 100000 in
theorem zero_seed_over_half :
    N / 2 < scalarS stdPlatform.Sum256 zeroSeed ∧
      (pointR stdPlatform.Sum256 zeroSeed).Y % 2 = 1 := by decide!

theorem canonicalisation_step_witness :
    (seedUsed stdPlatform [] (some zeroSeed) = some zeroSeed ∧
      GenerateOTS stdPlatform [] (some zeroSeed) zeroMsg = (.ok zeroBundle, []) ∧
      N / 2 < scalarS stdPlatform.Sum256 zeroSeed) ∧
    (scalarS stdPlatform.Sum256 zeroSeed
        = beToNat ((stdPlatform.Sum256 (0x73 :: zeroSeed)).take 32) % N ∧
    (scalarS stdPlatform.Sum256 zeroSeed ≤ N / 2 →
      (zeroBundle.Signature.drop 32).take 32 = natToBE 32 (scalarS stdPlatform.Sum256 zeroSeed) ∧
        zeroBundle.Signature.getD 64 0
          = if (pointR stdPlatform.Sum256 zeroSeed).Y % 2 = 1 then 1 else 0) ∧
    (N / 2 < scalarS stdPlatform.Sum256 zeroSeed →
      (zeroBundle.Signature.drop 32).take 32
          = natToBE 32 (N - scalarS stdPlatform.Sum256 zeroSeed) ∧
        zeroBundle.Signature.getD 64 0
          = (if (pointR stdPlatform.Sum256 zeroSeed).Y % 2 = 1 then (1 : UInt8) else 0) ^^^ 1) ∧
    (zeroBundle.Signature.getD 64 0 = 0 ∨ zeroBundle.Signature.getD 64 0 = 1) ∧
    zeroBundle.Signature.length = 65 ∧
    ∃ (x y : ZMod P) (hns : curve.toAffine.Nonsingular x y),
      nonceK stdPlatform.Sum256 zeroSeed • G₀ = Affine.Point.some hns ∧
        (pointR stdPlatform.Sum256 zeroSeed).Y = y.val) :=
  ⟨⟨rfl, generate_zero, zero_seed_over_half.1⟩,
    canonicalisation_step stdPlatform [] [] (some zeroSeed) zeroMsg zeroBundle zeroSeed rfl
      generate_zero⟩

/-! ## Recovery from either form of the signature -/

/-- The recovery step on the abscissa of `k * G`, for any scalar `s` and recovery bit: it
fails when `r⁻¹ (± s k - z)` is zero and returns the point `r⁻¹ (± s k - z) G` otherwise,
the sign being `+` when the recovery bit is the parity of the ordinate. -/
theorem recover_general {k s : Nat} (hz : (ScalarBaseMultNonConst k).Z % P ≠ 0)
    (hr0 : (ScalarBaseMultNonConst k).ToAffine.X ≠ 0) (hs0 : s ≠ 0)
    (z recid : Nat) (hrec : recid < 2) :
    (crypto.sigRecover (ScalarBaseMultNonConst k).ToAffine.X s z recid = none ∧
      baseMul ((((ScalarBaseMultNonConst k).ToAffine.X : ZMod N))⁻¹ *
        ((s : ZMod N) * (if decide ((ScalarBaseMultNonConst k).ToAffine.Y % 2 = 1)
            = decide (recid % 2 = 1) then (k : ZMod N) else -(k : ZMod N)) - (z : ZMod N)))
        = 0) ∨
    (∃ q, crypto.sigRecover (ScalarBaseMultNonConst k).ToAffine.X s z recid = some q ∧
      isOnCurve q.1 q.2 = true ∧ q.1 < P ∧ q.2 < P ∧
      affPoint q.1 q.2 = baseMul ((((ScalarBaseMultNonConst k).ToAffine.X : ZMod N))⁻¹ *
        ((s : ZMod N) * (if decide ((ScalarBaseMultNonConst k).ToAffine.Y % 2 = 1)
            = decide (recid % 2 = 1) then (k : ZMod N) else -(k : ZMod N)) - (z : ZMod N)))) := by
  obtain ⟨hon, -⟩ := toAffine_spec (jvalid_scalarBaseMult k) hz
  obtain ⟨hTon, hTlt, hTpt⟩ := lifted_point hz (decide (recid % 2 = 1))
  have hrec := sigRecover_eq hon (toAffine_y_lt _) hr0 hs0 z recid hrec
  have hcomb : ((N - powMod (ScalarBaseMultNonConst k).ToAffine.X (N - 2) N * z % N) % N) • G₀
      + (powMod (ScalarBaseMultNonConst k).ToAffine.X (N - 2) N * s % N)
        • baseMul (if decide ((ScalarBaseMultNonConst k).ToAffine.Y % 2 = 1)
            = decide (recid % 2 = 1)
          then (k : ZMod N) else -(k : ZMod N))
      = baseMul ((((ScalarBaseMultNonConst k).ToAffine.X : ZMod N))⁻¹ *
        ((s : ZMod N) * (if decide ((ScalarBaseMultNonConst k).ToAffine.Y % 2 = 1)
            = decide (recid % 2 = 1) then (k : ZMod N) else -(k : ZMod N)) - (z : ZMod N))) := by
    simp only [← baseMul_natCast, nsmul_baseMul, ← map_add]
    refine congrArg baseMul ?_
    simp only [ZMod.natCast_mod, cast_scalarNeg, Nat.cast_mul, cast_scalarInv]
    ring
  rw [hrec]
  rcases ecmult_spec hTon
      ((N - powMod (ScalarBaseMultNonConst k).ToAffine.X (N - 2) N * z % N) % N)
      (powMod (ScalarBaseMultNonConst k).ToAffine.X (N - 2) N * s % N)
    with ⟨hnone, hpt⟩ | ⟨x, y, hsome, hQon, hqx, hqy, hpt⟩
  · left
    rw [hTpt, hcomb] at hpt
    exact ⟨hnone, hpt⟩
  · right
    rw [hTpt, hcomb] at hpt
    exact ⟨(x, y), hsome, hQon, hqx, hqy, hpt⟩

/-- Two recoveries on the same abscissa aiming at the same point have the same outcome. -/
theorem recover_congr {k s s' : Nat} (hz : (ScalarBaseMultNonConst k).Z % P ≠ 0)
    (hr0 : (ScalarBaseMultNonConst k).ToAffine.X ≠ 0) (hs0 : s ≠ 0) (hs0' : s' ≠ 0)
    (z recid recid' : Nat) (hrec : recid < 2) (hrec' : recid' < 2)
    (heq : (s : ZMod N) * (if decide ((ScalarBaseMultNonConst k).ToAffine.Y % 2 = 1)
          = decide (recid % 2 = 1) then (k : ZMod N) else -(k : ZMod N))
      = (s' : ZMod N) * (if decide ((ScalarBaseMultNonConst k).ToAffine.Y % 2 = 1)
          = decide (recid' % 2 = 1) then (k : ZMod N) else -(k : ZMod N))) :
    crypto.sigRecover (ScalarBaseMultNonConst k).ToAffine.X s z recid
      = crypto.sigRecover (ScalarBaseMultNonConst k).ToAffine.X s' z recid' := by
  rcases recover_general hz hr0 hs0 z recid hrec with ⟨h1, hp1⟩ | ⟨q, h1, hon, hx, hy, hp1⟩
  · rcases recover_general hz hr0 hs0' z recid' hrec' with ⟨h2, -⟩ | ⟨q', h2, hon', -, -, hp2⟩
    · rw [h1, h2]
    · rw [← heq, hp1] at hp2
      exact absurd hp2 (affPoint_ne_zero hon')
  · rcases recover_general hz hr0 hs0' z recid' hrec' with ⟨h2, hp2⟩ | ⟨q', h2, hon', hx', hy', hp2⟩
    · rw [heq, hp2] at hp1
      exact absurd hp1 (affPoint_ne_zero hon)
    · rw [← heq, ← hp1] at hp2
      have hqq := affPoint_inj hon' hon hx' hy' hx hy hp2
      rw [h1, h2]
      exact congrArg some (Prod.ext hqq.1.symm hqq.2.symm)

/-- `Ecrecover` on a signature `r || s || v` with scalars below `N` and `v` below `4`. -/
theorem Ecrecover_bytes {r s : Nat} (v : UInt8) (msg : List UInt8) (h32 : msg.length = 32)
    (hr : r < N) (hs : s < N) (hv : v.toNat < 4) :
    crypto.Ecrecover msg (Bytes r ++ Bytes s ++ [v]) =
      match crypto.sigRecover r s (beToNat msg % N) v.toNat with
      | none => .error .recoverFailed
      | some q => .ok (4 :: (Bytes q.1 ++ Bytes q.2)) := by
  have hlen : ¬ (Bytes r ++ Bytes s ++ [v]).length ≠ 65 := by simp [length_Bytes]
  have ht : (Bytes r ++ Bytes s ++ [v]).take 32 = Bytes r := by
    rw [List.append_assoc, List.take_left' (length_Bytes _)]
  have hm : ((Bytes r ++ Bytes s ++ [v]).drop 32).take 32 = Bytes s := by
    rw [List.append_assoc, List.drop_left' (length_Bytes _), List.take_left' (length_Bytes _)]
  have hg : (Bytes r ++ Bytes s ++ [v]).getD 64 0 = v := by
    rw [List.getD_eq_getElem?_getD, List.getElem?_append_right (by simp [length_Bytes])]
    simp [length_Bytes]
  have hv4 : ¬ 4 ≤ v.toNat := not_le.mpr hv
  have hrs : ¬ (N ≤ r ∨ N ≤ s) := by omega
  unfold crypto.Ecrecover
  simp only [ht, hm, hg, if_neg hlen, if_neg hv4, if_neg (not_not.mpr h32),
    beToNat_Bytes (lt_trans hr N_lt_P), beToNat_Bytes (lt_trans hs N_lt_P), if_neg hrs]

theorem parity_byte (c : Prop) [Decidable c] :
    (if c then (1 : UInt8) else 0).toNat < 2 ∧
      decide ((if c then (1 : UInt8) else 0).toNat % 2 = 1) = decide c := by
  by_cases h : c
  · rw [if_pos h, decide_eq_true h]
    exact ⟨by decide, by decide⟩
  · rw [if_neg h, decide_eq_false h]
    exact ⟨by decide, by decide⟩

/-- The raw and the canonical signature lead the recovery step to the same outcome. -/
theorem recover_raw_eq_canon {H : List UInt8 → List UInt8} {seed : List UInt8}
    (hx0 : (pointR H seed).X ≠ 0) (hs0 : scalarS H seed ≠ 0) (z : Nat) :
    crypto.sigRecover (pointR H seed).X (scalarS H seed) z
        (if (pointR H seed).Y % 2 = 1 then (1 : UInt8) else 0).toNat
      = crypto.sigRecover (pointR H seed).X (canonS H seed) z (recoveryV H seed).toNat := by
  have hz := z_ne_zero_of_x_ne_zero hx0
  have hpar := parity_byte ((pointR H seed).Y % 2 = 1)
  have hE : (scalarS H seed : ZMod N) *
        (if decide ((pointR H seed).Y % 2 = 1)
            = decide ((if (pointR H seed).Y % 2 = 1 then (1 : UInt8) else 0).toNat % 2 = 1)
          then (nonceK H seed : ZMod N) else -(nonceK H seed : ZMod N))
      = (canonS H seed : ZMod N) *
        (if decide ((pointR H seed).Y % 2 = 1) = decide ((recoveryV H seed).toNat % 2 = 1)
          then (nonceK H seed : ZMod N) else -(nonceK H seed : ZMod N)) := by
    rw [hpar.2, if_pos rfl]
    exact (canon_product H seed).symm
  exact recover_congr hz hx0 hs0 (canonS_ne_zero hs0) z _ _ hpar.1 (recoveryV_lt H seed) hE

theorem Ecrecover_raw {H : List UInt8 → List UInt8} {seed msg : List UInt8}
    (hx : (pointR H seed).X ≠ 0) (hs : scalarS H seed ≠ 0) (h32 : msg.length = 32)
    (hxN : (pointR H seed).X < N) (q : Nat × Nat)
    (hq : crypto.sigRecover (pointR H seed).X (canonS H seed) (beToNat msg % N)
      (recoveryV H seed).toNat = some q) :
    crypto.Ecrecover msg (rawSignatureOf H seed) = .ok (4 :: (Bytes q.1 ++ Bytes q.2)) := by
  have hpar := parity_byte ((pointR H seed).Y % 2 = 1)
  unfold rawSignatureOf
  rw [Ecrecover_bytes _ msg h32 hxN (scalarS_lt H seed) (lt_trans hpar.1 (by decide)),
    recover_raw_eq_canon hx hs, hq]

/-- The group element `r⁻¹ (s0 R - z G)` with `R = k G`, as a multiple of the base point. -/
theorem closed_form_eq (r s0 k z : Nat) :
    (((r : ZMod N))⁻¹).val • (s0 • (k • G₀) - z • G₀)
      = baseMul (((r : ZMod N))⁻¹ * ((s0 : ZMod N) * (k : ZMod N) - (z : ZMod N))) := by
  rw [← baseMul_natCast k, ← baseMul_natCast z, nsmul_baseMul, ← map_sub, nsmul_baseMul,
    ZMod.natCast_zmod_val]

/-- C14: in every bundle returned by `GenerateOTS` working with the seed `seed`, the
public key is the point `r⁻¹ (s0 R - z G)`, with `R = k G`, `r` the abscissa of `R`, `s0`
the second scalar before canonicalisation, `z` the message integer modulo `N` and `r⁻¹`
the inverse modulo `N`; `Ecrecover` returns this key on the signature without
canonicalisation `r || s0 || parity(R.y)` as well as on the signature of the bundle, which
is that one when `s0 ≤ N / 2` and `r || N - s0 || parity(R.y) XOR 1` when `s0 > N / 2`. -/
theorem recovered_key_closed_form {σ : Type} (env : Platform σ) (st st' : σ)
    (sigSeed : Option (List UInt8)) (msg : List UInt8) (b : OTS) (seed : List UInt8)
    (hseed : seedUsed env st sigSeed = some seed)
    (h : GenerateOTS env st sigSeed msg = (.ok b, st')) :
    ∃ pk, b.PublicKey = some pk ∧
      affPoint pk.X pk.Y =
        ((((pointR env.Sum256 seed).X : ZMod N))⁻¹).val •
          (scalarS env.Sum256 seed • (nonceK env.Sum256 seed • G₀)
            - (beToNat msg % N) • G₀) ∧
      crypto.Ecrecover msg (rawSignatureOf env.Sum256 seed) = .ok (crypto.FromECDSAPub pk) ∧
      crypto.Ecrecover msg b.Signature = .ok (crypto.FromECDSAPub pk) ∧
      (scalarS env.Sum256 seed ≤ N / 2 → b.Signature = rawSignatureOf env.Sum256 seed) ∧
      (N / 2 < scalarS env.Sum256 seed →
        b.Signature = Bytes (pointR env.Sum256 seed).X
          ++ Bytes (N - scalarS env.Sum256 seed)
          ++ [(if (pointR env.Sum256 seed).Y % 2 = 1 then (1 : UInt8) else 0) ^^^ 1]) := by
  obtain ⟨seed', hseed', hd⟩ := GenerateOTS_ok h
  rw [hseed] at hseed'
  have hss : seed = seed' := Option.some.inj hseed'
  subst hss
  obtain ⟨-, hx, hs, h32, hxN, q, hq, he, -, hb⟩ := deriveOTS_ok hd
  subst hb
  refine ⟨⟨q.1, q.2⟩, rfl, ?_, Ecrecover_raw hx hs h32 hxN q hq, he, ?_, ?_⟩
  · rw [closed_form_eq]
    rcases recover_closed_form hx hxN hs (beToNat msg % N) with ⟨hnone, -⟩ | ⟨q', hq', -, hpt⟩
    · rw [hnone] at hq
      exact absurd hq (by simp)
    · rw [hq] at hq'
      have hqq : q = q' := Option.some.inj hq'
      subst hqq
      exact hpt
  · intro hle
    show signatureOf env.Sum256 seed = rawSignatureOf env.Sum256 seed
    unfold signatureOf rawSignatureOf
    rw [(canonS_of_le hle).1, (canonS_of_le hle).2]
  · intro hgt
    show signatureOf env.Sum256 seed = _
    unfold signatureOf
    rw [(canonS_of_gt hgt).1, (canonS_of_gt hgt).2]

theorem recovered_key_closed_form_witness :
    (seedUsed stdPlatform [] (some zeroSeed) = some zeroSeed ∧
      GenerateOTS stdPlatform [] (some zeroSeed) zeroMsg = (.ok zeroBundle, [])) ∧
    ∃ pk, zeroBundle.PublicKey = some pk ∧
      affPoint pk.X pk.Y =
        ((((pointR stdPlatform.Sum256 zeroSeed).X : ZMod N))⁻¹).val •
          (scalarS stdPlatform.Sum256 zeroSeed • (nonceK stdPlatform.Sum256 zeroSeed • G₀)
            - (beToNat zeroMsg % N) • G₀) ∧
      crypto.Ecrecover zeroMsg (rawSignatureOf stdPlatform.Sum256 zeroSeed)
        = .ok (crypto.FromECDSAPub pk) ∧
      crypto.Ecrecover zeroMsg zeroBundle.Signature = .ok (crypto.FromECDSAPub pk) ∧
      (scalarS stdPlatform.Sum256 zeroSeed ≤ N / 2 →
        zeroBundle.Signature = rawSignatureOf stdPlatform.Sum256 zeroSeed) ∧
      (N / 2 < scalarS stdPlatform.Sum256 zeroSeed →
        zeroBundle.Signature = Bytes (pointR stdPlatform.Sum256 zeroSeed).X
          ++ Bytes (N - scalarS stdPlatform.Sum256 zeroSeed)
          ++ [(if (pointR stdPlatform.Sum256 zeroSeed).Y % 2 = 1 then (1 : UInt8) else 0)
            ^^^ 1]) :=
  ⟨⟨rfl, generate_zero⟩,
    recovered_key_closed_form stdPlatform [] [] (some zeroSeed) zeroMsg zeroBundle zeroSeed rfl
      generate_zero⟩

/-! ## A second run on the zero seed -/

set_option maxRecDepth 100000 in
theorem run_ones : deriveOTS sha256.Sum256 zeroSeed onesMsg = .ok onesBundle := by decide!

theorem generate_ones :
    GenerateOTS stdPlatform [] (some zeroSeed) onesMsg = (.ok onesBundle, []) := by
  rw [GenerateOTS_some]
  exact congrArg (fun r => (r, ([] : List (List UInt8)))) run_ones

/-- C15: the signature bytes are a function of the seed alone: two successful runs of
`GenerateOTS` working with the same seed, on any two messages, return bundles with the
same `Signature`, the 65 bytes `r || s || v` derived from the seed. -/
theorem signature_independent_of_message {σ : Type} (env : Platform σ) (st1 st2 st1' st2' : σ)
    (sigSeed1 sigSeed2 : Option (List UInt8)) (seed msg1 msg2 : List UInt8) (b1 b2 : OTS)
    (hs1 : seedUsed env st1 sigSeed1 = some seed) (hs2 : seedUsed env st2 sigSeed2 = some seed)
    (h1 : GenerateOTS env st1 sigSeed1 msg1 = (.ok b1, st1'))
    (h2 : GenerateOTS env st2 sigSeed2 msg2 = (.ok b2, st2')) :
    b1.Signature = b2.Signature ∧ b1.Signature = signatureOf env.Sum256 seed ∧
      b1.Signature.length = 65 := by
  obtain ⟨seed1, hu1, hd1⟩ := GenerateOTS_ok h1
  obtain ⟨seed2, hu2, hd2⟩ := GenerateOTS_ok h2
  rw [hs1] at hu1
  rw [hs2] at hu2
  have e1 : seed = seed1 := Option.some.inj hu1
  have e2 : seed = seed2 := Option.some.inj hu2
  subst e1
  subst e2
  obtain ⟨-, -, -, -, -, q1, -, -, -, hb1⟩ := deriveOTS_ok hd1
  obtain ⟨-, -, -, -, -, q2, -, -, -, hb2⟩ := deriveOTS_ok hd2
  subst hb1
  subst hb2
  exact ⟨rfl, rfl, length_signatureOf _ _⟩

theorem signature_independent_of_message_witness :
    (seedUsed stdPlatform [] (some zeroSeed) = some zeroSeed ∧
      seedUsed stdPlatform [zeroSeed] none = some zeroSeed ∧
      GenerateOTS stdPlatform [] (some zeroSeed) zeroMsg = (.ok zeroBundle, []) ∧
      GenerateOTS stdPlatform [zeroSeed] none onesMsg = (.ok onesBundle, []) ∧
      zeroBundle.Message ≠ onesBundle.Message ∧ zeroBundle.PublicKey ≠ onesBundle.PublicKey) ∧
    (zeroBundle.Signature = onesBundle.Signature ∧
      zeroBundle.Signature = signatureOf stdPlatform.Sum256 zeroSeed ∧
      zeroBundle.Signature.length = 65) :=
  ⟨⟨rfl, rfl, generate_zero, generate_ones, by decide, by decide⟩,
    signature_independent_of_message stdPlatform [] [zeroSeed] [] [] (some zeroSeed) none
      zeroSeed zeroMsg onesMsg zeroBundle onesBundle rfl rfl generate_zero generate_ones⟩

/-! ## No point of the curve has abscissa zero -/

set_option maxRecDepth 100000 in
theorem euler_seven : powMod 7 ((P - 1) / 2) P = P - 1 := by decide!

/-- Euler's criterion at `7`: it is not a square modulo `P`. -/
theorem seven_not_square (y : ZMod P) : y ^ 2 ≠ 7 := by
  intro h
  have hy : y ≠ 0 := by
    intro h0
    rw [h0, zero_pow two_ne_zero] at h
    exact seven_ne_zero_P h.symm
  have h1 : y ^ (P - 1) = 1 := ZMod.pow_card_sub_one_eq_one hy
  have hexp : 2 * ((P - 1) / 2) = P - 1 := by decide
  have h2 : (7 : ZMod P) ^ ((P - 1) / 2) = 1 := by
    rw [← h, ← pow_mul, hexp, h1]
  have h3 : (7 : ZMod P) ^ ((P - 1) / 2) = -1 := by
    have hc := powMod_cast 7 ((P - 1) / 2) P one_lt_P
    rw [euler_seven, Nat.cast_sub one_lt_P.le, ZMod.natCast_self, Nat.cast_one, zero_sub,
      Nat.cast_ofNat] at hc
    exact hc.symm
  rw [h2] at h3
  have h4 : (2 : ZMod P) = 0 := by linear_combination h3
  exact two_ne_zero_P h4

theorem abscissa_ne_zero {x y : ZMod P} (h : curve.toAffine.Nonsingular x y) : x ≠ 0 := by
  intro hx
  have he := (affine_nonsingular_iff x y).mp h
  rw [hx] at he
  exact seven_not_square y (by linear_combination he)

/-- The abscissa computed for `k * G` is non-zero when `k` is non-zero and below `N`. -/
theorem scalarBaseMult_x_ne_zero {k : Nat} (hk : k ≠ 0) (hkN : k < N) :
    (ScalarBaseMultNonConst k).Z % P ≠ 0 ∧
      (((ScalarBaseMultNonConst k).ToAffine.X : Nat) : ZMod P) ≠ 0 := by
  have hz : (ScalarBaseMultNonConst k).Z % P ≠ 0 := by
    rw [← toPoint_ne_zero_iff (jvalid_scalarBaseMult k), toPoint_scalarBaseMult, Ne,
      smul_G₀_eq_zero_iff]
    exact cast_ne_zero_of_lt hk hkN
  obtain ⟨hon, -⟩ := toAffine_spec (jvalid_scalarBaseMult k) hz
  exact ⟨hz, abscissa_ne_zero (nonsingular_of_isOnCurve hon)⟩

theorem assemble_ne_zeroRx (H : List UInt8 → List UInt8) (seed msg : List UInt8)
    (hx : (pointR H seed).X ≠ 0) (hs : scalarS H seed ≠ 0) :
    assemble (signatureOf H seed) msg (crypto.Ecrecover msg (signatureOf H seed))
      ≠ .error .zeroRx := by
  rcases Ecrecover_signatureOf H seed msg with ⟨-, he⟩ | ⟨-, -, he⟩ | ⟨-, -, -, he⟩
    | ⟨-, hxN, q, hq, he⟩
  · rw [he]
    simp [assemble]
  · rw [he]
    simp [assemble]
  · rw [he]
    simp [assemble]
  · obtain ⟨hon, hqx, hqy, -⟩ := recovered_point hx hxN hs _ q hq
    rw [he, assemble, UnmarshalPubkey_bytes hqx hqy hon, assembleKey]
    simp

/-- C16: for every seed in use whose nonce scalar `k` is non-zero, `k * G` is a finite
point of the curve and the abscissa computed for it is a non-zero field element (no point
of the curve has abscissa zero, as `7` is not a square modulo `P`), and `GenerateOTS` does
not return the error "seed results in zero R_x value". -/
theorem zero_rx_unreachable {σ : Type} (env : Platform σ) (st : σ)
    (sigSeed : Option (List UInt8)) (msg seed : List UInt8)
    (hseed : seedUsed env st sigSeed = some seed) :
    (nonceK env.Sum256 seed ≠ 0 →
      (∃ (x y : ZMod P) (hns : curve.toAffine.Nonsingular x y),
        nonceK env.Sum256 seed • G₀ = Affine.Point.some hns ∧
          x = ((pointR env.Sum256 seed).X : ZMod P) ∧ x ≠ 0) ∧
      (pointR env.Sum256 seed).X ≠ 0) ∧
    (∀ y : ZMod P, ¬ curve.toAffine.Nonsingular 0 y) ∧
    (GenerateOTS env st sigSeed msg).1 ≠ .error .zeroRx := by
  have hpt : nonceK env.Sum256 seed ≠ 0 →
      (∃ (x y : ZMod P) (hns : curve.toAffine.Nonsingular x y),
        nonceK env.Sum256 seed • G₀ = Affine.Point.some hns ∧
          x = ((pointR env.Sum256 seed).X : ZMod P) ∧ x ≠ 0) ∧
      (pointR env.Sum256 seed).X ≠ 0 := by
    intro hk
    obtain ⟨hz, hx⟩ := scalarBaseMult_x_ne_zero hk (nonceK_lt env.Sum256 seed)
    obtain ⟨hon, hp⟩ := toAffine_spec (jvalid_scalarBaseMult (nonceK env.Sum256 seed)) hz
    refine ⟨⟨_, _, nonsingular_of_isOnCurve hon, ?_, rfl, hx⟩, ?_⟩
    · rw [← affPoint_eq hon, hp, toPoint_scalarBaseMult]
    · intro h0
      apply hx
      have h0' : (ScalarBaseMultNonConst (nonceK env.Sum256 seed)).ToAffine.X = 0 := h0
      rw [h0', Nat.cast_zero]
  refine ⟨hpt, fun y h => abscissa_ne_zero h rfl, ?_⟩
  obtain ⟨st', hg⟩ := GenerateOTS_of_seedUsed msg hseed
  rw [hg, deriveOTS_eq_assemble]
  by_cases hk : nonceK env.Sum256 seed = 0
  · rw [if_pos hk]
    simp
  rw [if_neg hk, if_neg (hpt hk).2]
  by_cases hs : scalarS env.Sum256 seed = 0
  · rw [if_pos hs]
    simp
  rw [if_neg hs]
  exact assemble_ne_zeroRx env.Sum256 seed msg (hpt hk).2 hs

theorem zero_rx_unreachable_witness :
    (seedUsed stdPlatform [] (some zeroSeed) = some zeroSeed ∧
      nonceK stdPlatform.Sum256 zeroSeed ≠ 0) ∧
    ((nonceK stdPlatform.Sum256 zeroSeed ≠ 0 →
      (∃ (x y : ZMod P) (hns : curve.toAffine.Nonsingular x y),
        nonceK stdPlatform.Sum256 zeroSeed • G₀ = Affine.Point.some hns ∧
          x = ((pointR stdPlatform.Sum256 zeroSeed).X : ZMod P) ∧ x ≠ 0) ∧
      (pointR stdPlatform.Sum256 zeroSeed).X ≠ 0) ∧
    (∀ y : ZMod P, ¬ curve.toAffine.Nonsingular 0 y) ∧
    (GenerateOTS stdPlatform [] (some zeroSeed) zeroMsg).1 ≠ .error .zeroRx) :=
  ⟨⟨rfl, zero_seed_facts.1⟩,
    zero_rx_unreachable stdPlatform [] (some zeroSeed) zeroMsg zeroSeed rfl⟩

/-! ## The points annihilated by the order are the multiples of the base point -/

theorem pointCode_injective : Function.Injective pointCode := by
  intro p q hpq
  cases p with
  | zero =>
    cases q with
    | zero => rfl
    | some hq => exact absurd hpq (by simp [pointCode])
  | @some x y hp =>
    cases q with
    | zero => exact absurd hpq (by simp [pointCode])
    | @some x' y' hq =>
      simp only [pointCode, Option.some.injEq, Prod.mk.injEq] at hpq
      obtain ⟨hx, hd⟩ := hpq
      subst hx
      have e1 := (affine_nonsingular_iff x y).mp hp
      have e2 := (affine_nonsingular_iff x y').mp hq
      have hprod : (y - y') * (y + y') = 0 := by linear_combination e1 - e2
      have hy : y = y' := by
        rcases mul_eq_zero.mp hprod with h | h
        · exact sub_eq_zero.mp h
        · have hneg : y = -y' := eq_neg_of_add_eq_zero_left h
          by_cases h0 : y' = 0
          · rw [hneg, h0, neg_zero]
          · exfalso
            have hv : y.val = P - y'.val := by
              rw [hneg, ZMod.neg_val, if_neg h0]
            have hpos : 0 < y'.val := Nat.pos_of_ne_zero (fun h => h0 ((ZMod.val_eq_zero y').mp h))
            have hlt : y'.val < P := ZMod.val_lt y'
            have hodd := P_odd
            rw [hv] at hd
            by_cases hle : y'.val ≤ P / 2
            · rw [decide_eq_true hle, decide_eq_true_eq] at hd
              omega
            · rw [decide_eq_false hle, decide_eq_false_iff_not] at hd
              omega
      subst hy
      rfl

instance finitePoints : Finite curve.toAffine.Point := Finite.of_injective pointCode pointCode_injective

theorem card_points_le : Nat.card curve.toAffine.Point ≤ 2 * P + 1 := by
  have h := Nat.card_le_card_of_injective pointCode pointCode_injective
  have hc : Nat.card (Option (ZMod P × Bool)) = 2 * P + 1 := by
    rw [Nat.card_eq_fintype_card, Fintype.card_option, Fintype.card_prod, ZMod.card,
      Fintype.card_bool, mul_comm]
  rwa [hc] at h

/-- The multiples of a point annihilated by `N`, indexed by scalars modulo `N`. -/
noncomputable def torsionMul (T : curve.toAffine.Point) (hT : N • T = 0) :
    ZMod N →+ curve.toAffine.Point :=
  ZMod.lift N ⟨zmultiplesHom _ T, by
    show ((N : ℤ)) • T = 0
    rw [natCast_zsmul]
    exact hT⟩

theorem torsionMul_one (T : curve.toAffine.Point) (hT : N • T = 0) :
    torsionMul T hT 1 = T := by
  have h := ZMod.lift_coe N (A := curve.toAffine.Point) ⟨zmultiplesHom _ T, by
    show ((N : ℤ)) • T = 0
    rw [natCast_zsmul]
    exact hT⟩ (1 : ℤ)
  rw [Int.cast_one] at h
  show ZMod.lift N _ (1 : ZMod N) = _
  rw [h]
  show ((1 : ℤ)) • T = T
  exact one_zsmul T

/-- A point annihilated by `N` is a multiple of the base point: otherwise the curve would
have at least `N * N` points, more than two for each abscissa. -/
theorem exists_baseMul_eq (T : curve.toAffine.Point) (hT : N • T = 0) :
    ∃ a : ZMod N, baseMul a = T := by
  by_contra hne
  push_neg at hne
  have hinj : Function.Injective
      (fun ab : ZMod N × ZMod N => baseMul ab.1 + torsionMul T hT ab.2) := by
    rintro ⟨a, b⟩ ⟨a', b'⟩ hab
    have hab' : baseMul a + torsionMul T hT b = baseMul a' + torsionMul T hT b' := hab
    have hsub : baseMul (a - a') = torsionMul T hT (b' - b) := by
      rw [map_sub, map_sub, sub_eq_sub_iff_add_eq_add, hab', add_comm]
    have hb : b' - b = 0 := by
      by_contra hc
      apply hne ((((b' - b)⁻¹).val : ZMod N) * (a - a'))
      rw [← nsmul_baseMul, hsub, ← map_nsmul, nsmul_eq_mul, ZMod.natCast_zmod_val,
        inv_mul_cancel₀ hc, torsionMul_one]
    have ha : a - a' = 0 := by
      rw [hb, map_zero] at hsub
      exact (baseMul_eq_zero_iff _).mp hsub
    rw [sub_eq_zero.mp ha, (sub_eq_zero.mp hb).symm]
  have h1 := Nat.card_le_card_of_injective _ hinj
  rw [Nat.card_prod, Nat.card_zmod] at h1
  have h2 := card_points_le
  have h3 : ¬ N * N ≤ 2 * P + 1 := by decide
  exact h3 (le_trans h1 h2)

/-! ## A nonce whose point has the abscissa `N` -/

set_option maxRecDepth 100000 in
theorem point_N_facts :
    isOnCurve N yOfN = true ∧ yOfN < P ∧ (ScalarMultNonConst N ⟨N, yOfN, 1⟩).Z % P = 0 := by
  decide!

theorem N_smul_point_N : N • affPoint N yOfN = 0 := by
  unfold affPoint
  rw [← toPoint_scalarMult (jvalid_affine point_N_facts.1)]
  exact toPoint_of_z_eq_zero ((mod_eq_zero_iff_cast _).mp point_N_facts.2.2)

/-- Some non-zero scalar below `N` multiplies the base point into the point `(N, yOfN)`. -/
theorem exists_scalar_abscissa_N :
    ∃ k, k ≠ 0 ∧ k < N ∧ (ScalarBaseMultNonConst k).ToAffine = ⟨N, yOfN, 1⟩ := by
  obtain ⟨a, ha⟩ := exists_baseMul_eq _ N_smul_point_N
  have ha0 : a ≠ 0 := by
    intro h0
    rw [h0, map_zero] at ha
    exact affPoint_ne_zero point_N_facts.1 ha.symm
  have hk0 : a.val ≠ 0 := fun h => ha0 ((ZMod.val_eq_zero a).mp h)
  have hkN : a.val < N := ZMod.val_lt a
  refine ⟨a.val, hk0, hkN, ?_⟩
  have hz : (ScalarBaseMultNonConst a.val).Z % P ≠ 0 := by
    rw [← toPoint_ne_zero_iff (jvalid_scalarBaseMult a.val), toPoint_scalarBaseMult, Ne,
      smul_G₀_eq_zero_iff]
    exact cast_ne_zero_of_lt hk0 hkN
  obtain ⟨hon, hpt⟩ := toAffine_spec (jvalid_scalarBaseMult a.val) hz
  rw [toPoint_scalarBaseMult, ← baseMul_natCast, ZMod.natCast_zmod_val, ha] at hpt
  obtain ⟨hx, hy⟩ := affPoint_inj hon point_N_facts.1 (toAffine_x_lt _) (toAffine_y_lt _)
    N_lt_P point_N_facts.2.1 hpt
  have hshape : (ScalarBaseMultNonConst a.val).ToAffine
      = ⟨(ScalarBaseMultNonConst a.val).ToAffine.X, (ScalarBaseMultNonConst a.val).ToAffine.Y, 1⟩ :=
    rfl
  rw [hshape, hx, hy]

theorem fixedHash_scalars {k : Nat} (hk : k < N) (seed : List UInt8) :
    nonceK (fixedHashPlatform k).Sum256 seed = k ∧
      scalarS (fixedHashPlatform k).Sum256 seed = k := by
  have hlen : (natToBE 32 k).take 32 = natToBE 32 k :=
    List.take_of_length_le (le_of_eq (length_natToBE 32 k))
  have hval : beToNat ((natToBE 32 k).take 32) % N = k := by
    rw [hlen, beToNat_natToBE_of_lt (lt_trans hk N_lt), Nat.mod_eq_of_lt hk]
  exact ⟨hval, hval⟩

/-- With `R.x` a non-zero multiple of `N`, lines 53-105 end in an error that is not the
one of line 54: the one of line 64 when `s` is zero, and otherwise the one `Ecrecover`
returns, "recovery failed" on a 32-byte message. -/
theorem deriveOTS_rx_ge {H : List UInt8 → List UInt8} {seed : List UInt8} (msg : List UInt8)
    (hk : nonceK H seed ≠ 0) (hx0 : (pointR H seed).X ≠ 0) (hge : N ≤ (pointR H seed).X) :
    ∃ e, deriveOTS H seed msg = .error e ∧ e ≠ .zeroRx ∧ e ≠ .zeroK ∧
      (scalarS H seed = 0 → e = .zeroS) ∧
      (scalarS H seed ≠ 0 → msg.length = 32 → e = .recoverFailed) ∧
      (scalarS H seed ≠ 0 → msg.length ≠ 32 → e = .invalidMsgLen) := by
  rw [deriveOTS_eq_assemble, if_neg hk, if_neg hx0]
  by_cases hs : scalarS H seed = 0
  · rw [if_pos hs]
    exact ⟨.zeroS, rfl, by simp, by simp, fun _ => rfl, fun h => absurd hs h,
      fun h => absurd hs h⟩
  rw [if_neg hs]
  rcases Ecrecover_signatureOf H seed msg with ⟨hne, he⟩ | ⟨h32, -, he⟩
    | ⟨-, hlt, -, -⟩ | ⟨-, hlt, -⟩
  · rw [he]
    exact ⟨.invalidMsgLen, rfl, by simp, by simp, fun h => absurd h hs,
      fun _ h => absurd h hne, fun _ _ => rfl⟩
  · rw [he]
    exact ⟨.recoverFailed, rfl, by simp, by simp, fun h => absurd h hs, fun _ _ => rfl,
      fun _ h => absurd h32 h⟩
  · exact absurd hlt (not_lt.mpr hge)
  · exact absurd hlt (not_lt.mpr hge)

theorem scalarBaseMult_zero_x : (ScalarBaseMultNonConst 0).ToAffine.X = 0 :=
  toAffine_of_z_eq_zero (by decide)

theorem eq_N_of_mod_eq_zero {x : Nat} (h0 : x ≠ 0) (hlt : x < P) (hmod : x % N = 0) : x = N := by
  obtain ⟨c, hc⟩ := Nat.dvd_of_mod_eq_zero hmod
  have h2 := P_lt_two_N
  rcases c with _ | _ | c
  · rw [hc, Nat.mul_zero] at h0
    exact absurd rfl h0
  · rw [hc, Nat.mul_one]
  · exfalso
    have hle : N * 2 ≤ N * (c + 1 + 1) := Nat.mul_le_mul_left N (by omega)
    rw [← hc] at hle
    omega

/-- C8, as stated, fails: let the hash be instrumented to return a scalar `k` whose point
`k * G` has the abscissa `N` (such a scalar exists, as every point annihilated by `N`
is a multiple of the base point; it is a discrete logarithm and is not exhibited). Then
`R.x` is `N`, which is `0` modulo `N`, the check of line 53 passes, and `GenerateOTS` on
the zero seed and the zero message returns the error of the recovery step, which is not a
degenerate-seed error. -/
theorem rx_equal_order_not_degenerate :
    ∃ k, nonceK (fixedHashPlatform k).Sum256 zeroSeed = k ∧ k ≠ 0 ∧
      (pointR (fixedHashPlatform k).Sum256 zeroSeed).X = N ∧
      (pointR (fixedHashPlatform k).Sum256 zeroSeed).X % N = 0 ∧
      GenerateOTS (fixedHashPlatform k) () (some zeroSeed) zeroMsg
        = (.error .recoverFailed, ()) ∧
      Error.recoverFailed.isDegenerateSeed = false := by
  obtain ⟨k, hk0, hkN, hR⟩ := exists_scalar_abscissa_N
  obtain ⟨hnk, hns⟩ := fixedHash_scalars hkN zeroSeed
  have hX : (pointR (fixedHashPlatform k).Sum256 zeroSeed).X = N := by
    unfold pointR
    rw [hnk, hR]
  have hk' : nonceK (fixedHashPlatform k).Sum256 zeroSeed ≠ 0 := by
    rw [hnk]
    exact hk0
  have hs' : scalarS (fixedHashPlatform k).Sum256 zeroSeed ≠ 0 := by
    rw [hns]
    exact hk0
  have hx0 : (pointR (fixedHashPlatform k).Sum256 zeroSeed).X ≠ 0 := by
    rw [hX]
    decide
  obtain ⟨e, he, -, -, -, hrec, -⟩ := deriveOTS_rx_ge zeroMsg hk' hx0 (le_of_eq hX.symm)
  have hee : e = .recoverFailed := hrec hs' rfl
  subst hee
  refine ⟨k, hnk, hk0, hX, ?_, ?_, rfl⟩
  · rw [hX, Nat.mod_self]
  · rw [GenerateOTS_some, he]

/-- C8, amended: when the abscissa of `R` is `0` modulo `N`, `GenerateOTS` returns an error
and no bundle, and the error is never "seed results in zero R_x value": the check of line
53 is on the field element. When `k` is zero the abscissa is the zero field element and
the error is the one of line 48, returned before line 53 is reached; when `k` is non-zero
the abscissa is `N` itself, the check of line 53 passes, and the error is the one of line
64 when `s` is zero and the one of the recovery step when `s` is non-zero and the message
has 32 bytes. -/
theorem rx_zero_mod_order_fails {σ : Type} (env : Platform σ) (st : σ)
    (seed msg : List UInt8) (hx : (pointR env.Sum256 seed).X % N = 0) :
    ∃ e, GenerateOTS env st (some seed) msg = (.error e, st) ∧ e ≠ .zeroRx ∧
      (nonceK env.Sum256 seed = 0 → (pointR env.Sum256 seed).X = 0 ∧ e = .zeroK) ∧
      (nonceK env.Sum256 seed ≠ 0 → (pointR env.Sum256 seed).X = N ∧
        (scalarS env.Sum256 seed = 0 → e = .zeroS) ∧
        (scalarS env.Sum256 seed ≠ 0 → msg.length = 32 → e = .recoverFailed)) := by
  rw [GenerateOTS_some]
  by_cases hk : nonceK env.Sum256 seed = 0
  · have hX : (pointR env.Sum256 seed).X = 0 := by
      unfold pointR
      rw [hk]
      exact scalarBaseMult_zero_x
    rw [deriveOTS_eq_assemble, if_pos hk]
    exact ⟨.zeroK, rfl, by simp, fun _ => ⟨hX, rfl⟩, fun h => absurd hk h⟩
  · have hx0 : (pointR env.Sum256 seed).X ≠ 0 := by
      intro h0
      apply (scalarBaseMult_x_ne_zero hk (nonceK_lt env.Sum256 seed)).2
      have h0' : (ScalarBaseMultNonConst (nonceK env.Sum256 seed)).ToAffine.X = 0 := h0
      rw [h0', Nat.cast_zero]
    have hN : (pointR env.Sum256 seed).X = N :=
      eq_N_of_mod_eq_zero hx0 (pointR_x_lt env.Sum256 seed) hx
    obtain ⟨e, he, hne, -, hzs, hrec, -⟩ := deriveOTS_rx_ge msg hk hx0 (le_of_eq hN.symm)
    rw [he]
    exact ⟨e, rfl, hne, fun h => absurd h hk, fun _ => ⟨hN, hzs, hrec⟩⟩

set_option maxRecDepth 100000 in
theorem rx_zero_mod_order_fails_witness :
    ((pointR zeroHashPlatform.Sum256 zeroSeed).X % N = 0 ∧
      nonceK zeroHashPlatform.Sum256 zeroSeed = 0 ∧
      ∃ e, GenerateOTS zeroHashPlatform () (some zeroSeed) zeroMsg = (.error e, ()) ∧
        e ≠ .zeroRx ∧
        (nonceK zeroHashPlatform.Sum256 zeroSeed = 0 →
          (pointR zeroHashPlatform.Sum256 zeroSeed).X = 0 ∧ e = .zeroK) ∧
        (nonceK zeroHashPlatform.Sum256 zeroSeed ≠ 0 →
          (pointR zeroHashPlatform.Sum256 zeroSeed).X = N ∧
          (scalarS zeroHashPlatform.Sum256 zeroSeed = 0 → e = .zeroS) ∧
          (scalarS zeroHashPlatform.Sum256 zeroSeed ≠ 0 → zeroMsg.length = 32 →
            e = .recoverFailed))) ∧
    ∃ k, (pointR (fixedHashPlatform k).Sum256 zeroSeed).X % N = 0 ∧
      nonceK (fixedHashPlatform k).Sum256 zeroSeed ≠ 0 ∧
      scalarS (fixedHashPlatform k).Sum256 zeroSeed ≠ 0 ∧
      ∃ e, GenerateOTS (fixedHashPlatform k) () (some zeroSeed) zeroMsg = (.error e, ()) ∧
        e ≠ .zeroRx ∧
        (nonceK (fixedHashPlatform k).Sum256 zeroSeed = 0 →
          (pointR (fixedHashPlatform k).Sum256 zeroSeed).X = 0 ∧ e = .zeroK) ∧
        (nonceK (fixedHashPlatform k).Sum256 zeroSeed ≠ 0 →
          (pointR (fixedHashPlatform k).Sum256 zeroSeed).X = N ∧
          (scalarS (fixedHashPlatform k).Sum256 zeroSeed = 0 → e = .zeroS) ∧
          (scalarS (fixedHashPlatform k).Sum256 zeroSeed ≠ 0 → zeroMsg.length = 32 →
            e = .recoverFailed)) := by
  refine ⟨⟨by decide!, by decide!,
    rx_zero_mod_order_fails zeroHashPlatform () zeroSeed zeroMsg (by decide!)⟩, ?_⟩
  obtain ⟨k, hk0, hkN, hR⟩ := exists_scalar_abscissa_N
  obtain ⟨hnk, hns⟩ := fixedHash_scalars hkN zeroSeed
  have hmod : (pointR (fixedHashPlatform k).Sum256 zeroSeed).X % N = 0 := by
    unfold pointR
    rw [hnk, hR]
    exact Nat.mod_self N
  exact ⟨k, hmod, by rw [hnk]; exact hk0, by rw [hns]; exact hk0,
    rx_zero_mod_order_fails (fixedHashPlatform k) () zeroSeed zeroMsg hmod⟩

end ots
